import Mathlib

/-!
# Reference-counted handles: `SharedPtr`, `WeakPtr` and their `ControlBlock`

A shallow embedding of `src/weak/sw_fwd.h`, `src/weak/shared.h` and
`src/shared-from-this/weak.h`.

* The heap of control blocks is a list; a `ControlBlock*` is an index into it
  (`none` is `nullptr`).  `new` appends a block, so a fresh block never reuses an
  index.  `delete this` does not remove the record: it is recorded in the event
  log, and so is every call of `StrongDeleter()`.
* Every `SharedPtr` / `WeakPtr` object lives in a slot of a store; the slot
  index plays the role of the object's address, and a slot holding `none` is an
  object whose lifetime is over.  Member functions take the index of `this`
  (and of `other`), so that `h = h` is the call with twice the same index.
* The counters are C++ `int`s.  Signed overflow is undefined behaviour, so the
  embedding covers the defined executions and keeps the counters in `Int`.
* A member function called on an object that does not exist (an index without a
  live object, a block index outside the heap) has no defined behaviour in C++;
  the embedding makes it a no-op.
* The member templates over a related type `Y` have the same bodies as the
  members over `T` and are not embedded a second time.
-/

namespace SmartPtrs

/-- A raw pointer `T*`: `none` is `nullptr`, `some a` is the address `a`. -/
abbrev Ptr := Option Nat

/-- A `ControlBlock*`: `none` is `nullptr`, `some b` is the block at heap index `b`. -/
abbrev BlockRef := Option Nat

/-- The two observable release events of a control block. -/
inductive Event where
  /-- `StrongDeleter()` ran on block `b`: the payload was released. -/
  | release (b : Nat)
  /-- `delete this` ran on block `b`: the block storage was deallocated. -/
  | dealloc (b : Nat)
deriving DecidableEq, Repr

/-- Which derived class a block is: `ControlBlockPtr<T>` or `ControlBlockObj<T>`. -/
inductive BlockKind where
  | outOfPlace
  | inPlace
deriving DecidableEq, Repr

/-- `struct ControlBlock` with the data of its two derived classes: `ptr` is
`ControlBlockPtr::ptr`, respectively the address of `ControlBlockObj::holder`. -/
structure ControlBlock where
  strong : Int := 1
  weak : Int := 0
  kind : BlockKind
  ptr : Ptr
deriving DecidableEq, Repr

/-- The two private members `T* ptr_ = nullptr; ControlBlock* block_ = nullptr;`
that `class SharedPtr` and `class WeakPtr` both declare. -/
structure Handle where
  ptr_ : Ptr := none
  block_ : BlockRef := none
deriving DecidableEq, Repr

/-- `class SharedPtr`. -/
abbrev SharedPtr := Handle

/-- `class WeakPtr`. -/
abbrev WeakPtr := Handle

/-- `class BadWeakPtr : public std::exception`. -/
inductive BadWeakPtr where
  | mk
deriving DecidableEq, Repr

/-- The program state: heap of control blocks, the store of `SharedPtr` objects,
the store of `WeakPtr` objects, event log. -/
structure State where
  heap : List ControlBlock := []
  shared : List (Option SharedPtr) := []
  weak : List (Option WeakPtr) := []
  log : List Event := []
deriving DecidableEq, Repr

/-- Conversion `int → size_t` of `return block_->strong;`: exact on the
non-negative values, `2^64 + x` on the negative ones. -/
def toSizeT (x : Int) : Nat :=
  if 0 ≤ x then x.toNat else (x + 2 ^ 64).toNat

/-! ## Stores and heap as lists -/

/-- Replace the element at index `i` by its image under `f`; nothing happens when
`i` is out of range. -/
def updAt {α : Type} (l : List α) (i : Nat) (f : α → α) : List α :=
  match l[i]? with
  | some a => l.set i (f a)
  | none => l

/-- The live object at index `i` of a store, if any. -/
def slot (l : List (Option Handle)) (i : Nat) : Option Handle :=
  match l[i]? with
  | some (some h) => some h
  | _ => none

/-- Whether a live object is at index `i`. -/
def live (l : List (Option Handle)) (i : Nat) : Bool :=
  (slot l i).isSome

/-- Member `ptr_` of the object at index `i`. -/
def ptrOf (l : List (Option Handle)) (i : Nat) : Ptr :=
  match slot l i with
  | some h => h.ptr_
  | none => none

/-- Member `block_` of the object at index `i`. -/
def blockOf (l : List (Option Handle)) (i : Nat) : BlockRef :=
  match slot l i with
  | some h => h.block_
  | none => none

/-- Assignment to the member `ptr_` of the object at index `i`. -/
def setPtr (l : List (Option Handle)) (i : Nat) (p : Ptr) : List (Option Handle) :=
  updAt l i (Option.map fun h => { h with ptr_ := p })

/-- Assignment to the member `block_` of the object at index `i`. -/
def setBlock (l : List (Option Handle)) (i : Nat) (b : BlockRef) : List (Option Handle) :=
  updAt l i (Option.map fun h => { h with block_ := b })

/-- End of the lifetime of the object at index `i`. -/
def endLife (l : List (Option Handle)) (i : Nat) : List (Option Handle) :=
  updAt l i (fun _ => none)

/-- Number of live objects of a store whose `block_` is block `b`. -/
def holders (l : List (Option Handle)) (b : Nat) : Nat :=
  l.countP (fun o => match o with
    | some h => h.block_ == some b
    | none => false)

/-- Member `strong` of the block at index `b` (`0` outside the heap). -/
def strongAt (h : List ControlBlock) (b : Nat) : Int :=
  match h[b]? with
  | some cb => cb.strong
  | none => 0

/-- Member `weak` of the block at index `b` (`0` outside the heap). -/
def weakAt (h : List ControlBlock) (b : Nat) : Int :=
  match h[b]? with
  | some cb => cb.weak
  | none => 0

/-- Payload address of the block at index `b`: `ControlBlockPtr::ptr`,
respectively `ControlBlockObj::Get()`. -/
def ptrAt (h : List ControlBlock) (b : Nat) : Ptr :=
  match h[b]? with
  | some cb => cb.ptr
  | none => none

namespace State

/-- The state before anything is allocated. -/
def empty : State := {}

/-- Apply `f` to the block at index `b`. -/
def updBlock (s : State) (b : Nat) (f : ControlBlock → ControlBlock) : State :=
  { s with heap := updAt s.heap b f }

/-- `new ControlBlockPtr<T>(p)` / `new ControlBlockObj<T>(...)`: the counters get
their default member initialisers `strong = 1`, `weak = 0`; the new block is at
index `heap.length`. -/
def newBlock (s : State) (k : BlockKind) (p : Ptr) : State :=
  { s with heap := s.heap ++ [{ kind := k, ptr := p }] }

/-- A new `SharedPtr` object with the given members, at index `shared.length`. -/
def pushShared (s : State) (h : SharedPtr) : State :=
  { s with shared := s.shared ++ [some h] }

/-- A new `WeakPtr` object with the given members, at index `weak.length`. -/
def pushWeak (s : State) (h : WeakPtr) : State :=
  { s with weak := s.weak ++ [some h] }

/-- Assignment to the member `ptr_` of the `SharedPtr` at index `i`. -/
def setSharedPtr (s : State) (i : Nat) (p : Ptr) : State :=
  { s with shared := setPtr s.shared i p }

/-- Assignment to the member `block_` of the `SharedPtr` at index `i`. -/
def setSharedBlock (s : State) (i : Nat) (b : BlockRef) : State :=
  { s with shared := setBlock s.shared i b }

/-- Assignment to the member `ptr_` of the `WeakPtr` at index `i`. -/
def setWeakPtr (s : State) (i : Nat) (p : Ptr) : State :=
  { s with weak := setPtr s.weak i p }

/-- Assignment to the member `block_` of the `WeakPtr` at index `i`. -/
def setWeakBlock (s : State) (i : Nat) (b : BlockRef) : State :=
  { s with weak := setBlock s.weak i b }

/-- End of the lifetime of the `SharedPtr` object at index `i`. -/
def endShared (s : State) (i : Nat) : State :=
  { s with shared := endLife s.shared i }

/-- End of the lifetime of the `WeakPtr` object at index `i`. -/
def endWeak (s : State) (i : Nat) : State :=
  { s with weak := endLife s.weak i }

end State

/-! ## `struct ControlBlock` (`src/weak/sw_fwd.h`) -/

namespace ControlBlock

/-- `ControlBlock::StrongDeleter()` (both overrides): the payload is released. -/
def StrongDeleter (s : State) (b : Nat) : State :=
  { s with log := s.log ++ [Event.release b] }

/-- The statement `delete this;`. -/
def deleteThis (s : State) (b : Nat) : State :=
  { s with log := s.log ++ [Event.dealloc b] }

/-- `ControlBlock::IncrementStrong()`. -/
def IncrementStrong (s : State) (b : Nat) : State :=
  s.updBlock b (fun cb => { cb with strong := cb.strong + 1 })

/-- `ControlBlock::IncrementWeak()`. -/
def IncrementWeak (s : State) (b : Nat) : State :=
  s.updBlock b (fun cb => { cb with weak := cb.weak + 1 })

/-- `ControlBlock::DecrementStrong()`. -/
def DecrementStrong (s : State) (b : Nat) : State :=
  if b < s.heap.length then
    let s1 := s.updBlock b (fun cb => { cb with strong := cb.strong - 1 })
    if strongAt s1.heap b = 0 ∧ weakAt s1.heap b = 0 then
      deleteThis (StrongDeleter s1 b) b
    else if strongAt s1.heap b = 0 then
      StrongDeleter s1 b
    else
      s1
  else s

/-- `ControlBlock::DecrementWeak()`. -/
def DecrementWeak (s : State) (b : Nat) : State :=
  if b < s.heap.length then
    let s1 := s.updBlock b (fun cb => { cb with weak := cb.weak - 1 })
    if strongAt s1.heap b = 0 ∧ weakAt s1.heap b = 0 then
      deleteThis s1 b
    else
      s1
  else s

end ControlBlock

open ControlBlock

/-- The guarded call `if (block_ != nullptr) { block_->IncrementStrong(); }`. -/
def incStrongIf (s : State) (block_ : BlockRef) : State :=
  match block_ with
  | some b => IncrementStrong s b
  | none => s

/-- The guarded call `if (block_ != nullptr) { block_->DecrementStrong(); }`. -/
def decStrongIf (s : State) (block_ : BlockRef) : State :=
  match block_ with
  | some b => DecrementStrong s b
  | none => s

/-- The guarded call `if (block_ != nullptr) { block_->IncrementWeak(); }`. -/
def incWeakIf (s : State) (block_ : BlockRef) : State :=
  match block_ with
  | some b => IncrementWeak s b
  | none => s

/-- The guarded call `if (block_ != nullptr) { block_->DecrementWeak(); }`. -/
def decWeakIf (s : State) (block_ : BlockRef) : State :=
  match block_ with
  | some b => DecrementWeak s b
  | none => s

/-! ## `class WeakPtr`: observers (`src/shared-from-this/weak.h`) -/

namespace WeakPtr

/-- `WeakPtr::UseCount() const`. -/
def UseCount (s : State) (this : Nat) : Nat :=
  match blockOf s.weak this with
  | none => 0
  | some b => toSizeT (strongAt s.heap b)

/-- `WeakPtr::Expired() const`. -/
def Expired (s : State) (this : Nat) : Bool :=
  UseCount s this == 0

end WeakPtr

/-! ## `class SharedPtr` (`src/weak/shared.h`) -/

namespace SharedPtr

/-- `SharedPtr()` and `SharedPtr(std::nullptr_t)`. -/
def ctorDefault (s : State) : State :=
  s.pushShared { ptr_ := none, block_ := none }

/-- `explicit SharedPtr(T* ptr)`: `ptr_(ptr), block_(new ControlBlockPtr<T>(ptr))`. -/
def ctorPtr (s : State) (ptr : Ptr) : State :=
  let b := s.heap.length
  let s1 := s.newBlock BlockKind.outOfPlace ptr
  s1.pushShared { ptr_ := ptr, block_ := some b }

/-- `SharedPtr(const SharedPtr& other)`. -/
def ctorCopy (s : State) (other : Nat) : State :=
  if live s.shared other then
    let this := s.shared.length
    let s1 := s.pushShared { ptr_ := ptrOf s.shared other, block_ := blockOf s.shared other }
    incStrongIf s1 (blockOf s1.shared this)
  else s

/-- `SharedPtr(SharedPtr&& other)`. -/
def ctorMove (s : State) (other : Nat) : State :=
  if live s.shared other then
    let s1 := s.pushShared { ptr_ := ptrOf s.shared other, block_ := blockOf s.shared other }
    let s2 := s1.setSharedPtr other none
    s2.setSharedBlock other none
  else s

/-- `SharedPtr(ControlBlockObj<T>* block)`: `block_(block)`, then
`ptr_ = block->Get()`, the address of the block's holder. -/
def ctorBlock (s : State) (block : Nat) : State :=
  let this := s.shared.length
  let s1 := s.pushShared { ptr_ := none, block_ := some block }
  s1.setSharedPtr this (ptrAt s1.heap block)

/-- `SharedPtr(T* ptr, ControlBlock* block)`. -/
def ctorPtrBlock (s : State) (ptr : Ptr) (block : BlockRef) : State :=
  s.pushShared { ptr_ := ptr, block_ := block }

/-- The aliasing constructor `SharedPtr(const SharedPtr<Y>& other, T* ptr)`. -/
def ctorAlias (s : State) (other : Nat) (ptr : Ptr) : State :=
  if live s.shared other then
    let this := s.shared.length
    let s1 := s.pushShared { ptr_ := ptr, block_ := blockOf s.shared other }
    incStrongIf s1 (blockOf s1.shared this)
  else s

/-- `SharedPtr& operator=(const SharedPtr& other)`. -/
def copyAssign (s : State) (this other : Nat) : State :=
  if live s.shared this ∧ live s.shared other then
    if ptrOf s.shared this = ptrOf s.shared other then s
    else
      let s1 := decStrongIf s (blockOf s.shared this)
      let s2 := s1.setSharedPtr this (ptrOf s1.shared other)
      let s3 := s2.setSharedBlock this (blockOf s2.shared other)
      incStrongIf s3 (blockOf s3.shared this)
  else s

/-- `SharedPtr& operator=(SharedPtr&& other)`. -/
def moveAssign (s : State) (this other : Nat) : State :=
  if live s.shared this ∧ live s.shared other then
    if ptrOf s.shared this = ptrOf s.shared other then s
    else
      let s1 := decStrongIf s (blockOf s.shared this)
      let s2 := s1.setSharedPtr this (ptrOf s1.shared other)
      let s3 := s2.setSharedBlock this (blockOf s2.shared other)
      let s4 := s3.setSharedPtr other none
      s4.setSharedBlock other none
  else s

/-- `~SharedPtr()`; afterwards the object at `this` no longer exists. -/
def dtor (s : State) (this : Nat) : State :=
  if live s.shared this then
    let s1 := decStrongIf s (blockOf s.shared this)
    s1.endShared this
  else s

/-- `void Reset()`. -/
def Reset (s : State) (this : Nat) : State :=
  if live s.shared this then
    let s1 := decStrongIf s (blockOf s.shared this)
    let s2 := s1.setSharedPtr this none
    s2.setSharedBlock this none
  else s

/-- `void Reset(Y* ptr)`. -/
def ResetPtr (s : State) (this : Nat) (ptr : Ptr) : State :=
  if live s.shared this then
    let s1 := decStrongIf s (blockOf s.shared this)
    let s2 := s1.setSharedPtr this ptr
    let b := s2.heap.length
    let s3 := s2.newBlock BlockKind.outOfPlace ptr
    s3.setSharedBlock this (some b)
  else s

/-- `void Swap(SharedPtr& other)`: the two `std::swap`s. -/
def Swap (s : State) (this other : Nat) : State :=
  if live s.shared this ∧ live s.shared other then
    let p := ptrOf s.shared this
    let s1 := s.setSharedPtr this (ptrOf s.shared other)
    let s2 := s1.setSharedPtr other p
    let b := blockOf s2.shared this
    let s3 := s2.setSharedBlock this (blockOf s2.shared other)
    s3.setSharedBlock other b
  else s

/-- `T* Get() const`. -/
def Get (s : State) (this : Nat) : Ptr :=
  ptrOf s.shared this

/-- `size_t UseCount() const`. -/
def UseCount (s : State) (this : Nat) : Nat :=
  match blockOf s.shared this with
  | none => 0
  | some b => toSizeT (strongAt s.heap b)

/-- `explicit operator bool() const`. -/
def toBool (s : State) (this : Nat) : Bool :=
  (ptrOf s.shared this).isSome

end SharedPtr

/-- `WeakPtr::Lock() const`; the returned `SharedPtr` is the new object at index
`shared.length`. -/
def WeakPtr.Lock (s : State) (this : Nat) : State :=
  if live s.weak this then
    if WeakPtr.UseCount s this = 0 then
      SharedPtr.ctorDefault s
    else
      let s1 := incStrongIf s (blockOf s.weak this)
      SharedPtr.ctorPtrBlock s1 (ptrOf s1.weak this) (blockOf s1.weak this)
  else s

/-- `explicit SharedPtr(const WeakPtr<T>& other)`.  The first component tells
whether `BadWeakPtr` was thrown, the second is the state the call leaves.  The
new object (members default-initialised to `nullptr`) is at index
`shared.length`; the temporary returned by `other.Lock()` is the next object and
is destroyed at the end of the full expression `*this = other.Lock();`.  When the
constructor throws, no object comes to exist. -/
def SharedPtr.ctorWeak (s : State) (other : Nat) : Except BadWeakPtr Unit × State :=
  if live s.weak other then
    if WeakPtr.Expired s other then
      (Except.error BadWeakPtr.mk, s)
    else
      let this := s.shared.length
      let s1 := SharedPtr.ctorDefault s
      let tmp := s1.shared.length
      let s2 := WeakPtr.Lock s1 other
      let s3 := SharedPtr.moveAssign s2 this tmp
      let s4 := SharedPtr.dtor s3 tmp
      (Except.ok (), s4)
  else (Except.ok (), s)

/-- `MakeShared<T>(args...)`: `new ControlBlockObj<T>(...)`, whose holder is at
address `a`, then `SharedPtr<T>(block)`. -/
def MakeShared (s : State) (a : Nat) : State :=
  let block := s.heap.length
  let s1 := s.newBlock BlockKind.inPlace (some a)
  SharedPtr.ctorBlock s1 block

namespace WeakPtr

/-- `WeakPtr()`. -/
def ctorDefault (s : State) : State :=
  s.pushWeak { ptr_ := none, block_ := none }

/-- `WeakPtr(const WeakPtr& other)`. -/
def ctorCopy (s : State) (other : Nat) : State :=
  if live s.weak other then
    let this := s.weak.length
    let s1 := s.pushWeak { ptr_ := ptrOf s.weak other, block_ := blockOf s.weak other }
    incWeakIf s1 (blockOf s1.weak this)
  else s

/-- `WeakPtr(WeakPtr&& other)`. -/
def ctorMove (s : State) (other : Nat) : State :=
  if live s.weak other then
    let s1 := s.pushWeak { ptr_ := ptrOf s.weak other, block_ := blockOf s.weak other }
    let s2 := s1.setWeakPtr other none
    s2.setWeakBlock other none
  else s

/-- Demotion `WeakPtr(const SharedPtr<T>& other)`. -/
def ctorShared (s : State) (other : Nat) : State :=
  if live s.shared other then
    let this := s.weak.length
    let s1 := s.pushWeak { ptr_ := ptrOf s.shared other, block_ := blockOf s.shared other }
    incWeakIf s1 (blockOf s1.weak this)
  else s

/-- `WeakPtr& operator=(const WeakPtr& other)`. -/
def copyAssign (s : State) (this other : Nat) : State :=
  if live s.weak this ∧ live s.weak other then
    if ptrOf s.weak this = ptrOf s.weak other then s
    else
      let s1 := decWeakIf s (blockOf s.weak this)
      let s2 := s1.setWeakPtr this (ptrOf s1.weak other)
      let s3 := s2.setWeakBlock this (blockOf s2.weak other)
      incWeakIf s3 (blockOf s3.weak this)
  else s

/-- `WeakPtr& operator=(WeakPtr&& other)`. -/
def moveAssign (s : State) (this other : Nat) : State :=
  if live s.weak this ∧ live s.weak other then
    if ptrOf s.weak this = ptrOf s.weak other then s
    else
      let s1 := decWeakIf s (blockOf s.weak this)
      let s2 := s1.setWeakPtr this (ptrOf s1.weak other)
      let s3 := s2.setWeakBlock this (blockOf s2.weak other)
      let s4 := s3.setWeakPtr other none
      s4.setWeakBlock other none
  else s

/-- `~WeakPtr()`; afterwards the object at `this` no longer exists. -/
def dtor (s : State) (this : Nat) : State :=
  if live s.weak this then
    let s1 := decWeakIf s (blockOf s.weak this)
    s1.endWeak this
  else s

/-- `void Reset()`. -/
def Reset (s : State) (this : Nat) : State :=
  if live s.weak this then
    let s1 := decWeakIf s (blockOf s.weak this)
    let s2 := s1.setWeakPtr this none
    s2.setWeakBlock this none
  else s

/-- `void Swap(WeakPtr& other)`: the two `std::swap`s. -/
def Swap (s : State) (this other : Nat) : State :=
  if live s.weak this ∧ live s.weak other then
    let p := ptrOf s.weak this
    let s1 := s.setWeakPtr this (ptrOf s.weak other)
    let s2 := s1.setWeakPtr other p
    let b := blockOf s2.weak this
    let s3 := s2.setWeakBlock this (blockOf s2.weak other)
    s3.setWeakBlock other b
  else s

end WeakPtr

/-! ## Runs of handle operations -/

/-- One call of a public operation of `SharedPtr` / `WeakPtr`.  Arguments are
object indices; a constructor creates its object at the next free index. -/
inductive Op where
  | sharedDefault
  | sharedPtr (p : Ptr)
  | makeShared (a : Nat)
  | sharedCopy (other : Nat)
  | sharedMove (other : Nat)
  | sharedAlias (other : Nat) (p : Ptr)
  | sharedFromWeak (other : Nat)
  | sharedCopyAssign (this other : Nat)
  | sharedMoveAssign (this other : Nat)
  | sharedDtor (this : Nat)
  | sharedReset (this : Nat)
  | sharedResetPtr (this : Nat) (p : Ptr)
  | sharedSwap (this other : Nat)
  | weakDefault
  | weakCopy (other : Nat)
  | weakMove (other : Nat)
  | weakFromShared (other : Nat)
  | weakCopyAssign (this other : Nat)
  | weakMoveAssign (this other : Nat)
  | weakDtor (this : Nat)
  | weakReset (this : Nat)
  | weakSwap (this other : Nat)
  | weakLock (this : Nat)
deriving DecidableEq, Repr

/-- The state after one operation; a thrown `BadWeakPtr` is caught by the caller. -/
def step (s : State) : Op → State
  | Op.sharedDefault => SharedPtr.ctorDefault s
  | Op.sharedPtr p => SharedPtr.ctorPtr s p
  | Op.makeShared a => MakeShared s a
  | Op.sharedCopy j => SharedPtr.ctorCopy s j
  | Op.sharedMove j => SharedPtr.ctorMove s j
  | Op.sharedAlias j p => SharedPtr.ctorAlias s j p
  | Op.sharedFromWeak j => (SharedPtr.ctorWeak s j).2
  | Op.sharedCopyAssign i j => SharedPtr.copyAssign s i j
  | Op.sharedMoveAssign i j => SharedPtr.moveAssign s i j
  | Op.sharedDtor i => SharedPtr.dtor s i
  | Op.sharedReset i => SharedPtr.Reset s i
  | Op.sharedResetPtr i p => SharedPtr.ResetPtr s i p
  | Op.sharedSwap i j => SharedPtr.Swap s i j
  | Op.weakDefault => WeakPtr.ctorDefault s
  | Op.weakCopy j => WeakPtr.ctorCopy s j
  | Op.weakMove j => WeakPtr.ctorMove s j
  | Op.weakFromShared j => WeakPtr.ctorShared s j
  | Op.weakCopyAssign i j => WeakPtr.copyAssign s i j
  | Op.weakMoveAssign i j => WeakPtr.moveAssign s i j
  | Op.weakDtor i => WeakPtr.dtor s i
  | Op.weakReset i => WeakPtr.Reset s i
  | Op.weakSwap i j => WeakPtr.Swap s i j
  | Op.weakLock i => WeakPtr.Lock s i

/-- The state after a sequence of operations. -/
def run (s : State) (ops : List Op) : State :=
  ops.foldl step s

/-- Number of live `SharedPtr` objects whose `block_` is block `b`. -/
def sharedCount (s : State) (b : Nat) : Nat :=
  holders s.shared b

/-- Number of live `WeakPtr` objects whose `block_` is block `b`. -/
def weakCount (s : State) (b : Nat) : Nat :=
  holders s.weak b

/-- Number of `StrongDeleter()` calls on block `b` so far. -/
def released (s : State) (b : Nat) : Nat :=
  s.log.count (Event.release b)

/-- Number of `delete this` executions on block `b` so far. -/
def deallocated (s : State) (b : Nat) : Nat :=
  s.log.count (Event.dealloc b)

/-- The counting invariant of block index `b`: the counters equal the numbers of
live handles, the payload has been released exactly when `strong` is back to
`0`, the block deallocated exactly when both counters are. -/
structure BlockInv (s : State) (b : Nat) : Prop where
  strong_eq : strongAt s.heap b = holders s.shared b
  weak_eq : weakAt s.heap b = holders s.weak b
  rel_eq : released s b = if b < s.heap.length ∧ strongAt s.heap b = 0 then 1 else 0
  dea_eq : deallocated s b =
    if b < s.heap.length ∧ strongAt s.heap b = 0 ∧ weakAt s.heap b = 0 then 1 else 0

/-- The counting invariant of a state. -/
def Inv (s : State) : Prop :=
  ∀ b, BlockInv s b

/-- Whether an operation is a destructor call. -/
def Op.isDtor : Op → Bool
  | Op.sharedDtor _ => true
  | Op.weakDtor _ => true
  | _ => false

/-- One destructor call for every handle object of the state: `~SharedPtr()` on
every index of the `SharedPtr` store, `~WeakPtr()` on every index of the
`WeakPtr` store. -/
def destroyAll (s : State) : List Op :=
  (List.range s.shared.length).map Op.sharedDtor ++
    (List.range s.weak.length).map Op.weakDtor

/-- The derived class of the block at index `b`, if there is one. -/
def kindAt (h : List ControlBlock) (b : Nat) : Option BlockKind :=
  match h[b]? with
  | some cb => some cb.kind
  | none => none

/-- Whether the call keeps pointer and block of a handle together: it adopts no
null pointer (`SharedPtr(p)`, `Reset(p)`), and an aliasing construction
`SharedPtr(other, p)` passes a null `p` exactly when `other` holds no block. -/
def Op.pairs (s : State) : Op → Bool
  | Op.sharedPtr p => p.isSome
  | Op.sharedResetPtr _ p => p.isSome
  | Op.sharedAlias j p => p.isSome == (blockOf s.shared j).isSome
  | _ => true

/-- Whether every call of the run keeps pointer and block together. -/
def runPairs (s : State) : List Op → Bool
  | [] => true
  | op :: ops => op.pairs s && runPairs (step s op) ops

/-- Every live handle of the store has a pointer exactly when it has a block. -/
def PairedStore (l : List (Option Handle)) : Prop :=
  ∀ i, (ptrOf l i).isSome = (blockOf l i).isSome

/-- Every live `SharedPtr` and `WeakPtr` has a pointer exactly when it has a block. -/
def Paired (s : State) : Prop :=
  PairedStore s.shared ∧ PairedStore s.weak

/-! ## Object stores in general -/

namespace Store

/-- The live object at index `i` of a store, if any. -/
def slot {α : Type} (l : List (Option α)) (i : Nat) : Option α :=
  match l[i]? with
  | some (some a) => some a
  | _ => none

/-- Whether a live object is at index `i`. -/
def live {α : Type} (l : List (Option α)) (i : Nat) : Bool :=
  (slot l i).isSome

/-- Assignment to members of the object at index `i`: it becomes `g` of itself. -/
def upd {α : Type} (l : List (Option α)) (i : Nat) (g : α → α) : List (Option α) :=
  updAt l i (Option.map g)

/-- End of the lifetime of the object at index `i`. -/
def kill {α : Type} (l : List (Option α)) (i : Nat) : List (Option α) :=
  updAt l i (fun _ => none)

/-- Number of live objects of the store whose pointer member `key` is the address `o`. -/
def count {α : Type} (key : α → Ptr) (l : List (Option α)) (o : Nat) : Nat :=
  l.countP (fun x => match x with
    | some a => key a == some o
    | none => false)

end Store

/-! ## `src/intrusive/intrusive.h` -/

namespace Intrusive

/-- Arithmetic on `size_t` is modulo `2^64`. -/
def sizeMod : Nat := 2 ^ 64

/-- `class SimpleCounter`: the member `size_t count_ = 0`. -/
structure SimpleCounter where
  count_ : Nat := 0
deriving DecidableEq, Repr

namespace SimpleCounter

/-- `SimpleCounter::IncRef()`: `++count_`. -/
def IncRef (c : SimpleCounter) : SimpleCounter :=
  { count_ := (c.count_ + 1) % sizeMod }

/-- `SimpleCounter::DecRef()`: `--count_`. -/
def DecRef (c : SimpleCounter) : SimpleCounter :=
  { count_ := (c.count_ + sizeMod - 1) % sizeMod }

/-- `SimpleCounter::RefCount() const`. -/
def RefCount (c : SimpleCounter) : Nat :=
  c.count_

end SimpleCounter

/-- `class IntrusivePtr`: the private member `T* ptr_ = nullptr`; the address of
a `RefCounted` object is its index in `objects`. -/
structure IntrusivePtr where
  ptr_ : Ptr := none
deriving DecidableEq, Repr

/-- The program state: the `RefCounted` objects (their member `counter_`), the
store of `IntrusivePtr` objects, and the log of the calls
`Deleter{}.Destroy(object)`.  A destroyed object keeps its record. -/
structure IState where
  objects : List SimpleCounter := []
  handles : List (Option IntrusivePtr) := []
  destroyed : List Nat := []
deriving DecidableEq, Repr

/-- The state before anything is allocated. -/
def IState.empty : IState := {}

/-- Member `ptr_` of the `IntrusivePtr` at index `i`. -/
def ptrOf (l : List (Option IntrusivePtr)) (i : Nat) : Ptr :=
  match Store.slot l i with
  | some h => h.ptr_
  | none => none

/-- Assignment to the member `ptr_` of the object at index `i` of the store. -/
def setPtr (l : List (Option IntrusivePtr)) (i : Nat) (p : Ptr) : List (Option IntrusivePtr) :=
  Store.upd l i (fun h => { h with ptr_ := p })

/-- Number of live `IntrusivePtr` objects of the store whose `ptr_` is object `o`. -/
def owners (l : List (Option IntrusivePtr)) (o : Nat) : Nat :=
  Store.count IntrusivePtr.ptr_ l o

/-- Assignment to the member `ptr_` of the `IntrusivePtr` at index `i`. -/
def IState.setPtr (s : IState) (i : Nat) (p : Ptr) : IState :=
  { s with handles := Intrusive.setPtr s.handles i p }

/-- A new `IntrusivePtr` object with the given member, at index `handles.length`. -/
def IState.push (s : IState) (h : IntrusivePtr) : IState :=
  { s with handles := s.handles ++ [some h] }

/-- End of the lifetime of the `IntrusivePtr` object at index `i`. -/
def IState.endHandle (s : IState) (i : Nat) : IState :=
  { s with handles := Store.kill s.handles i }

/-- `DefaultDelete::Destroy(object)`: `delete object`. -/
def DefaultDelete.Destroy (s : IState) (object : Nat) : IState :=
  { s with destroyed := s.destroyed ++ [object] }

namespace RefCounted

/-- `RefCounted()` as run by `new T(...)`: `counter_(Counter())`; the new object
is at index `objects.length`. -/
def ctor (s : IState) : IState :=
  { s with objects := s.objects ++ [{ count_ := 0 }] }

/-- `RefCounted(const RefCounted& other)`: `counter_(Counter())`; the new object
is at index `objects.length`. -/
def ctorCopy (s : IState) (_other : Nat) : IState :=
  { s with objects := s.objects ++ [{ count_ := 0 }] }

/-- `RefCounted& operator=(const RefCounted& other)`: `return *this;`. -/
def assign (s : IState) (_this _other : Nat) : IState :=
  s

/-- `size_t RefCount() const`. -/
def RefCount (s : IState) (this : Nat) : Nat :=
  match s.objects[this]? with
  | some c => c.RefCount
  | none => 0

/-- `void IncRef()`. -/
def IncRef (s : IState) (this : Nat) : IState :=
  { s with objects := updAt s.objects this SimpleCounter.IncRef }

/-- `void DecRef()`. -/
def DecRef (s : IState) (this : Nat) : IState :=
  if this < s.objects.length then
    let s1 := if RefCount s this > 0 then
        { s with objects := updAt s.objects this SimpleCounter.DecRef }
      else s
    if RefCount s1 this = 0 then DefaultDelete.Destroy s1 this else s1
  else s

end RefCounted

/-- The guarded call `if (ptr_ != nullptr) { ptr_->IncRef(); }`. -/
def incRefIf (s : IState) (ptr_ : Ptr) : IState :=
  match ptr_ with
  | some o => RefCounted.IncRef s o
  | none => s

/-- The guarded call `if (ptr_ != nullptr) { ptr_->DecRef(); }`. -/
def decRefIf (s : IState) (ptr_ : Ptr) : IState :=
  match ptr_ with
  | some o => RefCounted.DecRef s o
  | none => s

namespace IntrusivePtr

/-- `IntrusivePtr()` and `IntrusivePtr(std::nullptr_t)`. -/
def ctorDefault (s : IState) : IState :=
  s.push { ptr_ := none }

/-- `IntrusivePtr(T* ptr)`. -/
def ctorPtr (s : IState) (ptr : Ptr) : IState :=
  let this := s.handles.length
  let s1 := s.push { ptr_ := ptr }
  incRefIf s1 (ptrOf s1.handles this)

/-- `IntrusivePtr(const IntrusivePtr& other)`. -/
def ctorCopy (s : IState) (other : Nat) : IState :=
  if Store.live s.handles other then
    let this := s.handles.length
    let s1 := s.push { ptr_ := ptrOf s.handles other }
    incRefIf s1 (ptrOf s1.handles this)
  else s

/-- `IntrusivePtr(IntrusivePtr&& other)`. -/
def ctorMove (s : IState) (other : Nat) : IState :=
  if Store.live s.handles other then
    let s1 := s.push { ptr_ := ptrOf s.handles other }
    s1.setPtr other none
  else s

/-- `IntrusivePtr& operator=(const IntrusivePtr& other)`. -/
def copyAssign (s : IState) (this other : Nat) : IState :=
  if Store.live s.handles this ∧ Store.live s.handles other then
    if ptrOf s.handles this = ptrOf s.handles other then s
    else
      let s1 := decRefIf s (ptrOf s.handles this)
      let s2 := s1.setPtr this (ptrOf s1.handles other)
      incRefIf s2 (ptrOf s2.handles this)
  else s

/-- `IntrusivePtr& operator=(IntrusivePtr&& other)`. -/
def moveAssign (s : IState) (this other : Nat) : IState :=
  if Store.live s.handles this ∧ Store.live s.handles other then
    if ptrOf s.handles this = ptrOf s.handles other then s
    else
      let s1 := decRefIf s (ptrOf s.handles this)
      let s2 := s1.setPtr this (ptrOf s1.handles other)
      s2.setPtr other none
  else s

/-- `~IntrusivePtr()`; afterwards the object at `this` no longer exists. -/
def dtor (s : IState) (this : Nat) : IState :=
  if Store.live s.handles this then
    let s1 := decRefIf s (ptrOf s.handles this)
    s1.endHandle this
  else s

/-- `void Reset()`. -/
def Reset (s : IState) (this : Nat) : IState :=
  if Store.live s.handles this then
    let s1 := decRefIf s (ptrOf s.handles this)
    s1.setPtr this none
  else s

/-- `void Reset(Y* ptr)`. -/
def ResetPtr (s : IState) (this : Nat) (ptr : Ptr) : IState :=
  if Store.live s.handles this then
    let s1 := decRefIf s (ptrOf s.handles this)
    let s2 := s1.setPtr this ptr
    incRefIf s2 (ptrOf s2.handles this)
  else s

/-- `void Swap(IntrusivePtr& other)`. -/
def Swap (s : IState) (this other : Nat) : IState :=
  if Store.live s.handles this ∧ Store.live s.handles other then
    let p := ptrOf s.handles this
    let s1 := s.setPtr this (ptrOf s.handles other)
    s1.setPtr other p
  else s

/-- `T* Get() const`. -/
def Get (s : IState) (this : Nat) : Ptr :=
  ptrOf s.handles this

/-- `size_t UseCount() const`. -/
def UseCount (s : IState) (this : Nat) : Nat :=
  match ptrOf s.handles this with
  | none => 0
  | some o => RefCounted.RefCount s o

/-- `explicit operator bool() const`. -/
def toBool (s : IState) (this : Nat) : Bool :=
  (ptrOf s.handles this).isSome

end IntrusivePtr

/-- `MakeIntrusive<T>(args...)`: `new T(...)`, then `IntrusivePtr(ptr)`. -/
def MakeIntrusive (s : IState) : IState :=
  let ptr := s.objects.length
  let s1 := RefCounted.ctor s
  IntrusivePtr.ctorPtr s1 (some ptr)

/-- One call on `IntrusivePtr` handles. -/
inductive IOp where
  | makeIntrusive
  | default
  | fromRaw (p : Ptr)
  | copy (other : Nat)
  | move (other : Nat)
  | copyAssign (this other : Nat)
  | moveAssign (this other : Nat)
  | dtor (this : Nat)
  | reset (this : Nat)
  | resetPtr (this : Nat) (p : Ptr)
  | swap (this other : Nat)
deriving DecidableEq, Repr

/-- The state after one call. -/
def istep (s : IState) : IOp → IState
  | IOp.makeIntrusive => MakeIntrusive s
  | IOp.default => IntrusivePtr.ctorDefault s
  | IOp.fromRaw p => IntrusivePtr.ctorPtr s p
  | IOp.copy j => IntrusivePtr.ctorCopy s j
  | IOp.move j => IntrusivePtr.ctorMove s j
  | IOp.copyAssign i j => IntrusivePtr.copyAssign s i j
  | IOp.moveAssign i j => IntrusivePtr.moveAssign s i j
  | IOp.dtor i => IntrusivePtr.dtor s i
  | IOp.reset i => IntrusivePtr.Reset s i
  | IOp.resetPtr i p => IntrusivePtr.ResetPtr s i p
  | IOp.swap i j => IntrusivePtr.Swap s i j

/-- The state after a sequence of calls. -/
def irun (s : IState) (ops : List IOp) : IState :=
  ops.foldl istep s

/-- Number of `Destroy` calls on object `o` so far. -/
def destroyedCount (s : IState) (o : Nat) : Nat :=
  s.destroyed.count o

/-- Whether object `o` exists: it has been created and not destroyed. -/
def alive (s : IState) (o : Nat) : Bool :=
  decide (o < s.objects.length) && (destroyedCount s o == 0)

/-- Whether the raw pointers the call receives point to existing objects at the
moment they are dereferenced (passing a dangling pointer has no defined
behaviour): the argument of `IntrusivePtr(T*)`, and the argument of `Reset(Y*)`
after the handle has given up its old reference. -/
def IOp.defined (s : IState) : IOp → Bool
  | IOp.fromRaw (some o) => alive s o
  | IOp.resetPtr i (some o) => alive (decRefIf s (ptrOf s.handles i)) o
  | _ => true

/-- Whether every call of the run receives pointers to existing objects only. -/
def runDefined (s : IState) : List IOp → Bool
  | [] => true
  | op :: ops => op.defined s && runDefined (istep s op) ops

/-- Number of live `IntrusivePtr` objects whose `ptr_` is object `o`. -/
def ownerCount (s : IState) (o : Nat) : Nat :=
  owners s.handles o

/-- The counting invariant of object index `o`: the counter is the number of
live handles pointing to the object, and `Destroy` has run on it exactly when the
counter of the object is back to `0`. -/
structure ObjInv (s : IState) (o : Nat) : Prop where
  count_eq : RefCounted.RefCount s o = owners s.handles o
  destroyed_eq : destroyedCount s o =
    if o < s.objects.length ∧ RefCounted.RefCount s o = 0 then 1 else 0

/-- The counting invariant of a state. -/
def IInv (s : IState) : Prop :=
  ∀ o, ObjInv s o

end Intrusive

/-! ## `src/unique/unique.h` -/

namespace Unique

/-- `class UniquePtr`: the member `CompressedPair<T*, Deleter> pair_`.  `first` is
`pair_.GetFirst()`, the stored pointer; `second` is `pair_.GetSecond()`, the
deleter, identified by a number (`Deleter{}` is number `0`). -/
structure UniquePtr where
  first : Ptr := none
  second : Nat := 0
deriving DecidableEq, Repr

/-- The program state: the store of `UniquePtr` objects and the log of the deleter
calls `deleter(ptr)`, as pairs of the deleter and the pointer.  Two further lists
record, for the statement of properties only, the non-null pointers that callers
gave to a handle (constructor or `Reset` argument) and the non-null pointers that
`Release()` returned to a caller. -/
structure UState where
  handles : List (Option UniquePtr) := []
  calls : List (Nat × Nat) := []
  adopted : List Nat := []
  handedOut : List Nat := []
deriving DecidableEq, Repr

/-- The state before anything is constructed. -/
def UState.empty : UState := {}

/-- Value of `pair_.GetFirst()` of the `UniquePtr` at index `i`. -/
def firstOf (l : List (Option UniquePtr)) (i : Nat) : Ptr :=
  match Store.slot l i with
  | some h => h.first
  | none => none

/-- Value of `pair_.GetSecond()` of the `UniquePtr` at index `i`. -/
def secondOf (l : List (Option UniquePtr)) (i : Nat) : Nat :=
  match Store.slot l i with
  | some h => h.second
  | none => 0

/-- Assignment `pair_.GetFirst() = p` in the object at index `i` of the store. -/
def setFirst (l : List (Option UniquePtr)) (i : Nat) (p : Ptr) : List (Option UniquePtr) :=
  Store.upd l i (fun h => { h with first := p })

/-- Assignment `pair_.GetSecond() = d` in the object at index `i` of the store. -/
def setSecond (l : List (Option UniquePtr)) (i : Nat) (d : Nat) : List (Option UniquePtr) :=
  Store.upd l i (fun h => { h with second := d })

/-- Number of live `UniquePtr` objects of the store whose pointer is `o`. -/
def owners (l : List (Option UniquePtr)) (o : Nat) : Nat :=
  Store.count UniquePtr.first l o

/-- Assignment `pair_.GetFirst() = p` in the `UniquePtr` at index `i`. -/
def UState.setFirst (s : UState) (i : Nat) (p : Ptr) : UState :=
  { s with handles := Unique.setFirst s.handles i p }

/-- Assignment `pair_.GetSecond() = d` in the `UniquePtr` at index `i`. -/
def UState.setSecond (s : UState) (i : Nat) (d : Nat) : UState :=
  { s with handles := Unique.setSecond s.handles i d }

/-- A new `UniquePtr` object with the given members, at index `handles.length`. -/
def UState.push (s : UState) (h : UniquePtr) : UState :=
  { s with handles := s.handles ++ [some h] }

/-- End of the lifetime of the `UniquePtr` object at index `i`. -/
def UState.endHandle (s : UState) (i : Nat) : UState :=
  { s with handles := Store.kill s.handles i }

/-- The call `deleter(ptr)` of deleter `d` on the non-null pointer `o`. -/
def UState.call (s : UState) (d o : Nat) : UState :=
  { s with calls := s.calls ++ [(d, o)] }

namespace UniquePtr

/-- `explicit UniquePtr(T* ptr = nullptr)`. -/
def ctorPtr (s : UState) (ptr : Ptr) : UState :=
  let this := s.handles.length
  let s1 := s.push {}
  let s2 := s1.setFirst this ptr
  s2.setSecond this 0

/-- `UniquePtr(T* ptr, NewDeleter deleter)`. -/
def ctorPtrDeleter (s : UState) (ptr : Ptr) (deleter : Nat) : UState :=
  let this := s.handles.length
  let s1 := s.push {}
  let s2 := s1.setFirst this ptr
  s2.setSecond this deleter

/-- `T* Release()`: the state afterwards and the returned pointer. -/
def Release (s : UState) (this : Nat) : UState × Ptr :=
  if Store.live s.handles this then
    let ptr := firstOf s.handles this
    (s.setFirst this none, ptr)
  else (s, none)

/-- `void Reset(T* ptr = nullptr)`. -/
def Reset (s : UState) (this : Nat) (ptr : Ptr) : UState :=
  if Store.live s.handles this then
    let old_ptr := firstOf s.handles this
    let s1 := s.setFirst this ptr
    match old_ptr with
    | some o => s1.call (secondOf s1.handles this) o
    | none => s1
  else s

/-- `UniquePtr(UniquePtr&& other)`. -/
def ctorMove (s : UState) (other : Nat) : UState :=
  if Store.live s.handles other then
    let this := s.handles.length
    let s1 := s.push {}
    let s2 := s1.setFirst this (firstOf s1.handles other)
    let s3 := s2.setSecond this (secondOf s2.handles other)
    s3.setFirst other none
  else s

/-- `UniquePtr(UniquePtr<U, DU>&& other)`. -/
def ctorMoveConv (s : UState) (other : Nat) : UState :=
  if Store.live s.handles other then
    let this := s.handles.length
    let s1 := s.push {}
    let r := Release s1 other
    let s2 := r.1.setFirst this r.2
    let s3 := s2.setSecond this (secondOf s2.handles other)
    Reset s3 other none
  else s

/-- `UniquePtr& operator=(UniquePtr&& other)`, and the overload for
`UniquePtr<U, DU>&&` with the same body. -/
def moveAssign (s : UState) (this other : Nat) : UState :=
  if Store.live s.handles this ∧ Store.live s.handles other then
    let r := Release s other
    let s1 := Reset r.1 this r.2
    s1.setSecond this (secondOf s1.handles other)
  else s

/-- `UniquePtr& operator=(std::nullptr_t)`. -/
def assignNull (s : UState) (this : Nat) : UState :=
  Reset s this none

/-- `~UniquePtr()`; afterwards the object at `this` no longer exists. -/
def dtor (s : UState) (this : Nat) : UState :=
  if Store.live s.handles this then
    let s1 := match firstOf s.handles this with
      | some o => (s.call (secondOf s.handles this) o).setFirst this none
      | none => s
    s1.endHandle this
  else s

/-- `void Swap(UniquePtr& other)`: `std::swap(this->pair_, other.pair_)`, that is
`tmp = move(a); a = move(b); b = move(tmp)` member by member. -/
def Swap (s : UState) (this other : Nat) : UState :=
  if Store.live s.handles this ∧ Store.live s.handles other then
    let tmp1 := firstOf s.handles this
    let tmp2 := secondOf s.handles this
    let s1 := (s.setFirst this (firstOf s.handles other)).setSecond this (secondOf s.handles other)
    (s1.setFirst other tmp1).setSecond other tmp2
  else s

/-- `T* Get() const`. -/
def Get (s : UState) (this : Nat) : Ptr :=
  firstOf s.handles this

/-- `explicit operator bool() const`. -/
def toBool (s : UState) (this : Nat) : Bool :=
  match firstOf s.handles this with
  | none => false
  | some _ => true

end UniquePtr

/-- Record that a caller gave the pointer `p` to a handle. -/
def adopt (s : UState) (p : Ptr) : UState :=
  match p with
  | some o => { s with adopted := s.adopted ++ [o] }
  | none => s

/-- Record that `Release()` returned the pointer `p` to a caller. -/
def handOut (s : UState) (p : Ptr) : UState :=
  match p with
  | some o => { s with handedOut := s.handedOut ++ [o] }
  | none => s

/-- One call on `UniquePtr` handles. -/
inductive UOp where
  | ctor (p : Ptr)
  | ctorDel (p : Ptr) (d : Nat)
  | move (other : Nat)
  | moveConv (other : Nat)
  | moveAssign (this other : Nat)
  | assignNull (this : Nat)
  | dtor (this : Nat)
  | release (this : Nat)
  | reset (this : Nat) (q : Ptr)
  | swap (this other : Nat)
deriving DecidableEq, Repr

/-- The state after one call.  A call on an object that does not exist has no
defined behaviour and is a no-op that records nothing. -/
def ustep (s : UState) : UOp → UState
  | UOp.ctor p => adopt (UniquePtr.ctorPtr s p) p
  | UOp.ctorDel p d => adopt (UniquePtr.ctorPtrDeleter s p d) p
  | UOp.move j => UniquePtr.ctorMove s j
  | UOp.moveConv j => UniquePtr.ctorMoveConv s j
  | UOp.moveAssign i j => UniquePtr.moveAssign s i j
  | UOp.assignNull i => UniquePtr.assignNull s i
  | UOp.dtor i => UniquePtr.dtor s i
  | UOp.release i => handOut (UniquePtr.Release s i).1 (UniquePtr.Release s i).2
  | UOp.reset i q =>
    if Store.live s.handles i then adopt (UniquePtr.Reset s i q) q else s
  | UOp.swap i j => UniquePtr.Swap s i j

/-- The state after a sequence of calls. -/
def urun (s : UState) (ops : List UOp) : UState :=
  ops.foldl ustep s

/-- Number of deleter calls on the pointer `o` so far. -/
def callCount (s : UState) (o : Nat) : Nat :=
  (s.calls.map Prod.snd).count o

/-- Number of times a caller gave the pointer `o` to a handle. -/
def adoptedCount (s : UState) (o : Nat) : Nat :=
  s.adopted.count o

/-- Number of times `Release()` returned the pointer `o` to a caller. -/
def handedOutCount (s : UState) (o : Nat) : Nat :=
  s.handedOut.count o

/-- Whether the pointer the call adopts, if it is not null, has not been adopted
before. -/
def UOp.fresh (s : UState) : UOp → Bool
  | UOp.ctor (some o) => adoptedCount s o == 0
  | UOp.ctorDel (some o) _ => adoptedCount s o == 0
  | UOp.reset _ (some o) => adoptedCount s o == 0
  | _ => true

/-- Whether each non-null pointer is adopted at most once in the run. -/
def runFresh (s : UState) : List UOp → Bool
  | [] => true
  | op :: ops => op.fresh s && runFresh (ustep s op) ops

/-- Whether the store has no live `UniquePtr` object. -/
def allDestroyed (s : UState) : Bool :=
  s.handles.all (fun h => h.isNone)

/-- The ownership invariant of pointer `o`: it is held by a live handle, or has
been passed to a deleter, or has been returned by `Release()`, as many times as
it has been adopted. -/
def UInv (s : UState) : Prop :=
  ∀ o, owners s.handles o + callCount s o + handedOutCount s o = adoptedCount s o

end Unique

/-! ## `struct ControlBlock` with a single counter (`src/shared/sw_fwd.h`) -/

namespace Shared

/-- `struct ControlBlock` of `src/shared/sw_fwd.h` with the data of its two derived
classes: `ptr` is `ControlBlockPtr::ptr`, respectively the address of
`ControlBlockObj::holder`. -/
structure ControlBlock where
  counter : Int := 1
  kind : BlockKind
  ptr : Ptr
deriving DecidableEq, Repr

/-- The heap of single-counter control blocks and the event log. -/
structure State where
  heap : List ControlBlock := []
  log : List Event := []
deriving DecidableEq, Repr

/-- The state before anything is allocated. -/
def State.empty : State := {}

/-- `new ControlBlockPtr<T>(p)` / `new ControlBlockObj<T>(...)`: the counter gets
its default member initialiser `counter = 1`; the new block is at index
`heap.length`. -/
def State.newBlock (s : State) (k : BlockKind) (p : Ptr) : State :=
  { s with heap := s.heap ++ [{ kind := k, ptr := p }] }

/-- Member `counter` of the block at index `b` (`0` outside the heap). -/
def counterAt (h : List ControlBlock) (b : Nat) : Int :=
  match h[b]? with
  | some cb => cb.counter
  | none => 0

namespace ControlBlock

/-- `ControlBlock::Deleter()` (both overrides): the payload is released. -/
def Deleter (s : State) (b : Nat) : State :=
  { s with log := s.log ++ [Event.release b] }

/-- The statement `delete this;`. -/
def deleteThis (s : State) (b : Nat) : State :=
  { s with log := s.log ++ [Event.dealloc b] }

/-- `ControlBlock::Increment()`. -/
def Increment (s : State) (b : Nat) : State :=
  { s with heap := updAt s.heap b (fun cb => { cb with counter := cb.counter + 1 }) }

/-- `ControlBlock::Decrement()`. -/
def Decrement (s : State) (b : Nat) : State :=
  if b < s.heap.length then
    let s1 : State :=
      { s with heap := updAt s.heap b (fun cb => { cb with counter := cb.counter - 1 }) }
    if counterAt s1.heap b = 0 then
      deleteThis (Deleter s1 b) b
    else
      s1
  else s

end ControlBlock

end Shared

/-- A call on the counter of a control block: an increment or a decrement. -/
inductive CounterOp where
  | increment
  | decrement
deriving DecidableEq, Repr

/-- The call on block `b` of `src/shared/sw_fwd.h`. -/
def stepCounter (s : Shared.State) (b : Nat) : CounterOp → Shared.State
  | CounterOp.increment => Shared.ControlBlock.Increment s b
  | CounterOp.decrement => Shared.ControlBlock.Decrement s b

/-- The call on the `strong` counter of block `b` of `src/weak/sw_fwd.h`. -/
def stepStrong (s : State) (b : Nat) : CounterOp → State
  | CounterOp.increment => ControlBlock.IncrementStrong s b
  | CounterOp.decrement => ControlBlock.DecrementStrong s b

/-- A sequence of calls on block `b` of `src/shared/sw_fwd.h`. -/
def runCounter (s : Shared.State) (b : Nat) (ops : List CounterOp) : Shared.State :=
  ops.foldl (fun t op => stepCounter t b op) s

/-- A sequence of calls on the `strong` counter of block `b` of `src/weak/sw_fwd.h`. -/
def runStrong (s : State) (b : Nat) (ops : List CounterOp) : State :=
  ops.foldl (fun t op => stepStrong t b op) s

/-- The correspondence between a heap of single-counter blocks and a heap of
two-counter blocks without weak references: the same blocks with
`counter == strong` and `weak == 0`, and the same event log. -/
def Sim (s : Shared.State) (t : State) : Prop :=
  s.log = t.log ∧ s.heap.length = t.heap.length ∧
    ∀ b, Shared.counterAt s.heap b = strongAt t.heap b ∧ weakAt t.heap b = 0

/-! ## Lemmas on lists, stores and the heap -/

theorem getElem?_updAt {α : Type} (l : List α) (i j : Nat) (f : α → α) :
    (updAt l i f)[j]? = if j = i then l[i]?.map f else l[j]? := by
  unfold updAt
  cases h : l[i]? with
  | none =>
    by_cases hj : j = i
    · subst hj; simp [h]
    · simp [hj]
  | some a =>
    have hi : i < l.length := by
      rcases List.getElem?_eq_some.1 h with ⟨hi, _⟩
      exact hi
    by_cases hj : j = i
    · subst hj; simp [List.getElem?_set, hi]
    · have hji : i ≠ j := fun e => hj e.symm
      simp [List.getElem?_set, hj, hji]

theorem length_updAt {α : Type} (l : List α) (i : Nat) (f : α → α) :
    (updAt l i f).length = l.length := by
  unfold updAt
  cases l[i]? <;> simp

theorem countP_updAt {α : Type} (p : α → Bool) (l : List α) (i : Nat) (f : α → α) :
    ((updAt l i f).countP p : Int) = (l.countP p : Int) +
      (match l[i]? with
        | some a => (if p (f a) then 1 else 0) - (if p a then 1 else 0)
        | none => 0) := by
  induction l generalizing i with
  | nil => simp [updAt]
  | cons x l ih =>
    cases i with
    | zero =>
      simp only [updAt, List.getElem?_cons_zero, List.set_cons_zero, List.countP_cons]
      split_ifs <;> push_cast <;> omega
    | succ i =>
      have h := ih i
      simp only [updAt, List.getElem?_cons_succ] at h ⊢
      cases hl : l[i]? with
      | none => simp
      | some a =>
        simp only [hl] at h
        simp only [List.set_cons_succ, List.countP_cons]
        push_cast
        omega

theorem slot_append (l : List (Option Handle)) (h : Handle) (j : Nat) :
    slot (l ++ [some h]) j = if j = l.length then some h else slot l j := by
  unfold slot
  rw [List.getElem?_append]
  by_cases h1 : j < l.length
  · have : j ≠ l.length := by omega
    simp [h1, this]
  · by_cases h2 : j = l.length
    · subst h2; simp
    · have h3 : l.length ≤ j := by omega
      have h4 : l[j]? = none := List.getElem?_eq_none h3
      have h5 : j - l.length ≠ 0 := by omega
      obtain ⟨k, hk⟩ := Nat.exists_eq_succ_of_ne_zero h5
      simp [h1, h2, h4, hk]

theorem slot_updAt_map (l : List (Option Handle)) (i j : Nat) (g : Handle → Handle) :
    slot (updAt l i (Option.map g)) j = if j = i then (slot l i).map g else slot l j := by
  unfold slot
  rw [getElem?_updAt]
  by_cases hj : j = i
  · subst hj
    simp only [if_true]
    rcases l[j]? with _ | _ | a <;> rfl
  · simp [hj]

theorem slot_endLife (l : List (Option Handle)) (i j : Nat) :
    slot (endLife l i) j = if j = i then none else slot l j := by
  unfold slot endLife
  rw [getElem?_updAt]
  by_cases hj : j = i
  · subst hj
    simp only [if_true]
    rcases l[j]? with _ | _ | a <;> rfl
  · simp [hj]

/-! ### Reads after writes in a store -/

theorem live_append (l : List (Option Handle)) (h : Handle) (j : Nat) :
    live (l ++ [some h]) j = (decide (j = l.length) || live l j) := by
  unfold live; rw [slot_append]; by_cases hj : j = l.length <;> simp [hj]

theorem ptrOf_append (l : List (Option Handle)) (h : Handle) (j : Nat) :
    ptrOf (l ++ [some h]) j = if j = l.length then h.ptr_ else ptrOf l j := by
  unfold ptrOf; rw [slot_append]; by_cases hj : j = l.length <;> simp [hj]

theorem blockOf_append (l : List (Option Handle)) (h : Handle) (j : Nat) :
    blockOf (l ++ [some h]) j = if j = l.length then h.block_ else blockOf l j := by
  unfold blockOf; rw [slot_append]; by_cases hj : j = l.length <;> simp [hj]

theorem live_setPtr (l : List (Option Handle)) (i j : Nat) (p : Ptr) :
    live (setPtr l i p) j = live l j := by
  unfold live setPtr; rw [slot_updAt_map]
  by_cases hj : j = i
  · subst hj; cases slot l j <;> simp
  · simp [hj]

theorem live_setBlock (l : List (Option Handle)) (i j : Nat) (b : BlockRef) :
    live (setBlock l i b) j = live l j := by
  unfold live setBlock; rw [slot_updAt_map]
  by_cases hj : j = i
  · subst hj; cases slot l j <;> simp
  · simp [hj]

theorem live_endLife (l : List (Option Handle)) (i j : Nat) :
    live (endLife l i) j = (!decide (j = i) && live l j) := by
  unfold live; rw [slot_endLife]; by_cases hj : j = i <;> simp [hj]

theorem ptrOf_setPtr (l : List (Option Handle)) (i j : Nat) (p : Ptr) :
    ptrOf (setPtr l i p) j = if j = i ∧ live l i = true then p else ptrOf l j := by
  unfold ptrOf live setPtr; rw [slot_updAt_map]
  by_cases hj : j = i
  · subst hj; cases slot l j <;> simp
  · simp [hj]

theorem ptrOf_setBlock (l : List (Option Handle)) (i j : Nat) (b : BlockRef) :
    ptrOf (setBlock l i b) j = ptrOf l j := by
  unfold ptrOf setBlock; rw [slot_updAt_map]
  by_cases hj : j = i
  · subst hj; cases slot l j <;> simp
  · simp [hj]

theorem ptrOf_endLife (l : List (Option Handle)) (i j : Nat) :
    ptrOf (endLife l i) j = if j = i then none else ptrOf l j := by
  unfold ptrOf; rw [slot_endLife]; by_cases hj : j = i <;> simp [hj]

theorem blockOf_setPtr (l : List (Option Handle)) (i j : Nat) (p : Ptr) :
    blockOf (setPtr l i p) j = blockOf l j := by
  unfold blockOf setPtr; rw [slot_updAt_map]
  by_cases hj : j = i
  · subst hj; cases slot l j <;> simp
  · simp [hj]

theorem blockOf_setBlock (l : List (Option Handle)) (i j : Nat) (b : BlockRef) :
    blockOf (setBlock l i b) j = if j = i ∧ live l i = true then b else blockOf l j := by
  unfold blockOf live setBlock; rw [slot_updAt_map]
  by_cases hj : j = i
  · subst hj; cases slot l j <;> simp
  · simp [hj]

theorem blockOf_endLife (l : List (Option Handle)) (i j : Nat) :
    blockOf (endLife l i) j = if j = i then none else blockOf l j := by
  unfold blockOf; rw [slot_endLife]; by_cases hj : j = i <;> simp [hj]

theorem length_setPtr (l : List (Option Handle)) (i : Nat) (p : Ptr) :
    (setPtr l i p).length = l.length := length_updAt _ _ _

theorem length_setBlock (l : List (Option Handle)) (i : Nat) (b : BlockRef) :
    (setBlock l i b).length = l.length := length_updAt _ _ _

theorem length_endLife (l : List (Option Handle)) (i : Nat) :
    (endLife l i).length = l.length := length_updAt _ _ _

theorem live_lt {l : List (Option Handle)} {i : Nat} (h : live l i = true) : i < l.length := by
  unfold live slot at h
  by_contra hn
  have : l[i]? = none := List.getElem?_eq_none (by omega)
  simp [this] at h

theorem blockOf_live {l : List (Option Handle)} {i b : Nat} (h : blockOf l i = some b) :
    live l i = true := by
  unfold blockOf at h; unfold live
  cases hs : slot l i <;> simp [hs] at h ⊢

/-! ### Counting the holders of a block -/

theorem holders_append (l : List (Option Handle)) (h : Handle) (b : Nat) :
    holders (l ++ [some h]) b = holders l b + if h.block_ = some b then 1 else 0 := by
  unfold holders
  simp [List.countP_append, List.countP_cons]

theorem holders_setPtr (l : List (Option Handle)) (i : Nat) (p : Ptr) (b : Nat) :
    holders (setPtr l i p) b = holders l b := by
  have h : (holders (setPtr l i p) b : Int) = holders l b := by
    unfold holders setPtr
    rw [countP_updAt]
    rcases hl : l[i]? with _ | _ | a <;> simp
  exact_mod_cast h

theorem holders_setBlock (l : List (Option Handle)) (i : Nat) (nb : BlockRef) (b : Nat) :
    (holders (setBlock l i nb) b : Int) = holders l b
      - (if blockOf l i = some b then 1 else 0)
      + (if live l i = true ∧ nb = some b then 1 else 0) := by
  unfold holders setBlock
  rw [countP_updAt]
  unfold blockOf live slot
  rcases hl : l[i]? with _ | _ | a
  · simp
  · simp
  · simp
    split_ifs <;> ring

theorem holders_endLife (l : List (Option Handle)) (i : Nat) (b : Nat) :
    (holders (endLife l i) b : Int) = holders l b
      - (if blockOf l i = some b then 1 else 0) := by
  unfold holders endLife
  rw [countP_updAt]
  unfold blockOf slot
  rcases hl : l[i]? with _ | _ | a
  · simp
  · simp
  · simp
    split_ifs <;> ring

theorem holders_pos {l : List (Option Handle)} {i b : Nat} (h : blockOf l i = some b) :
    0 < holders l b := by
  unfold holders
  rw [List.countP_pos_iff]
  unfold blockOf slot at h
  rcases hl : l[i]? with _ | _ | a
  · simp [hl] at h
  · simp [hl] at h
  · simp [hl] at h
    exact ⟨some a, List.getElem?_mem hl, by simp [h]⟩

/-! ### Reads after writes in the heap -/

theorem strongAt_updAt (h : List ControlBlock) (c b : Nat) (f : ControlBlock → ControlBlock) :
    strongAt (updAt h c f) b =
      if b = c then (match h[c]? with
        | some cb => (f cb).strong
        | none => 0) else strongAt h b := by
  unfold strongAt; rw [getElem?_updAt]
  by_cases hb : b = c
  · subst hb; cases h[b]? <;> simp
  · simp [hb]

theorem weakAt_updAt (h : List ControlBlock) (c b : Nat) (f : ControlBlock → ControlBlock) :
    weakAt (updAt h c f) b =
      if b = c then (match h[c]? with
        | some cb => (f cb).weak
        | none => 0) else weakAt h b := by
  unfold weakAt; rw [getElem?_updAt]
  by_cases hb : b = c
  · subst hb; cases h[b]? <;> simp
  · simp [hb]

theorem ptrAt_updAt (h : List ControlBlock) (c b : Nat) (f : ControlBlock → ControlBlock) :
    ptrAt (updAt h c f) b =
      if b = c then (match h[c]? with
        | some cb => (f cb).ptr
        | none => none) else ptrAt h b := by
  unfold ptrAt; rw [getElem?_updAt]
  by_cases hb : b = c
  · subst hb; cases h[b]? <;> simp
  · simp [hb]

theorem strongAt_append (h : List ControlBlock) (cb : ControlBlock) (b : Nat) :
    strongAt (h ++ [cb]) b = if b = h.length then cb.strong else strongAt h b := by
  unfold strongAt; rw [List.getElem?_append]
  by_cases h1 : b < h.length
  · have : b ≠ h.length := by omega
    simp [h1, this]
  · by_cases h2 : b = h.length
    · subst h2; simp
    · have h4 : h[b]? = none := List.getElem?_eq_none (by omega)
      obtain ⟨k, hk⟩ := Nat.exists_eq_succ_of_ne_zero (show b - h.length ≠ 0 by omega)
      simp [h1, h2, h4, hk]

theorem weakAt_append (h : List ControlBlock) (cb : ControlBlock) (b : Nat) :
    weakAt (h ++ [cb]) b = if b = h.length then cb.weak else weakAt h b := by
  unfold weakAt; rw [List.getElem?_append]
  by_cases h1 : b < h.length
  · have : b ≠ h.length := by omega
    simp [h1, this]
  · by_cases h2 : b = h.length
    · subst h2; simp
    · have h4 : h[b]? = none := List.getElem?_eq_none (by omega)
      obtain ⟨k, hk⟩ := Nat.exists_eq_succ_of_ne_zero (show b - h.length ≠ 0 by omega)
      simp [h1, h2, h4, hk]

theorem ptrAt_append (h : List ControlBlock) (cb : ControlBlock) (b : Nat) :
    ptrAt (h ++ [cb]) b = if b = h.length then cb.ptr else ptrAt h b := by
  unfold ptrAt; rw [List.getElem?_append]
  by_cases h1 : b < h.length
  · have : b ≠ h.length := by omega
    simp [h1, this]
  · by_cases h2 : b = h.length
    · subst h2; simp
    · have h4 : h[b]? = none := List.getElem?_eq_none (by omega)
      obtain ⟨k, hk⟩ := Nat.exists_eq_succ_of_ne_zero (show b - h.length ≠ 0 by omega)
      simp [h1, h2, h4, hk]

theorem strongAt_of_le {h : List ControlBlock} {b : Nat} (hb : h.length ≤ b) :
    strongAt h b = 0 := by
  unfold strongAt; rw [List.getElem?_eq_none hb]

theorem weakAt_of_le {h : List ControlBlock} {b : Nat} (hb : h.length ≤ b) :
    weakAt h b = 0 := by
  unfold weakAt; rw [List.getElem?_eq_none hb]

/-! ### Effect of the four counter operations -/

theorem strongAt_IncrementStrong (s : State) (c b : Nat) :
    strongAt (IncrementStrong s c).heap b =
      strongAt s.heap b + if b = c ∧ c < s.heap.length then 1 else 0 := by
  simp only [IncrementStrong, State.updBlock, strongAt_updAt]
  by_cases hb : b = c
  · subst hb
    by_cases hl : b < s.heap.length
    · simp [hl, strongAt, List.getElem?_eq_getElem hl]
    · simp [hl, strongAt, List.getElem?_eq_none (Nat.le_of_not_lt hl)]
  · simp [hb]

theorem weakAt_IncrementStrong (s : State) (c b : Nat) :
    weakAt (IncrementStrong s c).heap b = weakAt s.heap b := by
  simp only [IncrementStrong, State.updBlock, weakAt_updAt]
  by_cases hb : b = c
  · subst hb; unfold weakAt; cases s.heap[b]? <;> simp
  · simp [hb]

theorem ptrAt_IncrementStrong (s : State) (c b : Nat) :
    ptrAt (IncrementStrong s c).heap b = ptrAt s.heap b := by
  simp only [IncrementStrong, State.updBlock, ptrAt_updAt]
  by_cases hb : b = c
  · subst hb; unfold ptrAt; cases s.heap[b]? <;> simp
  · simp [hb]

theorem length_IncrementStrong (s : State) (c : Nat) :
    (IncrementStrong s c).heap.length = s.heap.length := by
  simp [IncrementStrong, State.updBlock, length_updAt]

theorem strongAt_IncrementWeak (s : State) (c b : Nat) :
    strongAt (IncrementWeak s c).heap b = strongAt s.heap b := by
  simp only [IncrementWeak, State.updBlock, strongAt_updAt]
  by_cases hb : b = c
  · subst hb; unfold strongAt; cases s.heap[b]? <;> simp
  · simp [hb]

theorem weakAt_IncrementWeak (s : State) (c b : Nat) :
    weakAt (IncrementWeak s c).heap b =
      weakAt s.heap b + if b = c ∧ c < s.heap.length then 1 else 0 := by
  simp only [IncrementWeak, State.updBlock, weakAt_updAt]
  by_cases hb : b = c
  · subst hb
    by_cases hl : b < s.heap.length
    · simp [hl, weakAt, List.getElem?_eq_getElem hl]
    · simp [hl, weakAt, List.getElem?_eq_none (Nat.le_of_not_lt hl)]
  · simp [hb]

theorem ptrAt_IncrementWeak (s : State) (c b : Nat) :
    ptrAt (IncrementWeak s c).heap b = ptrAt s.heap b := by
  simp only [IncrementWeak, State.updBlock, ptrAt_updAt]
  by_cases hb : b = c
  · subst hb; unfold ptrAt; cases s.heap[b]? <;> simp
  · simp [hb]

theorem length_IncrementWeak (s : State) (c : Nat) :
    (IncrementWeak s c).heap.length = s.heap.length := by
  simp [IncrementWeak, State.updBlock, length_updAt]

/-- What `DecrementStrong` does, in one equation. -/
theorem DecrementStrong_eq (s : State) (c : Nat) :
    DecrementStrong s c =
      { s with
        heap := updAt s.heap c (fun cb => { cb with strong := cb.strong - 1 })
        log := s.log ++
          (if c < s.heap.length ∧ strongAt s.heap c = 1 then
            (if weakAt s.heap c = 0 then [Event.release c, Event.dealloc c]
             else [Event.release c])
           else []) } := by
  unfold DecrementStrong
  by_cases hl : c < s.heap.length
  · have hs : strongAt (updAt s.heap c fun cb => { cb with strong := cb.strong - 1 }) c
        = strongAt s.heap c - 1 := by
      rw [strongAt_updAt]; simp [strongAt, List.getElem?_eq_getElem hl]
    have hw : weakAt (updAt s.heap c fun cb => { cb with strong := cb.strong - 1 }) c
        = weakAt s.heap c := by
      rw [weakAt_updAt]; simp [weakAt, List.getElem?_eq_getElem hl]
    simp only [hl, if_true, State.updBlock, hs, hw, true_and]
    have e : strongAt s.heap c - 1 = 0 ↔ strongAt s.heap c = 1 := by omega
    simp only [e]
    by_cases h1 : strongAt s.heap c = 1
    · by_cases h2 : weakAt s.heap c = 0
      · simp [h1, h2, StrongDeleter, deleteThis]
      · simp [h1, h2, StrongDeleter]
    · simp [h1]
  · have : updAt s.heap c (fun cb => { cb with strong := cb.strong - 1 }) = s.heap := by
      unfold updAt; rw [List.getElem?_eq_none (Nat.le_of_not_lt hl)]
    simp [hl, this]

/-- What `DecrementWeak` does, in one equation. -/
theorem DecrementWeak_eq (s : State) (c : Nat) :
    DecrementWeak s c =
      { s with
        heap := updAt s.heap c (fun cb => { cb with weak := cb.weak - 1 })
        log := s.log ++
          (if c < s.heap.length ∧ strongAt s.heap c = 0 ∧ weakAt s.heap c = 1 then
            [Event.dealloc c]
           else []) } := by
  unfold DecrementWeak
  by_cases hl : c < s.heap.length
  · have hs : strongAt (updAt s.heap c fun cb => { cb with weak := cb.weak - 1 }) c
        = strongAt s.heap c := by
      rw [strongAt_updAt]; simp [strongAt, List.getElem?_eq_getElem hl]
    have hw : weakAt (updAt s.heap c fun cb => { cb with weak := cb.weak - 1 }) c
        = weakAt s.heap c - 1 := by
      rw [weakAt_updAt]; simp [weakAt, List.getElem?_eq_getElem hl]
    simp only [hl, if_true, State.updBlock, hs, hw, true_and]
    have e : weakAt s.heap c - 1 = 0 ↔ weakAt s.heap c = 1 := by omega
    simp only [e]
    by_cases h1 : strongAt s.heap c = 0 ∧ weakAt s.heap c = 1
    · simp [h1, deleteThis]
    · simp [h1]
  · have : updAt s.heap c (fun cb => { cb with weak := cb.weak - 1 }) = s.heap := by
      unfold updAt; rw [List.getElem?_eq_none (Nat.le_of_not_lt hl)]
    simp [hl, this]

/-! ### Fields of the state after a primitive step -/

@[simp] theorem heap_newBlock (s : State) (k : BlockKind) (p : Ptr) :
    (s.newBlock k p).heap = s.heap ++ [{ kind := k, ptr := p }] := rfl

@[simp] theorem shared_newBlock (s : State) (k : BlockKind) (p : Ptr) :
    (s.newBlock k p).shared = s.shared := rfl

@[simp] theorem weak_newBlock (s : State) (k : BlockKind) (p : Ptr) :
    (s.newBlock k p).weak = s.weak := rfl

@[simp] theorem log_newBlock (s : State) (k : BlockKind) (p : Ptr) :
    (s.newBlock k p).log = s.log := rfl

@[simp] theorem heap_pushShared (s : State) (h : SharedPtr) :
    (s.pushShared h).heap = s.heap := rfl

@[simp] theorem shared_pushShared (s : State) (h : SharedPtr) :
    (s.pushShared h).shared = s.shared ++ [some h] := rfl

@[simp] theorem weak_pushShared (s : State) (h : SharedPtr) :
    (s.pushShared h).weak = s.weak := rfl

@[simp] theorem log_pushShared (s : State) (h : SharedPtr) :
    (s.pushShared h).log = s.log := rfl

@[simp] theorem heap_pushWeak (s : State) (h : WeakPtr) :
    (s.pushWeak h).heap = s.heap := rfl

@[simp] theorem shared_pushWeak (s : State) (h : WeakPtr) :
    (s.pushWeak h).shared = s.shared := rfl

@[simp] theorem weak_pushWeak (s : State) (h : WeakPtr) :
    (s.pushWeak h).weak = s.weak ++ [some h] := rfl

@[simp] theorem log_pushWeak (s : State) (h : WeakPtr) :
    (s.pushWeak h).log = s.log := rfl

@[simp] theorem heap_setSharedPtr (s : State) (i : Nat) (p : Ptr) :
    (s.setSharedPtr i p).heap = s.heap := rfl

@[simp] theorem shared_setSharedPtr (s : State) (i : Nat) (p : Ptr) :
    (s.setSharedPtr i p).shared = setPtr s.shared i p := rfl

@[simp] theorem weak_setSharedPtr (s : State) (i : Nat) (p : Ptr) :
    (s.setSharedPtr i p).weak = s.weak := rfl

@[simp] theorem log_setSharedPtr (s : State) (i : Nat) (p : Ptr) :
    (s.setSharedPtr i p).log = s.log := rfl

@[simp] theorem heap_setSharedBlock (s : State) (i : Nat) (b : BlockRef) :
    (s.setSharedBlock i b).heap = s.heap := rfl

@[simp] theorem shared_setSharedBlock (s : State) (i : Nat) (b : BlockRef) :
    (s.setSharedBlock i b).shared = setBlock s.shared i b := rfl

@[simp] theorem weak_setSharedBlock (s : State) (i : Nat) (b : BlockRef) :
    (s.setSharedBlock i b).weak = s.weak := rfl

@[simp] theorem log_setSharedBlock (s : State) (i : Nat) (b : BlockRef) :
    (s.setSharedBlock i b).log = s.log := rfl

@[simp] theorem heap_setWeakPtr (s : State) (i : Nat) (p : Ptr) :
    (s.setWeakPtr i p).heap = s.heap := rfl

@[simp] theorem shared_setWeakPtr (s : State) (i : Nat) (p : Ptr) :
    (s.setWeakPtr i p).shared = s.shared := rfl

@[simp] theorem weak_setWeakPtr (s : State) (i : Nat) (p : Ptr) :
    (s.setWeakPtr i p).weak = setPtr s.weak i p := rfl

@[simp] theorem log_setWeakPtr (s : State) (i : Nat) (p : Ptr) :
    (s.setWeakPtr i p).log = s.log := rfl

@[simp] theorem heap_setWeakBlock (s : State) (i : Nat) (b : BlockRef) :
    (s.setWeakBlock i b).heap = s.heap := rfl

@[simp] theorem shared_setWeakBlock (s : State) (i : Nat) (b : BlockRef) :
    (s.setWeakBlock i b).shared = s.shared := rfl

@[simp] theorem weak_setWeakBlock (s : State) (i : Nat) (b : BlockRef) :
    (s.setWeakBlock i b).weak = setBlock s.weak i b := rfl

@[simp] theorem log_setWeakBlock (s : State) (i : Nat) (b : BlockRef) :
    (s.setWeakBlock i b).log = s.log := rfl

@[simp] theorem heap_endShared (s : State) (i : Nat) :
    (s.endShared i).heap = s.heap := rfl

@[simp] theorem shared_endShared (s : State) (i : Nat) :
    (s.endShared i).shared = endLife s.shared i := rfl

@[simp] theorem weak_endShared (s : State) (i : Nat) :
    (s.endShared i).weak = s.weak := rfl

@[simp] theorem log_endShared (s : State) (i : Nat) :
    (s.endShared i).log = s.log := rfl

@[simp] theorem heap_endWeak (s : State) (i : Nat) :
    (s.endWeak i).heap = s.heap := rfl

@[simp] theorem shared_endWeak (s : State) (i : Nat) :
    (s.endWeak i).shared = s.shared := rfl

@[simp] theorem weak_endWeak (s : State) (i : Nat) :
    (s.endWeak i).weak = endLife s.weak i := rfl

@[simp] theorem log_endWeak (s : State) (i : Nat) :
    (s.endWeak i).log = s.log := rfl

/-! ### Effect of the guarded counter calls -/

@[simp] theorem shared_incStrongIf (s : State) (r : BlockRef) :
    (incStrongIf s r).shared = s.shared := by
  cases r <;> rfl

@[simp] theorem weak_incStrongIf (s : State) (r : BlockRef) :
    (incStrongIf s r).weak = s.weak := by
  cases r <;> rfl

@[simp] theorem log_incStrongIf (s : State) (r : BlockRef) :
    (incStrongIf s r).log = s.log := by
  cases r <;> rfl

@[simp] theorem length_incStrongIf (s : State) (r : BlockRef) :
    (incStrongIf s r).heap.length = s.heap.length := by
  cases r with
  | none => rfl
  | some c => exact length_IncrementStrong s c

@[simp] theorem strongAt_incStrongIf (s : State) (r : BlockRef) (b : Nat) :
    strongAt (incStrongIf s r).heap b =
      strongAt s.heap b + if r = some b ∧ b < s.heap.length then 1 else 0 := by
  cases r with
  | none => simp [incStrongIf]
  | some c =>
    simp only [incStrongIf, strongAt_IncrementStrong, Option.some.injEq]
    by_cases hb : b = c
    · subst hb; simp
    · have : ¬ c = b := fun e => hb e.symm
      simp [hb, this]

@[simp] theorem weakAt_incStrongIf (s : State) (r : BlockRef) (b : Nat) :
    weakAt (incStrongIf s r).heap b = weakAt s.heap b := by
  cases r with
  | none => rfl
  | some c => exact weakAt_IncrementStrong s c b

@[simp] theorem ptrAt_incStrongIf (s : State) (r : BlockRef) (b : Nat) :
    ptrAt (incStrongIf s r).heap b = ptrAt s.heap b := by
  cases r with
  | none => rfl
  | some c => exact ptrAt_IncrementStrong s c b

@[simp] theorem shared_incWeakIf (s : State) (r : BlockRef) :
    (incWeakIf s r).shared = s.shared := by
  cases r <;> rfl

@[simp] theorem weak_incWeakIf (s : State) (r : BlockRef) :
    (incWeakIf s r).weak = s.weak := by
  cases r <;> rfl

@[simp] theorem log_incWeakIf (s : State) (r : BlockRef) :
    (incWeakIf s r).log = s.log := by
  cases r <;> rfl

@[simp] theorem length_incWeakIf (s : State) (r : BlockRef) :
    (incWeakIf s r).heap.length = s.heap.length := by
  cases r with
  | none => rfl
  | some c => exact length_IncrementWeak s c

@[simp] theorem strongAt_incWeakIf (s : State) (r : BlockRef) (b : Nat) :
    strongAt (incWeakIf s r).heap b = strongAt s.heap b := by
  cases r with
  | none => rfl
  | some c => exact strongAt_IncrementWeak s c b

@[simp] theorem weakAt_incWeakIf (s : State) (r : BlockRef) (b : Nat) :
    weakAt (incWeakIf s r).heap b =
      weakAt s.heap b + if r = some b ∧ b < s.heap.length then 1 else 0 := by
  cases r with
  | none => simp [incWeakIf]
  | some c =>
    simp only [incWeakIf, weakAt_IncrementWeak, Option.some.injEq]
    by_cases hb : b = c
    · subst hb; simp
    · have : ¬ c = b := fun e => hb e.symm
      simp [hb, this]

@[simp] theorem ptrAt_incWeakIf (s : State) (r : BlockRef) (b : Nat) :
    ptrAt (incWeakIf s r).heap b = ptrAt s.heap b := by
  cases r with
  | none => rfl
  | some c => exact ptrAt_IncrementWeak s c b

@[simp] theorem shared_decStrongIf (s : State) (r : BlockRef) :
    (decStrongIf s r).shared = s.shared := by
  cases r with
  | none => rfl
  | some c => simp [decStrongIf, DecrementStrong_eq]

@[simp] theorem weak_decStrongIf (s : State) (r : BlockRef) :
    (decStrongIf s r).weak = s.weak := by
  cases r with
  | none => rfl
  | some c => simp [decStrongIf, DecrementStrong_eq]

@[simp] theorem length_decStrongIf (s : State) (r : BlockRef) :
    (decStrongIf s r).heap.length = s.heap.length := by
  cases r with
  | none => rfl
  | some c => simp [decStrongIf, DecrementStrong_eq, length_updAt]

@[simp] theorem strongAt_decStrongIf (s : State) (r : BlockRef) (b : Nat) :
    strongAt (decStrongIf s r).heap b =
      strongAt s.heap b - if r = some b ∧ b < s.heap.length then 1 else 0 := by
  cases r with
  | none => simp [decStrongIf]
  | some c =>
    simp only [decStrongIf, DecrementStrong_eq, strongAt_updAt, Option.some.injEq]
    by_cases hb : b = c
    · subst hb
      by_cases hl : b < s.heap.length
      · simp [hl, strongAt, List.getElem?_eq_getElem hl]
      · simp [hl, strongAt, List.getElem?_eq_none (Nat.le_of_not_lt hl)]
    · have : ¬ c = b := fun e => hb e.symm
      simp [hb, this]

@[simp] theorem weakAt_decStrongIf (s : State) (r : BlockRef) (b : Nat) :
    weakAt (decStrongIf s r).heap b = weakAt s.heap b := by
  cases r with
  | none => rfl
  | some c =>
    simp only [decStrongIf, DecrementStrong_eq, weakAt_updAt]
    by_cases hb : b = c
    · subst hb; unfold weakAt; cases s.heap[b]? <;> simp
    · simp [hb]

@[simp] theorem ptrAt_decStrongIf (s : State) (r : BlockRef) (b : Nat) :
    ptrAt (decStrongIf s r).heap b = ptrAt s.heap b := by
  cases r with
  | none => rfl
  | some c =>
    simp only [decStrongIf, DecrementStrong_eq, ptrAt_updAt]
    by_cases hb : b = c
    · subst hb; unfold ptrAt; cases s.heap[b]? <;> simp
    · simp [hb]

@[simp] theorem released_decStrongIf (s : State) (r : BlockRef) (b : Nat) :
    released (decStrongIf s r) b =
      released s b + if r = some b ∧ b < s.heap.length ∧ strongAt s.heap b = 1 then 1 else 0 := by
  cases r with
  | none => simp [decStrongIf]
  | some c =>
    simp only [decStrongIf, DecrementStrong_eq, released, List.count_append, Option.some.injEq]
    by_cases hb : c = b
    · subst hb
      by_cases h1 : c < s.heap.length ∧ strongAt s.heap c = 1
      · by_cases h2 : weakAt s.heap c = 0 <;> simp [h1, h2]
      · simp [h1]
    · have hb2 : ¬ b = c := fun e => hb e.symm
      simp only [hb, false_and, if_false, add_zero, add_right_eq_self]
      split_ifs <;> simp [hb2]

@[simp] theorem deallocated_decStrongIf (s : State) (r : BlockRef) (b : Nat) :
    deallocated (decStrongIf s r) b =
      deallocated s b +
        if r = some b ∧ b < s.heap.length ∧ strongAt s.heap b = 1 ∧ weakAt s.heap b = 0
        then 1 else 0 := by
  cases r with
  | none => simp [decStrongIf]
  | some c =>
    simp only [decStrongIf, DecrementStrong_eq, deallocated, List.count_append,
      Option.some.injEq]
    by_cases hb : c = b
    · subst hb
      by_cases h1 : c < s.heap.length ∧ strongAt s.heap c = 1
      · by_cases h2 : weakAt s.heap c = 0 <;> simp [h1, h2]
      · have h3 : ¬ (c < s.heap.length ∧ strongAt s.heap c = 1 ∧ weakAt s.heap c = 0) :=
          fun h => h1 ⟨h.1, h.2.1⟩
        simp [h1, h3]
    · have hb2 : ¬ b = c := fun e => hb e.symm
      simp only [hb, false_and, if_false, add_zero, add_right_eq_self]
      split_ifs <;> simp [hb2]

@[simp] theorem shared_decWeakIf (s : State) (r : BlockRef) :
    (decWeakIf s r).shared = s.shared := by
  cases r with
  | none => rfl
  | some c => simp [decWeakIf, DecrementWeak_eq]

@[simp] theorem weak_decWeakIf (s : State) (r : BlockRef) :
    (decWeakIf s r).weak = s.weak := by
  cases r with
  | none => rfl
  | some c => simp [decWeakIf, DecrementWeak_eq]

@[simp] theorem length_decWeakIf (s : State) (r : BlockRef) :
    (decWeakIf s r).heap.length = s.heap.length := by
  cases r with
  | none => rfl
  | some c => simp [decWeakIf, DecrementWeak_eq, length_updAt]

@[simp] theorem strongAt_decWeakIf (s : State) (r : BlockRef) (b : Nat) :
    strongAt (decWeakIf s r).heap b = strongAt s.heap b := by
  cases r with
  | none => rfl
  | some c =>
    simp only [decWeakIf, DecrementWeak_eq, strongAt_updAt]
    by_cases hb : b = c
    · subst hb; unfold strongAt; cases s.heap[b]? <;> simp
    · simp [hb]

@[simp] theorem weakAt_decWeakIf (s : State) (r : BlockRef) (b : Nat) :
    weakAt (decWeakIf s r).heap b =
      weakAt s.heap b - if r = some b ∧ b < s.heap.length then 1 else 0 := by
  cases r with
  | none => simp [decWeakIf]
  | some c =>
    simp only [decWeakIf, DecrementWeak_eq, weakAt_updAt, Option.some.injEq]
    by_cases hb : b = c
    · subst hb
      by_cases hl : b < s.heap.length
      · simp [hl, weakAt, List.getElem?_eq_getElem hl]
      · simp [hl, weakAt, List.getElem?_eq_none (Nat.le_of_not_lt hl)]
    · have : ¬ c = b := fun e => hb e.symm
      simp [hb, this]

@[simp] theorem ptrAt_decWeakIf (s : State) (r : BlockRef) (b : Nat) :
    ptrAt (decWeakIf s r).heap b = ptrAt s.heap b := by
  cases r with
  | none => rfl
  | some c =>
    simp only [decWeakIf, DecrementWeak_eq, ptrAt_updAt]
    by_cases hb : b = c
    · subst hb; unfold ptrAt; cases s.heap[b]? <;> simp
    · simp [hb]

@[simp] theorem released_decWeakIf (s : State) (r : BlockRef) (b : Nat) :
    released (decWeakIf s r) b = released s b := by
  cases r with
  | none => rfl
  | some c =>
    simp only [decWeakIf, DecrementWeak_eq, released, List.count_append]
    split_ifs <;> simp

@[simp] theorem deallocated_decWeakIf (s : State) (r : BlockRef) (b : Nat) :
    deallocated (decWeakIf s r) b =
      deallocated s b +
        if r = some b ∧ b < s.heap.length ∧ strongAt s.heap b = 0 ∧ weakAt s.heap b = 1
        then 1 else 0 := by
  cases r with
  | none => simp [decWeakIf]
  | some c =>
    simp only [decWeakIf, DecrementWeak_eq, deallocated, List.count_append,
      Option.some.injEq]
    by_cases hb : c = b
    · subst hb
      by_cases h1 : c < s.heap.length ∧ strongAt s.heap c = 0 ∧ weakAt s.heap c = 1
      · simp [h1]
      · simp [h1]
    · have hb2 : ¬ b = c := fun e => hb e.symm
      simp only [hb, false_and, if_false, add_zero, add_right_eq_self]
      split_ifs <;> simp [hb2]

/-! ### The event counts are untouched by the steps that do not decrement -/

@[simp] theorem released_newBlock (s : State) (k : BlockKind) (p : Ptr) (b : Nat) :
    released (s.newBlock k p) b = released s b := rfl

@[simp] theorem released_pushShared (s : State) (h : SharedPtr) (b : Nat) :
    released (s.pushShared h) b = released s b := rfl

@[simp] theorem released_pushWeak (s : State) (h : WeakPtr) (b : Nat) :
    released (s.pushWeak h) b = released s b := rfl

@[simp] theorem released_setSharedPtr (s : State) (i : Nat) (p : Ptr) (b : Nat) :
    released (s.setSharedPtr i p) b = released s b := rfl

@[simp] theorem released_setSharedBlock (s : State) (i : Nat) (r : BlockRef) (b : Nat) :
    released (s.setSharedBlock i r) b = released s b := rfl

@[simp] theorem released_setWeakPtr (s : State) (i : Nat) (p : Ptr) (b : Nat) :
    released (s.setWeakPtr i p) b = released s b := rfl

@[simp] theorem released_setWeakBlock (s : State) (i : Nat) (r : BlockRef) (b : Nat) :
    released (s.setWeakBlock i r) b = released s b := rfl

@[simp] theorem released_endShared (s : State) (i : Nat) (b : Nat) :
    released (s.endShared i) b = released s b := rfl

@[simp] theorem released_endWeak (s : State) (i : Nat) (b : Nat) :
    released (s.endWeak i) b = released s b := rfl

@[simp] theorem released_incStrongIf (s : State) (r : BlockRef) (b : Nat) :
    released (incStrongIf s r) b = released s b := by
  cases r <;> rfl

@[simp] theorem released_incWeakIf (s : State) (r : BlockRef) (b : Nat) :
    released (incWeakIf s r) b = released s b := by
  cases r <;> rfl

@[simp] theorem deallocated_newBlock (s : State) (k : BlockKind) (p : Ptr) (b : Nat) :
    deallocated (s.newBlock k p) b = deallocated s b := rfl

@[simp] theorem deallocated_pushShared (s : State) (h : SharedPtr) (b : Nat) :
    deallocated (s.pushShared h) b = deallocated s b := rfl

@[simp] theorem deallocated_pushWeak (s : State) (h : WeakPtr) (b : Nat) :
    deallocated (s.pushWeak h) b = deallocated s b := rfl

@[simp] theorem deallocated_setSharedPtr (s : State) (i : Nat) (p : Ptr) (b : Nat) :
    deallocated (s.setSharedPtr i p) b = deallocated s b := rfl

@[simp] theorem deallocated_setSharedBlock (s : State) (i : Nat) (r : BlockRef) (b : Nat) :
    deallocated (s.setSharedBlock i r) b = deallocated s b := rfl

@[simp] theorem deallocated_setWeakPtr (s : State) (i : Nat) (p : Ptr) (b : Nat) :
    deallocated (s.setWeakPtr i p) b = deallocated s b := rfl

@[simp] theorem deallocated_setWeakBlock (s : State) (i : Nat) (r : BlockRef) (b : Nat) :
    deallocated (s.setWeakBlock i r) b = deallocated s b := rfl

@[simp] theorem deallocated_endShared (s : State) (i : Nat) (b : Nat) :
    deallocated (s.endShared i) b = deallocated s b := rfl

@[simp] theorem deallocated_endWeak (s : State) (i : Nat) (b : Nat) :
    deallocated (s.endWeak i) b = deallocated s b := rfl

@[simp] theorem deallocated_incStrongIf (s : State) (r : BlockRef) (b : Nat) :
    deallocated (incStrongIf s r) b = deallocated s b := by
  cases r <;> rfl

@[simp] theorem deallocated_incWeakIf (s : State) (r : BlockRef) (b : Nat) :
    deallocated (incWeakIf s r) b = deallocated s b := by
  cases r <;> rfl

theorem holdersZ_append (l : List (Option Handle)) (h : Handle) (b : Nat) :
    (holders (l ++ [some h]) b : Int) = holders l b + if h.block_ = some b then 1 else 0 := by
  rw [holders_append]; split_ifs <;> simp

theorem holders_two {l : List (Option Handle)} {i j b : Nat} (hij : i ≠ j)
    (hi : blockOf l i = some b) (hj : blockOf l j = some b) : 2 ≤ holders l b := by
  have h1 := holders_endLife l i b
  have h2 : blockOf (endLife l i) j = some b := by
    have hji : ¬ j = i := fun e => hij e.symm
    rw [blockOf_endLife]; simp [hji, hj]
  have h3 := holders_pos h2
  simp only [hi, if_true] at h1
  omega

/-! ## The counting invariant is kept by every operation -/

theorem BlockInv.of_shared {s : State} {b i : Nat} (h : BlockInv s b)
    (hb : blockOf s.shared i = some b) : b < s.heap.length ∧ 1 ≤ strongAt s.heap b := by
  have hp := holders_pos hb
  have h1 : 1 ≤ strongAt s.heap b := by rw [h.strong_eq]; exact_mod_cast hp
  refine ⟨?_, h1⟩
  by_contra hn
  rw [strongAt_of_le (Nat.le_of_not_lt hn)] at h1
  omega

theorem BlockInv.of_weak {s : State} {b i : Nat} (h : BlockInv s b)
    (hb : blockOf s.weak i = some b) : b < s.heap.length ∧ 1 ≤ weakAt s.heap b := by
  have hp := holders_pos hb
  have h1 : 1 ≤ weakAt s.heap b := by rw [h.weak_eq]; exact_mod_cast hp
  refine ⟨?_, h1⟩
  by_contra hn
  rw [weakAt_of_le (Nat.le_of_not_lt hn)] at h1
  omega

theorem BlockInv.bounds {s : State} {b : Nat} (h : BlockInv s b) :
    (s.heap.length ≤ b → strongAt s.heap b = 0 ∧ weakAt s.heap b = 0) ∧
      0 ≤ strongAt s.heap b ∧ 0 ≤ weakAt s.heap b := by
  refine ⟨fun hle => ⟨strongAt_of_le hle, weakAt_of_le hle⟩, ?_, ?_⟩
  · rw [h.strong_eq]; exact_mod_cast Nat.zero_le _
  · rw [h.weak_eq]; exact_mod_cast Nat.zero_le _

theorem Inv_empty : Inv State.empty := by
  intro b
  constructor <;> simp [State.empty, strongAt, weakAt, holders, released, deallocated]

theorem Inv_ctorDefault (s : State) (h : Inv s) : Inv (SharedPtr.ctorDefault s) := by
  intro b
  obtain ⟨h1, h2, h3, h4⟩ := h b
  unfold SharedPtr.ctorDefault
  refine ⟨?_, ?_, ?_, ?_⟩
  · simp [holdersZ_append, h1]
  · simp [h2]
  · simp [h3]
  · simp [h4]

theorem Inv_ctorPtr (s : State) (p : Ptr) (h : Inv s) : Inv (SharedPtr.ctorPtr s p) := by
  intro b
  obtain ⟨h1, h2, h3, h4⟩ := h b
  obtain ⟨hn, hs0, hw0⟩ := (h b).bounds
  unfold SharedPtr.ctorPtr
  refine ⟨?_, ?_, ?_, ?_⟩
  · simp only [heap_pushShared, heap_newBlock, shared_pushShared, shared_newBlock,
      holdersZ_append, strongAt_append, Option.some.injEq]
    by_cases hb : b = s.heap.length
    · have := hn (by omega)
      simp only [hb, if_true] at *
      omega
    · have : ¬ s.heap.length = b := fun e => hb e.symm
      simp only [hb, this, if_false]
      omega
  · simp only [heap_pushShared, heap_newBlock, weak_pushShared, weak_newBlock, weakAt_append]
    by_cases hb : b = s.heap.length
    · have := hn (by omega)
      simp only [hb, if_true] at *
      omega
    · simp only [hb, if_false]
      omega
  · simp only [released_pushShared, released_newBlock, heap_pushShared, heap_newBlock,
      strongAt_append, List.length_append, List.length_singleton]
    by_cases hb : b = s.heap.length
    · have := hn (by omega)
      simp only [hb, if_true] at *
      split_ifs at h3 ⊢ <;> omega
    · simp only [hb, if_false]
      split_ifs at h3 ⊢ <;> omega
  · simp only [deallocated_pushShared, deallocated_newBlock, heap_pushShared, heap_newBlock,
      strongAt_append, weakAt_append, List.length_append, List.length_singleton]
    by_cases hb : b = s.heap.length
    · have := hn (by omega)
      simp only [hb, if_true] at *
      split_ifs at h4 ⊢ <;> omega
    · simp only [hb, if_false]
      split_ifs at h4 ⊢ <;> omega


theorem Inv_MakeShared (s : State) (a : Nat) (h : Inv s) : Inv (MakeShared s a) := by
  intro b
  obtain ⟨h1, h2, h3, h4⟩ := h b
  obtain ⟨hn, hs0, hw0⟩ := (h b).bounds
  unfold MakeShared SharedPtr.ctorBlock
  refine ⟨?_, ?_, ?_, ?_⟩
  · simp only [heap_pushShared, heap_newBlock, shared_pushShared, shared_newBlock,
      heap_setSharedPtr, shared_setSharedPtr, holders_setPtr,
      holdersZ_append, strongAt_append, Option.some.injEq]
    by_cases hb : b = s.heap.length
    · have := hn (by omega)
      simp only [hb, if_true] at *
      omega
    · have : ¬ s.heap.length = b := fun e => hb e.symm
      simp only [hb, this, if_false]
      omega
  · simp only [heap_pushShared, heap_newBlock, weak_pushShared, weak_newBlock,
      heap_setSharedPtr, weak_setSharedPtr, weakAt_append]
    by_cases hb : b = s.heap.length
    · have := hn (by omega)
      simp only [hb, if_true] at *
      omega
    · simp only [hb, if_false]
      omega
  · simp only [released_pushShared, released_newBlock, released_setSharedPtr,
      heap_pushShared, heap_newBlock, heap_setSharedPtr,
      strongAt_append, List.length_append, List.length_singleton]
    by_cases hb : b = s.heap.length
    · have := hn (by omega)
      simp only [hb, if_true] at *
      split_ifs at h3 ⊢ <;> omega
    · simp only [hb, if_false]
      split_ifs at h3 ⊢ <;> omega
  · simp only [deallocated_pushShared, deallocated_newBlock, deallocated_setSharedPtr,
      heap_pushShared, heap_newBlock, heap_setSharedPtr,
      strongAt_append, weakAt_append, List.length_append, List.length_singleton]
    by_cases hb : b = s.heap.length
    · have := hn (by omega)
      simp only [hb, if_true] at *
      split_ifs at h4 ⊢ <;> omega
    · simp only [hb, if_false]
      split_ifs at h4 ⊢ <;> omega

theorem Inv_ctorCopy (s : State) (j : Nat) (h : Inv s) : Inv (SharedPtr.ctorCopy s j) := by
  intro b
  obtain ⟨h1, h2, h3, h4⟩ := h b
  obtain ⟨hn, hs0, hw0⟩ := (h b).bounds
  have hj := @BlockInv.of_shared s b j (h b)
  unfold SharedPtr.ctorCopy
  split_ifs with hl
  · by_cases hP : blockOf s.shared j = some b
    · obtain ⟨hj1, hj2⟩ := hj hP
      refine ⟨?_, ?_, ?_, ?_⟩
      · simp only [shared_incStrongIf, strongAt_incStrongIf, heap_pushShared,
          shared_pushShared, holdersZ_append, blockOf_append, if_true, hP, hj1, true_and]
        omega
      · simpa using h2
      · simp only [released_incStrongIf, released_pushShared, length_incStrongIf,
          strongAt_incStrongIf, heap_pushShared,
          shared_pushShared, blockOf_append, if_true, hP, hj1, true_and]
        split_ifs at h3 ⊢ <;> omega
      · simp only [deallocated_incStrongIf, deallocated_pushShared, length_incStrongIf,
          strongAt_incStrongIf, weakAt_incStrongIf, heap_pushShared,
          shared_pushShared, blockOf_append, if_true, hP, hj1, true_and]
        split_ifs at h4 ⊢ <;> omega
    · refine ⟨?_, ?_, ?_, ?_⟩
      · simp only [shared_incStrongIf, strongAt_incStrongIf, heap_pushShared,
          shared_pushShared, holdersZ_append, blockOf_append, if_true, hP, false_and,
          if_false]
        omega
      · simpa using h2
      · simp only [released_incStrongIf, released_pushShared, length_incStrongIf,
          strongAt_incStrongIf, heap_pushShared,
          shared_pushShared, blockOf_append, if_true, hP, false_and, if_false]
        split_ifs at h3 ⊢ <;> omega
      · simp only [deallocated_incStrongIf, deallocated_pushShared, length_incStrongIf,
          strongAt_incStrongIf, weakAt_incStrongIf, heap_pushShared,
          shared_pushShared, blockOf_append, if_true, hP, false_and, if_false]
        split_ifs at h4 ⊢ <;> omega
  · exact h b


theorem Inv_ctorAlias (s : State) (j : Nat) (p : Ptr) (h : Inv s) :
    Inv (SharedPtr.ctorAlias s j p) := by
  intro b
  obtain ⟨h1, h2, h3, h4⟩ := h b
  obtain ⟨hn, hs0, hw0⟩ := (h b).bounds
  have hj := @BlockInv.of_shared s b j (h b)
  unfold SharedPtr.ctorAlias
  split_ifs with hl
  · by_cases hP : blockOf s.shared j = some b
    · obtain ⟨hj1, hj2⟩ := hj hP
      refine ⟨?_, ?_, ?_, ?_⟩ <;> simp [holdersZ_append, blockOf_append, hP, hj1] <;>
        split_ifs at h3 h4 ⊢ <;> omega
    · refine ⟨?_, ?_, ?_, ?_⟩ <;> simp [holdersZ_append, blockOf_append, hP] <;>
        split_ifs at h3 h4 ⊢ <;> omega
  · exact h b

theorem Inv_ctorMove (s : State) (j : Nat) (h : Inv s) : Inv (SharedPtr.ctorMove s j) := by
  intro b
  obtain ⟨h1, h2, h3, h4⟩ := h b
  obtain ⟨hn, hs0, hw0⟩ := (h b).bounds
  have hj := @BlockInv.of_shared s b j (h b)
  unfold SharedPtr.ctorMove
  split_ifs with hl
  · have hjl : j ≠ s.shared.length := Nat.ne_of_lt (live_lt hl)
    by_cases hP : blockOf s.shared j = some b
    · obtain ⟨hj1, hj2⟩ := hj hP
      refine ⟨?_, ?_, ?_, ?_⟩ <;>
        simp [holdersZ_append, holders_setBlock, holders_setPtr, blockOf_append, blockOf_setPtr,
          live_setPtr, live_append, hP, hj1, hl, hjl] <;>
        split_ifs at h3 h4 ⊢ <;> omega
    · refine ⟨?_, ?_, ?_, ?_⟩ <;>
        simp [holdersZ_append, holders_setBlock, holders_setPtr, blockOf_append, blockOf_setPtr,
          live_setPtr, live_append, hP, hl, hjl] <;>
        split_ifs at h3 h4 ⊢ <;> omega
  · exact h b

theorem Inv_Reset (s : State) (i : Nat) (h : Inv s) : Inv (SharedPtr.Reset s i) := by
  intro b
  obtain ⟨h1, h2, h3, h4⟩ := h b
  obtain ⟨hn, hs0, hw0⟩ := (h b).bounds
  have hi := @BlockInv.of_shared s b i (h b)
  unfold SharedPtr.Reset
  split_ifs with hl
  · by_cases hP : blockOf s.shared i = some b
    · obtain ⟨hi1, hi2⟩ := hi hP
      refine ⟨?_, ?_, ?_, ?_⟩ <;>
        simp [holders_setBlock, holders_setPtr, blockOf_setPtr, live_setPtr, hP, hi1, hl] <;>
        split_ifs at h3 h4 ⊢ <;> omega
    · refine ⟨?_, ?_, ?_, ?_⟩ <;>
        simp [holders_setBlock, holders_setPtr, blockOf_setPtr, live_setPtr, hP, hl] <;>
        split_ifs at h3 h4 ⊢ <;> omega
  · exact h b

theorem Inv_ResetPtr (s : State) (i : Nat) (p : Ptr) (h : Inv s) :
    Inv (SharedPtr.ResetPtr s i p) := by
  intro b
  obtain ⟨h1, h2, h3, h4⟩ := h b
  obtain ⟨hn, hs0, hw0⟩ := (h b).bounds
  have hi := @BlockInv.of_shared s b i (h b)
  unfold SharedPtr.ResetPtr
  split_ifs with hl
  · by_cases hb : b = s.heap.length
    · have hz := hn (by omega)
      have hP : ¬ blockOf s.shared i = some b := fun e => by
        have := (hi e).1
        omega
      have hb2 : s.heap.length = b := hb.symm
      refine ⟨?_, ?_, ?_, ?_⟩ <;>
        simp [holders_setBlock, holders_setPtr, blockOf_setPtr, live_setPtr, strongAt_append,
          weakAt_append, hP, hl, hb2] <;>
        split_ifs at h3 h4 ⊢ <;> omega
    · have hb2 : ¬ s.heap.length = b := fun e => hb e.symm
      by_cases hP : blockOf s.shared i = some b
      · obtain ⟨hi1, hi2⟩ := hi hP
        refine ⟨?_, ?_, ?_, ?_⟩ <;>
          simp [holders_setBlock, holders_setPtr, blockOf_setPtr, live_setPtr, strongAt_append,
            weakAt_append, hP, hi1, hl, hb, hb2] <;>
          split_ifs at h3 h4 ⊢ <;> omega
      · refine ⟨?_, ?_, ?_, ?_⟩ <;>
          simp [holders_setBlock, holders_setPtr, blockOf_setPtr, live_setPtr, strongAt_append,
            weakAt_append, hP, hl, hb, hb2] <;>
          split_ifs at h3 h4 ⊢ <;> omega
  · exact h b

theorem Inv_dtor (s : State) (i : Nat) (h : Inv s) : Inv (SharedPtr.dtor s i) := by
  intro b
  have hb := h b
  unfold SharedPtr.dtor
  split_ifs with hl
  · obtain ⟨h1, h2, h3, h4⟩ := hb
    have hs := @BlockInv.of_shared s b i (h b)
    have hn : s.heap.length ≤ b → strongAt s.heap b = 0 ∧ weakAt s.heap b = 0 :=
      fun hle => ⟨strongAt_of_le hle, weakAt_of_le hle⟩
    have hw0 : (0:Int) ≤ weakAt s.heap b := by rw [h2]; exact_mod_cast Nat.zero_le _
    constructor
    · simp only [shared_endShared, heap_endShared, strongAt_decStrongIf, holders_endLife,
        shared_decStrongIf]
      by_cases hP : blockOf s.shared i = some b
      · have := hs hP
        simp only [hP, true_and]
        split_ifs <;> omega
      · simp only [hP, false_and, if_false]
        omega
    · simp [h2]
    · simp only [released_endShared, released_decStrongIf, heap_endShared, length_decStrongIf, strongAt_decStrongIf]
      by_cases hP : blockOf s.shared i = some b
      · have := hs hP
        simp only [hP, true_and]
        split_ifs at h3 ⊢ <;> omega
      · simp only [hP, false_and, if_false]
        split_ifs at h3 ⊢ <;> omega
    · simp only [deallocated_endShared, deallocated_decStrongIf, heap_endShared, length_decStrongIf, strongAt_decStrongIf, weakAt_decStrongIf]
      by_cases hP : blockOf s.shared i = some b
      · have := hs hP
        simp only [hP, true_and]
        split_ifs at h4 ⊢ <;> omega
      · simp only [hP, false_and, if_false]
        split_ifs at h4 ⊢ <;> omega
  · exact hb

theorem ne_of_ptrOf_ne {l : List (Option Handle)} {i j : Nat}
    (h : ¬ ptrOf l i = ptrOf l j) : i ≠ j := fun e => h (by rw [e])

theorem Inv_copyAssign (s : State) (i j : Nat) (h : Inv s) :
    Inv (SharedPtr.copyAssign s i j) := by
  intro b
  obtain ⟨h1, h2, h3, h4⟩ := h b
  obtain ⟨hn, hs0, hw0⟩ := (h b).bounds
  have hi := @BlockInv.of_shared s b i (h b)
  have hj := @BlockInv.of_shared s b j (h b)
  unfold SharedPtr.copyAssign
  split_ifs with hl hp
  · exact h b
  · have hij : i ≠ j := ne_of_ptrOf_ne hp
    have hji : j ≠ i := fun e => hij e.symm
    have h2h := @holders_two s.shared i j b hij
    obtain ⟨hli, hlj⟩ := hl
    by_cases hP : blockOf s.shared i = some b <;> by_cases hQ : blockOf s.shared j = some b
    · obtain ⟨hi1, hi2⟩ := hi hP
      have := h2h hP hQ
      refine ⟨?_, ?_, ?_, ?_⟩ <;>
        simp [holders_setBlock, holders_setPtr, blockOf_setPtr, blockOf_setBlock, live_setPtr,
          live_setBlock, hP, hQ, hi1, hli, hlj, hij, hji] <;>
        split_ifs at h3 h4 ⊢ <;> omega
    · obtain ⟨hi1, hi2⟩ := hi hP
      refine ⟨?_, ?_, ?_, ?_⟩ <;>
        simp [holders_setBlock, holders_setPtr, blockOf_setPtr, blockOf_setBlock, live_setPtr,
          live_setBlock, hP, hQ, hi1, hli, hlj, hij, hji] <;>
        split_ifs at h3 h4 ⊢ <;> omega
    · obtain ⟨hj1, hj2⟩ := hj hQ
      refine ⟨?_, ?_, ?_, ?_⟩ <;>
        simp [holders_setBlock, holders_setPtr, blockOf_setPtr, blockOf_setBlock, live_setPtr,
          live_setBlock, hP, hQ, hj1, hli, hlj, hij, hji] <;>
        split_ifs at h3 h4 ⊢ <;> omega
    · refine ⟨?_, ?_, ?_, ?_⟩ <;>
        simp [holders_setBlock, holders_setPtr, blockOf_setPtr, blockOf_setBlock, live_setPtr,
          live_setBlock, hP, hQ, hli, hlj, hij, hji] <;>
        split_ifs at h3 h4 ⊢ <;> omega
  · exact h b

theorem Inv_moveAssign (s : State) (i j : Nat) (h : Inv s) :
    Inv (SharedPtr.moveAssign s i j) := by
  intro b
  obtain ⟨h1, h2, h3, h4⟩ := h b
  obtain ⟨hn, hs0, hw0⟩ := (h b).bounds
  have hi := @BlockInv.of_shared s b i (h b)
  have hj := @BlockInv.of_shared s b j (h b)
  unfold SharedPtr.moveAssign
  split_ifs with hl hp
  · exact h b
  · have hij : i ≠ j := ne_of_ptrOf_ne hp
    have hji : j ≠ i := fun e => hij e.symm
    have h2h := @holders_two s.shared i j b hij
    obtain ⟨hli, hlj⟩ := hl
    by_cases hP : blockOf s.shared i = some b <;> by_cases hQ : blockOf s.shared j = some b
    · obtain ⟨hi1, hi2⟩ := hi hP
      have := h2h hP hQ
      refine ⟨?_, ?_, ?_, ?_⟩ <;>
        simp [holders_setBlock, holders_setPtr, blockOf_setPtr, blockOf_setBlock, live_setPtr,
          live_setBlock, hP, hQ, hi1, hli, hlj, hij, hji] <;>
        split_ifs at h3 h4 ⊢ <;> omega
    · obtain ⟨hi1, hi2⟩ := hi hP
      refine ⟨?_, ?_, ?_, ?_⟩ <;>
        simp [holders_setBlock, holders_setPtr, blockOf_setPtr, blockOf_setBlock, live_setPtr,
          live_setBlock, hP, hQ, hi1, hli, hlj, hij, hji] <;>
        split_ifs at h3 h4 ⊢ <;> omega
    · obtain ⟨hj1, hj2⟩ := hj hQ
      refine ⟨?_, ?_, ?_, ?_⟩ <;>
        simp [holders_setBlock, holders_setPtr, blockOf_setPtr, blockOf_setBlock, live_setPtr,
          live_setBlock, hP, hQ, hj1, hli, hlj, hij, hji] <;>
        split_ifs at h3 h4 ⊢ <;> omega
    · refine ⟨?_, ?_, ?_, ?_⟩ <;>
        simp [holders_setBlock, holders_setPtr, blockOf_setPtr, blockOf_setBlock, live_setPtr,
          live_setBlock, hP, hQ, hli, hlj, hij, hji] <;>
        split_ifs at h3 h4 ⊢ <;> omega
  · exact h b

theorem Inv_Swap (s : State) (i j : Nat) (h : Inv s) : Inv (SharedPtr.Swap s i j) := by
  intro b
  obtain ⟨h1, h2, h3, h4⟩ := h b
  unfold SharedPtr.Swap
  split_ifs with hl
  · obtain ⟨hli, hlj⟩ := hl
    have key : (holders (setBlock (setBlock (setPtr (setPtr s.shared i (ptrOf s.shared j)) j
        (ptrOf s.shared i)) i (blockOf (setPtr (setPtr s.shared i (ptrOf s.shared j)) j
        (ptrOf s.shared i)) j)) j (blockOf (setPtr (setPtr s.shared i (ptrOf s.shared j)) j
        (ptrOf s.shared i)) i)) b : Int) = holders s.shared b := by
      by_cases hij : i = j
      · subst hij
        by_cases hP : blockOf s.shared i = some b <;>
          simp [holders_setBlock, holders_setPtr, blockOf_setPtr, blockOf_setBlock, live_setPtr,
            live_setBlock, hP, hli]
      · have hji : ¬ j = i := fun e => hij e.symm
        by_cases hP : blockOf s.shared i = some b <;> by_cases hQ : blockOf s.shared j = some b <;>
          simp [holders_setBlock, holders_setPtr, blockOf_setPtr, blockOf_setBlock, live_setPtr,
            live_setBlock, hP, hQ, hli, hlj, hij, hji]
    refine ⟨?_, ?_, ?_, ?_⟩
    · simp only [heap_setSharedBlock, heap_setSharedPtr, shared_setSharedBlock,
        shared_setSharedPtr, key, h1]
    · simpa using h2
    · simpa using h3
    · simpa using h4
  · exact h b

theorem Inv_Lock (s : State) (i : Nat) (h : Inv s) : Inv (WeakPtr.Lock s i) := by
  intro b
  obtain ⟨h1, h2, h3, h4⟩ := h b
  obtain ⟨hn, hs0, hw0⟩ := (h b).bounds
  have hi := @BlockInv.of_weak s b i (h b)
  unfold WeakPtr.Lock
  split_ifs with hl hu
  · exact Inv_ctorDefault s h b
  · by_cases hP : blockOf s.weak i = some b
    · obtain ⟨hi1, hi2⟩ := hi hP
      have hpos : 1 ≤ strongAt s.heap b := by
        simp only [WeakPtr.UseCount, hP, toSizeT] at hu
        split_ifs at hu
        omega
      unfold SharedPtr.ctorPtrBlock
      refine ⟨?_, ?_, ?_, ?_⟩ <;>
        simp [holdersZ_append, hP, hi1] <;>
        split_ifs at h3 h4 ⊢ <;> omega
    · unfold SharedPtr.ctorPtrBlock
      refine ⟨?_, ?_, ?_, ?_⟩ <;>
        simp [holdersZ_append, hP] <;>
        split_ifs at h3 h4 ⊢ <;> omega
  · exact h b

theorem Inv_weak_ctorDefault (s : State) (h : Inv s) : Inv (WeakPtr.ctorDefault s) := by
  intro b
  obtain ⟨h1, h2, h3, h4⟩ := h b
  unfold WeakPtr.ctorDefault
  refine ⟨?_, ?_, ?_, ?_⟩
  · simp [h1]
  · simp [holdersZ_append, h2]
  · simp [h3]
  · simp [h4]

theorem Inv_weak_ctorShared (s : State) (j : Nat) (h : Inv s) :
    Inv (WeakPtr.ctorShared s j) := by
  intro b
  obtain ⟨h1, h2, h3, h4⟩ := h b
  obtain ⟨hn, hs0, hw0⟩ := (h b).bounds
  have hj := @BlockInv.of_shared s b j (h b)
  unfold WeakPtr.ctorShared
  split_ifs with hl
  · by_cases hP : blockOf s.shared j = some b
    · obtain ⟨hj1, hj2⟩ := hj hP
      refine ⟨?_, ?_, ?_, ?_⟩ <;> simp [holdersZ_append, blockOf_append, hP, hj1] <;>
        split_ifs at h3 h4 ⊢ <;> omega
    · refine ⟨?_, ?_, ?_, ?_⟩ <;> simp [holdersZ_append, blockOf_append, hP] <;>
        split_ifs at h3 h4 ⊢ <;> omega
  · exact h b

theorem Inv_weak_dtor (s : State) (i : Nat) (h : Inv s) : Inv (WeakPtr.dtor s i) := by
  intro b
  obtain ⟨h1, h2, h3, h4⟩ := h b
  obtain ⟨hn, hs0, hw0⟩ := (h b).bounds
  have hi := @BlockInv.of_weak s b i (h b)
  unfold WeakPtr.dtor
  split_ifs with hl
  · by_cases hP : blockOf s.weak i = some b
    · obtain ⟨hi1, hi2⟩ := hi hP
      refine ⟨?_, ?_, ?_, ?_⟩ <;> simp [holders_endLife, hP, hi1] <;>
        split_ifs at h3 h4 ⊢ <;> omega
    · refine ⟨?_, ?_, ?_, ?_⟩ <;> simp [holders_endLife, hP] <;>
        split_ifs at h3 h4 ⊢ <;> omega
  · exact h b

theorem Inv_weak_ctorCopy (s : State) (j : Nat) (h : Inv s) :
    Inv (WeakPtr.ctorCopy s j) := by
  intro b
  obtain ⟨h1, h2, h3, h4⟩ := h b
  obtain ⟨hn, hs0, hw0⟩ := (h b).bounds
  have hj := @BlockInv.of_weak s b j (h b)
  unfold WeakPtr.ctorCopy
  split_ifs with hl
  · by_cases hP : blockOf s.weak j = some b
    · obtain ⟨hj1, hj2⟩ := hj hP
      refine ⟨?_, ?_, ?_, ?_⟩ <;> simp [holdersZ_append, blockOf_append, hP, hj1] <;>
        split_ifs at h3 h4 ⊢ <;> omega
    · refine ⟨?_, ?_, ?_, ?_⟩ <;> simp [holdersZ_append, blockOf_append, hP] <;>
        split_ifs at h3 h4 ⊢ <;> omega
  · exact h b

theorem Inv_weak_ctorMove (s : State) (j : Nat) (h : Inv s) : Inv (WeakPtr.ctorMove s j) := by
  intro b
  obtain ⟨h1, h2, h3, h4⟩ := h b
  obtain ⟨hn, hs0, hw0⟩ := (h b).bounds
  have hj := @BlockInv.of_weak s b j (h b)
  unfold WeakPtr.ctorMove
  split_ifs with hl
  · have hjl : j ≠ s.weak.length := Nat.ne_of_lt (live_lt hl)
    by_cases hP : blockOf s.weak j = some b
    · obtain ⟨hj1, hj2⟩ := hj hP
      refine ⟨?_, ?_, ?_, ?_⟩ <;>
        simp [holdersZ_append, holders_setBlock, holders_setPtr, blockOf_append, blockOf_setPtr,
          live_setPtr, live_append, hP, hj1, hl, hjl] <;>
        split_ifs at h3 h4 ⊢ <;> omega
    · refine ⟨?_, ?_, ?_, ?_⟩ <;>
        simp [holdersZ_append, holders_setBlock, holders_setPtr, blockOf_append, blockOf_setPtr,
          live_setPtr, live_append, hP, hl, hjl] <;>
        split_ifs at h3 h4 ⊢ <;> omega
  · exact h b

theorem Inv_weak_Reset (s : State) (i : Nat) (h : Inv s) : Inv (WeakPtr.Reset s i) := by
  intro b
  obtain ⟨h1, h2, h3, h4⟩ := h b
  obtain ⟨hn, hs0, hw0⟩ := (h b).bounds
  have hi := @BlockInv.of_weak s b i (h b)
  unfold WeakPtr.Reset
  split_ifs with hl
  · by_cases hP : blockOf s.weak i = some b
    · obtain ⟨hi1, hi2⟩ := hi hP
      refine ⟨?_, ?_, ?_, ?_⟩ <;>
        simp [holders_setBlock, holders_setPtr, blockOf_setPtr, live_setPtr, hP, hi1, hl] <;>
        split_ifs at h3 h4 ⊢ <;> omega
    · refine ⟨?_, ?_, ?_, ?_⟩ <;>
        simp [holders_setBlock, holders_setPtr, blockOf_setPtr, live_setPtr, hP, hl] <;>
        split_ifs at h3 h4 ⊢ <;> omega
  · exact h b

theorem Inv_weak_copyAssign (s : State) (i j : Nat) (h : Inv s) :
    Inv (WeakPtr.copyAssign s i j) := by
  intro b
  obtain ⟨h1, h2, h3, h4⟩ := h b
  obtain ⟨hn, hs0, hw0⟩ := (h b).bounds
  have hi := @BlockInv.of_weak s b i (h b)
  have hj := @BlockInv.of_weak s b j (h b)
  unfold WeakPtr.copyAssign
  split_ifs with hl hp
  · exact h b
  · have hij : i ≠ j := ne_of_ptrOf_ne hp
    have hji : j ≠ i := fun e => hij e.symm
    have h2h := @holders_two s.weak i j b hij
    obtain ⟨hli, hlj⟩ := hl
    by_cases hP : blockOf s.weak i = some b <;> by_cases hQ : blockOf s.weak j = some b
    · obtain ⟨hi1, hi2⟩ := hi hP
      have := h2h hP hQ
      refine ⟨?_, ?_, ?_, ?_⟩ <;>
        simp [holders_setBlock, holders_setPtr, blockOf_setPtr, blockOf_setBlock, live_setPtr,
          live_setBlock, hP, hQ, hi1, hli, hlj, hij, hji] <;>
        split_ifs at h3 h4 ⊢ <;> omega
    · obtain ⟨hi1, hi2⟩ := hi hP
      refine ⟨?_, ?_, ?_, ?_⟩ <;>
        simp [holders_setBlock, holders_setPtr, blockOf_setPtr, blockOf_setBlock, live_setPtr,
          live_setBlock, hP, hQ, hi1, hli, hlj, hij, hji] <;>
        split_ifs at h3 h4 ⊢ <;> omega
    · obtain ⟨hj1, hj2⟩ := hj hQ
      refine ⟨?_, ?_, ?_, ?_⟩ <;>
        simp [holders_setBlock, holders_setPtr, blockOf_setPtr, blockOf_setBlock, live_setPtr,
          live_setBlock, hP, hQ, hj1, hli, hlj, hij, hji] <;>
        split_ifs at h3 h4 ⊢ <;> omega
    · refine ⟨?_, ?_, ?_, ?_⟩ <;>
        simp [holders_setBlock, holders_setPtr, blockOf_setPtr, blockOf_setBlock, live_setPtr,
          live_setBlock, hP, hQ, hli, hlj, hij, hji] <;>
        split_ifs at h3 h4 ⊢ <;> omega
  · exact h b

theorem Inv_weak_moveAssign (s : State) (i j : Nat) (h : Inv s) :
    Inv (WeakPtr.moveAssign s i j) := by
  intro b
  obtain ⟨h1, h2, h3, h4⟩ := h b
  obtain ⟨hn, hs0, hw0⟩ := (h b).bounds
  have hi := @BlockInv.of_weak s b i (h b)
  have hj := @BlockInv.of_weak s b j (h b)
  unfold WeakPtr.moveAssign
  split_ifs with hl hp
  · exact h b
  · have hij : i ≠ j := ne_of_ptrOf_ne hp
    have hji : j ≠ i := fun e => hij e.symm
    have h2h := @holders_two s.weak i j b hij
    obtain ⟨hli, hlj⟩ := hl
    by_cases hP : blockOf s.weak i = some b <;> by_cases hQ : blockOf s.weak j = some b
    · obtain ⟨hi1, hi2⟩ := hi hP
      have := h2h hP hQ
      refine ⟨?_, ?_, ?_, ?_⟩ <;>
        simp [holders_setBlock, holders_setPtr, blockOf_setPtr, blockOf_setBlock, live_setPtr,
          live_setBlock, hP, hQ, hi1, hli, hlj, hij, hji] <;>
        split_ifs at h3 h4 ⊢ <;> omega
    · obtain ⟨hi1, hi2⟩ := hi hP
      refine ⟨?_, ?_, ?_, ?_⟩ <;>
        simp [holders_setBlock, holders_setPtr, blockOf_setPtr, blockOf_setBlock, live_setPtr,
          live_setBlock, hP, hQ, hi1, hli, hlj, hij, hji] <;>
        split_ifs at h3 h4 ⊢ <;> omega
    · obtain ⟨hj1, hj2⟩ := hj hQ
      refine ⟨?_, ?_, ?_, ?_⟩ <;>
        simp [holders_setBlock, holders_setPtr, blockOf_setPtr, blockOf_setBlock, live_setPtr,
          live_setBlock, hP, hQ, hj1, hli, hlj, hij, hji] <;>
        split_ifs at h3 h4 ⊢ <;> omega
    · refine ⟨?_, ?_, ?_, ?_⟩ <;>
        simp [holders_setBlock, holders_setPtr, blockOf_setPtr, blockOf_setBlock, live_setPtr,
          live_setBlock, hP, hQ, hli, hlj, hij, hji] <;>
        split_ifs at h3 h4 ⊢ <;> omega
  · exact h b

theorem Inv_weak_Swap (s : State) (i j : Nat) (h : Inv s) : Inv (WeakPtr.Swap s i j) := by
  intro b
  obtain ⟨h1, h2, h3, h4⟩ := h b
  unfold WeakPtr.Swap
  split_ifs with hl
  · obtain ⟨hli, hlj⟩ := hl
    have key : (holders (setBlock (setBlock (setPtr (setPtr s.weak i (ptrOf s.weak j)) j
        (ptrOf s.weak i)) i (blockOf (setPtr (setPtr s.weak i (ptrOf s.weak j)) j
        (ptrOf s.weak i)) j)) j (blockOf (setPtr (setPtr s.weak i (ptrOf s.weak j)) j
        (ptrOf s.weak i)) i)) b : Int) = holders s.weak b := by
      by_cases hij : i = j
      · subst hij
        by_cases hP : blockOf s.weak i = some b <;>
          simp [holders_setBlock, holders_setPtr, blockOf_setPtr, blockOf_setBlock, live_setPtr,
            live_setBlock, hP, hli]
      · have hji : ¬ j = i := fun e => hij e.symm
        by_cases hP : blockOf s.weak i = some b <;> by_cases hQ : blockOf s.weak j = some b <;>
          simp [holders_setBlock, holders_setPtr, blockOf_setPtr, blockOf_setBlock, live_setPtr,
            live_setBlock, hP, hQ, hli, hlj, hij, hji]
    refine ⟨?_, ?_, ?_, ?_⟩
    · simpa using h1
    · simp only [heap_setWeakBlock, heap_setWeakPtr, weak_setWeakBlock,
        weak_setWeakPtr, key, h2]
    · simpa using h3
    · simpa using h4
  · exact h b

theorem Inv_ctorWeak (s : State) (j : Nat) (h : Inv s) : Inv (SharedPtr.ctorWeak s j).2 := by
  unfold SharedPtr.ctorWeak
  split_ifs with hl he
  · exact h
  · exact Inv_dtor _ _ (Inv_moveAssign _ _ _ (Inv_Lock _ _ (Inv_ctorDefault _ h)))
  · exact h

theorem Inv_step (s : State) (op : Op) (h : Inv s) : Inv (step s op) := by
  cases op with
  | sharedDefault => exact Inv_ctorDefault s h
  | sharedPtr p => exact Inv_ctorPtr s p h
  | makeShared a => exact Inv_MakeShared s a h
  | sharedCopy j => exact Inv_ctorCopy s j h
  | sharedMove j => exact Inv_ctorMove s j h
  | sharedAlias j p => exact Inv_ctorAlias s j p h
  | sharedFromWeak j => exact Inv_ctorWeak s j h
  | sharedCopyAssign i j => exact Inv_copyAssign s i j h
  | sharedMoveAssign i j => exact Inv_moveAssign s i j h
  | sharedDtor i => exact Inv_dtor s i h
  | sharedReset i => exact Inv_Reset s i h
  | sharedResetPtr i p => exact Inv_ResetPtr s i p h
  | sharedSwap i j => exact Inv_Swap s i j h
  | weakDefault => exact Inv_weak_ctorDefault s h
  | weakCopy j => exact Inv_weak_ctorCopy s j h
  | weakMove j => exact Inv_weak_ctorMove s j h
  | weakFromShared j => exact Inv_weak_ctorShared s j h
  | weakCopyAssign i j => exact Inv_weak_copyAssign s i j h
  | weakMoveAssign i j => exact Inv_weak_moveAssign s i j h
  | weakDtor i => exact Inv_weak_dtor s i h
  | weakReset i => exact Inv_weak_Reset s i h
  | weakSwap i j => exact Inv_weak_Swap s i j h
  | weakLock i => exact Inv_Lock s i h

theorem Inv_run (ops : List Op) (s : State) (h : Inv s) : Inv (run s ops) := by
  induction ops generalizing s with
  | nil => exact h
  | cons op ops ih => exact ih (step s op) (Inv_step s op h)

theorem Inv_reachable (ops : List Op) : Inv (run State.empty ops) :=
  Inv_run ops State.empty Inv_empty

/-! ## The event log only grows -/

theorem released_mono_ctorDefault (s : State) (b : Nat) :
    released s b ≤ released (SharedPtr.ctorDefault s) b := by
  simp [SharedPtr.ctorDefault]

theorem released_mono_Lock (s : State) (i b : Nat) :
    released s b ≤ released (WeakPtr.Lock s i) b := by
  unfold WeakPtr.Lock SharedPtr.ctorDefault SharedPtr.ctorPtrBlock
  split_ifs <;> simp

theorem released_mono_moveAssign (s : State) (i j b : Nat) :
    released s b ≤ released (SharedPtr.moveAssign s i j) b := by
  unfold SharedPtr.moveAssign
  split_ifs <;> simp

theorem released_mono_dtor (s : State) (i b : Nat) :
    released s b ≤ released (SharedPtr.dtor s i) b := by
  unfold SharedPtr.dtor
  split_ifs <;> simp

theorem released_mono_ctorWeak (s : State) (j b : Nat) :
    released s b ≤ released (SharedPtr.ctorWeak s j).2 b := by
  unfold SharedPtr.ctorWeak
  split_ifs
  · exact Nat.le_refl _
  · exact Nat.le_trans (released_mono_ctorDefault s b)
      (Nat.le_trans (released_mono_Lock _ _ b)
        (Nat.le_trans (released_mono_moveAssign _ _ _ b) (released_mono_dtor _ _ b)))
  · exact Nat.le_refl _

theorem released_mono_step (s : State) (op : Op) (b : Nat) :
    released s b ≤ released (step s op) b := by
  cases op
  case sharedFromWeak j => exact released_mono_ctorWeak s j b
  case weakLock i => exact released_mono_Lock s i b
  all_goals
    simp only [step, SharedPtr.ctorDefault, SharedPtr.ctorPtr, MakeShared, SharedPtr.ctorBlock,
      SharedPtr.ctorCopy, SharedPtr.ctorMove, SharedPtr.ctorAlias,
      SharedPtr.copyAssign, SharedPtr.moveAssign, SharedPtr.dtor, SharedPtr.Reset,
      SharedPtr.ResetPtr, SharedPtr.Swap, WeakPtr.ctorDefault, WeakPtr.ctorCopy,
      WeakPtr.ctorMove, WeakPtr.ctorShared, WeakPtr.copyAssign, WeakPtr.moveAssign,
      WeakPtr.dtor, WeakPtr.Reset, WeakPtr.Swap]
    (try split_ifs) <;> simp

theorem released_mono_run (ops : List Op) (s : State) (b : Nat) :
    released s b ≤ released (run s ops) b := by
  induction ops generalizing s with
  | nil => exact Nat.le_refl _
  | cons op ops ih => exact Nat.le_trans (released_mono_step s op b) (ih (step s op))

theorem length_heap_mono_step (s : State) (op : Op) :
    s.heap.length ≤ (step s op).heap.length := by
  cases op
  case sharedFromWeak j =>
    simp only [step, SharedPtr.ctorWeak, SharedPtr.ctorDefault, WeakPtr.Lock, SharedPtr.moveAssign,
      SharedPtr.dtor, SharedPtr.ctorPtrBlock]
    split_ifs <;> simp
  all_goals
    simp only [step, SharedPtr.ctorDefault, SharedPtr.ctorPtr, MakeShared, SharedPtr.ctorBlock,
      SharedPtr.ctorCopy, SharedPtr.ctorMove, SharedPtr.ctorAlias,
      SharedPtr.copyAssign, SharedPtr.moveAssign, SharedPtr.dtor, SharedPtr.Reset,
      SharedPtr.ResetPtr, SharedPtr.Swap, WeakPtr.ctorDefault, WeakPtr.ctorCopy,
      WeakPtr.ctorMove, WeakPtr.ctorShared, WeakPtr.copyAssign, WeakPtr.moveAssign,
      WeakPtr.dtor, WeakPtr.Reset, WeakPtr.Swap, WeakPtr.Lock, SharedPtr.ctorPtrBlock]
    (try split_ifs) <;> simp

theorem length_heap_mono_run (ops : List Op) (s : State) :
    s.heap.length ≤ (run s ops).heap.length := by
  induction ops generalizing s with
  | nil => exact Nat.le_refl _
  | cons op ops ih => exact Nat.le_trans (length_heap_mono_step s op) (ih (step s op))

/-! ## Runs of destructor calls -/

theorem holders_eq_zero {l : List (Option Handle)} (h : ∀ i, live l i = false) (b : Nat) :
    holders l b = 0 := by
  by_contra hne
  have hp : 0 < holders l b := Nat.pos_of_ne_zero hne
  unfold holders at hp
  rw [List.countP_pos_iff] at hp
  obtain ⟨o, ho, hb⟩ := hp
  obtain ⟨i, hi⟩ := List.mem_iff_getElem?.1 ho
  cases o with
  | none => simp at hb
  | some x =>
    have := h i
    simp [live, slot, hi] at this

theorem dtor_shared_live (s : State) (op : Op) (hd : op.isDtor = true) (i : Nat)
    (h : live s.shared i = false) : live (step s op).shared i = false := by
  cases op <;> simp only [Op.isDtor] at hd <;> try contradiction
  · simp only [step, SharedPtr.dtor]
    split_ifs <;> simp [live_endLife, h]
  · simp only [step, WeakPtr.dtor]
    split_ifs <;> simp [h]

theorem dtor_weak_live (s : State) (op : Op) (hd : op.isDtor = true) (i : Nat)
    (h : live s.weak i = false) : live (step s op).weak i = false := by
  cases op <;> simp only [Op.isDtor] at hd <;> try contradiction
  · simp only [step, SharedPtr.dtor]
    split_ifs <;> simp [h]
  · simp only [step, WeakPtr.dtor]
    split_ifs <;> simp [live_endLife, h]

theorem dtor_run_shared_live (ds : List Op) (hd : ∀ op ∈ ds, op.isDtor = true) (s : State)
    (i : Nat) (h : live s.shared i = false) : live (run s ds).shared i = false := by
  induction ds generalizing s with
  | nil => exact h
  | cons op ds ih =>
    exact ih (fun o ho => hd o (List.mem_cons_of_mem _ ho)) (step s op)
      (dtor_shared_live s op (hd op (List.mem_cons_self _ _)) i h)

theorem dtor_run_weak_live (ds : List Op) (hd : ∀ op ∈ ds, op.isDtor = true) (s : State)
    (i : Nat) (h : live s.weak i = false) : live (run s ds).weak i = false := by
  induction ds generalizing s with
  | nil => exact h
  | cons op ds ih =>
    exact ih (fun o ho => hd o (List.mem_cons_of_mem _ ho)) (step s op)
      (dtor_weak_live s op (hd op (List.mem_cons_self _ _)) i h)

theorem live_sharedDtor (s : State) (i : Nat) : live (SharedPtr.dtor s i).shared i = false := by
  unfold SharedPtr.dtor
  split_ifs with hl
  · simp [live_endLife]
  · simpa using hl

theorem live_weakDtor (s : State) (i : Nat) : live (WeakPtr.dtor s i).weak i = false := by
  unfold WeakPtr.dtor
  split_ifs with hl
  · simp [live_endLife]
  · simpa using hl

theorem dtor_run_kills_shared (ds : List Op) (hd : ∀ op ∈ ds, op.isDtor = true) (s : State)
    (i : Nat) (hi : Op.sharedDtor i ∈ ds) : live (run s ds).shared i = false := by
  induction ds generalizing s with
  | nil => simp at hi
  | cons op ds ih =>
    have hd2 : ∀ o ∈ ds, o.isDtor = true := fun o ho => hd o (List.mem_cons_of_mem _ ho)
    rcases List.mem_cons.1 hi with e | hmem
    · subst e
      exact dtor_run_shared_live ds hd2 _ i (live_sharedDtor s i)
    · exact ih hd2 (step s op) hmem

theorem dtor_run_kills_weak (ds : List Op) (hd : ∀ op ∈ ds, op.isDtor = true) (s : State)
    (i : Nat) (hi : Op.weakDtor i ∈ ds) : live (run s ds).weak i = false := by
  induction ds generalizing s with
  | nil => simp at hi
  | cons op ds ih =>
    have hd2 : ∀ o ∈ ds, o.isDtor = true := fun o ho => hd o (List.mem_cons_of_mem _ ho)
    rcases List.mem_cons.1 hi with e | hmem
    · subst e
      exact dtor_run_weak_live ds hd2 _ i (live_weakDtor s i)
    · exact ih hd2 (step s op) hmem

theorem live_false_of_le {l : List (Option Handle)} {i : Nat} (h : l.length ≤ i) :
    live l i = false := by
  cases hl : live l i with
  | false => rfl
  | true => exact absurd (live_lt hl) (by omega)

theorem dtor_length (s : State) (op : Op) (hd : op.isDtor = true) :
    (step s op).shared.length = s.shared.length ∧ (step s op).weak.length = s.weak.length := by
  cases op <;> simp only [Op.isDtor] at hd <;> try contradiction
  · simp only [step, SharedPtr.dtor]
    split_ifs <;> simp [length_endLife]
  · simp only [step, WeakPtr.dtor]
    split_ifs <;> simp [length_endLife]

theorem dtor_run_length (ds : List Op) (hd : ∀ op ∈ ds, op.isDtor = true) (s : State) :
    (run s ds).shared.length = s.shared.length ∧ (run s ds).weak.length = s.weak.length := by
  induction ds generalizing s with
  | nil => exact ⟨rfl, rfl⟩
  | cons op ds ih =>
    have h1 := dtor_length s op (hd op (List.mem_cons_self _ _))
    have h2 := ih (fun o ho => hd o (List.mem_cons_of_mem _ ho)) (step s op)
    exact ⟨h2.1.trans h1.1, h2.2.trans h1.2⟩

theorem destroyAll_isDtor (s : State) : ∀ op ∈ destroyAll s, op.isDtor = true := by
  intro op hop
  unfold destroyAll at hop
  rcases List.mem_append.1 hop with h | h
  · obtain ⟨i, _, rfl⟩ := List.mem_map.1 h; rfl
  · obtain ⟨i, _, rfl⟩ := List.mem_map.1 h; rfl

/-- After the destructor of every handle object has run, in any order, no block
has a holder left. -/
theorem holders_after_destroyAll (s : State) (ds : List Op) (hp : ds.Perm (destroyAll s))
    (b : Nat) : holders (run s ds).shared b = 0 ∧ holders (run s ds).weak b = 0 := by
  have hd : ∀ op ∈ ds, op.isDtor = true :=
    fun op hop => destroyAll_isDtor s op (hp.mem_iff.1 hop)
  have hlen := dtor_run_length ds hd s
  constructor
  · apply holders_eq_zero
    intro i
    by_cases hi : i < s.shared.length
    · apply dtor_run_kills_shared ds hd s i
      apply hp.mem_iff.2
      unfold destroyAll
      exact List.mem_append_left _ (List.mem_map.2 ⟨i, List.mem_range.2 hi, rfl⟩)
    · exact live_false_of_le (by rw [hlen.1]; omega)
  · apply holders_eq_zero
    intro i
    by_cases hi : i < s.weak.length
    · apply dtor_run_kills_weak ds hd s i
      apply hp.mem_iff.2
      unfold destroyAll
      exact List.mem_append_right _ (List.mem_map.2 ⟨i, List.mem_range.2 hi, rfl⟩)
    · exact live_false_of_le (by rw [hlen.2]; omega)

/-! ## The claims -/

theorem toSizeT_natCast (n : Nat) : toSizeT (n : Int) = n := by
  unfold toSizeT
  simp

theorem Inv_MakeShared_run (a : Nat) (ops : List Op) :
    Inv (run (MakeShared State.empty a) ops) :=
  Inv_run ops _ (Inv_MakeShared _ a Inv_empty)

theorem run_append (s : State) (xs ys : List Op) : run s (xs ++ ys) = run (run s xs) ys := by
  simp [run, List.foldl_append]

theorem released_DecrementStrong (s : State) (c b : Nat) (hb : b < s.heap.length) :
    released (DecrementStrong s c) b =
      released s b + if c = b ∧ strongAt s.heap b = 1 then 1 else 0 := by
  have h := released_decStrongIf s (some c) b
  simp only [decStrongIf, Option.some.injEq, hb, true_and] at h
  exact h

theorem toSizeT_eq_zero {x : Int} (hx : 0 ≤ x) : toSizeT x = 0 ↔ x = 0 := by
  unfold toSizeT
  simp only [hx, if_true]
  omega

theorem toSizeT_succ {x : Int} (hx : 0 ≤ x) : toSizeT (x + 1) = toSizeT x + 1 := by
  unfold toSizeT
  have h1 : 0 ≤ x + 1 := by omega
  simp only [hx, h1, if_true]
  omega

theorem UseCount_weak_eq {s : State} (h : Inv s) {w b : Nat} (hw : blockOf s.weak w = some b) :
    WeakPtr.UseCount s w = sharedCount s b := by
  unfold WeakPtr.UseCount sharedCount
  rw [hw]
  simp only [(h b).strong_eq, toSizeT_natCast]

theorem Expired_iff {s : State} (h : Inv s) {w b : Nat} (hw : blockOf s.weak w = some b) :
    WeakPtr.Expired s w = true ↔ sharedCount s b = 0 := by
  unfold WeakPtr.Expired
  rw [UseCount_weak_eq h hw]
  simp

theorem Expired_iff_absent_or_zero {s : State} (h : Inv s) (w : Nat) :
    WeakPtr.Expired s w = true ↔
      (blockOf s.weak w = none ∨ ∃ b, blockOf s.weak w = some b ∧ strongAt s.heap b = 0) := by
  cases hb : blockOf s.weak w with
  | none => simp [WeakPtr.Expired, WeakPtr.UseCount, hb]
  | some b =>
    obtain ⟨hn, hs0, hw0⟩ := (h b).bounds
    simp [WeakPtr.Expired, WeakPtr.UseCount, hb, toSizeT_eq_zero hs0]

/-- C1: after `MakeShared` and any sequence of operations on the handles (copy
construction, move construction, `Reset()` and destruction among them),
`UseCount()` of every live `SharedPtr` that holds a block equals the number of
live `SharedPtr` objects holding that block. -/
theorem C1_useCount_counts_live_handles (a : Nat) (ops : List Op) (i b : Nat)
    (hb : blockOf (run (MakeShared State.empty a) ops).shared i = some b) :
    SharedPtr.UseCount (run (MakeShared State.empty a) ops) i =
      sharedCount (run (MakeShared State.empty a) ops) b := by
  have h := (Inv_MakeShared_run a ops b).strong_eq
  unfold SharedPtr.UseCount sharedCount
  rw [hb]
  simp only [h, toSizeT_natCast]

theorem C1_witness :
    blockOf (run (MakeShared State.empty 7)
        [Op.sharedCopy 0, Op.sharedMove 1, Op.sharedReset 0, Op.sharedCopy 2]).shared 3 = some 0 ∧
      SharedPtr.UseCount (run (MakeShared State.empty 7)
        [Op.sharedCopy 0, Op.sharedMove 1, Op.sharedReset 0, Op.sharedCopy 2]) 3 =
      sharedCount (run (MakeShared State.empty 7)
        [Op.sharedCopy 0, Op.sharedMove 1, Op.sharedReset 0, Op.sharedCopy 2]) 0 :=
  ⟨by decide, C1_useCount_counts_live_handles 7 _ 3 0 (by decide)⟩

/-- C2: on every block of a state reached from `MakeShared` by any operations on
`SharedPtr` and `WeakPtr` handles, `StrongDeleter()` has run exactly once when no
live `SharedPtr` holds the block and not at all while one does; so it runs in the
operation that destroys or resets the last `SharedPtr`.  It is the call of
`DecrementStrong()` that takes `strong` from 1 to 0 which runs it, whatever
`weak` is. -/
theorem C2_payload_released_exactly_once (a : Nat) (ops : List Op) (s : State)
    (hs : s = run (MakeShared State.empty a) ops) (b : Nat) (hb : b < s.heap.length) :
    released s b = (if sharedCount s b = 0 then 1 else 0) ∧
      (∀ i, blockOf s.shared i = some b → sharedCount s b = 1 →
        released s b = 0 ∧ released (SharedPtr.dtor s i) b = 1 ∧
          released (SharedPtr.Reset s i) b = 1) ∧
      (∀ c, released (DecrementStrong s c) b =
        released s b + if c = b ∧ strongAt s.heap b = 1 then 1 else 0) := by
  have hI : Inv s := hs ▸ Inv_MakeShared_run a ops
  obtain ⟨h1, h2, h3, h4⟩ := hI b
  have e : strongAt s.heap b = 0 ↔ sharedCount s b = 0 := by
    unfold sharedCount; rw [h1]; exact_mod_cast Iff.rfl
  refine ⟨?_, ?_, fun c => released_DecrementStrong s c b hb⟩
  · rw [h3]; simp only [hb, true_and, e]
  · intro i hi hc
    have hl : live s.shared i = true := blockOf_live hi
    have hS : strongAt s.heap b = 1 := by
      rw [h1]; unfold sharedCount at hc; exact_mod_cast hc
    have h0 : released s b = 0 := by
      rw [h3]; simp [hS]
    refine ⟨h0, ?_, ?_⟩
    · simp [SharedPtr.dtor, hl, hi, hb, hS, h0]
    · simp [SharedPtr.Reset, hl, hi, hb, hS, h0]

theorem C2_witness :
    0 < (run (MakeShared State.empty 7)
        [Op.sharedCopy 0, Op.weakFromShared 1, Op.sharedDtor 1]).heap.length ∧
    blockOf (run (MakeShared State.empty 7)
        [Op.sharedCopy 0, Op.weakFromShared 1, Op.sharedDtor 1]).shared 0 = some 0 ∧
    sharedCount (run (MakeShared State.empty 7)
        [Op.sharedCopy 0, Op.weakFromShared 1, Op.sharedDtor 1]) 0 = 1 ∧
    weakCount (run (MakeShared State.empty 7)
        [Op.sharedCopy 0, Op.weakFromShared 1, Op.sharedDtor 1]) 0 = 1 ∧
    (released (run (MakeShared State.empty 7)
        [Op.sharedCopy 0, Op.weakFromShared 1, Op.sharedDtor 1]) 0 = 0 ∧
      released (SharedPtr.dtor (run (MakeShared State.empty 7)
        [Op.sharedCopy 0, Op.weakFromShared 1, Op.sharedDtor 1]) 0) 0 = 1 ∧
      released (SharedPtr.Reset (run (MakeShared State.empty 7)
        [Op.sharedCopy 0, Op.weakFromShared 1, Op.sharedDtor 1]) 0) 0 = 1) :=
  ⟨by decide, by decide, by decide, by decide,
    (C2_payload_released_exactly_once 7 [Op.sharedCopy 0, Op.weakFromShared 1, Op.sharedDtor 1]
      _ rfl 0 (by decide)).2.1 0 (by decide) (by decide)⟩

/-- C3: take any state reached from `MakeShared` by any operations (so with any
number of `SharedPtr` and `WeakPtr` objects on the block) and run the destructor
of every handle object, in any order `ds`.  Then on every block the whole run has
exactly one `StrongDeleter()` call and exactly one `delete this`, and after any
number `k` of the destructor calls a block that has been deallocated has
`strong == 0` and `weak == 0`. -/
theorem C3_release_and_deallocation_once (a : Nat) (ops : List Op) (s : State)
    (hs : s = run (MakeShared State.empty a) ops) (ds : List Op)
    (hp : ds.Perm (destroyAll s)) (b : Nat) (hb : b < s.heap.length) (k : Nat) :
    released (run s ds) b = 1 ∧ deallocated (run s ds) b = 1 ∧
      (deallocated (run s (ds.take k)) b ≠ 0 →
        strongAt (run s (ds.take k)).heap b = 0 ∧ weakAt (run s (ds.take k)).heap b = 0) := by
  have hI : ∀ xs, Inv (run s xs) := fun xs => by
    rw [hs, ← run_append]; exact Inv_MakeShared_run a _
  refine ⟨?_, ?_, ?_⟩
  · obtain ⟨h1, h2, h3, h4⟩ := hI ds b
    have hz := holders_after_destroyAll s ds hp b
    have hlen := length_heap_mono_run ds s
    rw [hz.1] at h1
    rw [h3]; simp [h1]; omega
  · obtain ⟨h1, h2, h3, h4⟩ := hI ds b
    have hz := holders_after_destroyAll s ds hp b
    have hlen := length_heap_mono_run ds s
    rw [hz.1] at h1
    rw [hz.2] at h2
    rw [h4]; simp [h1, h2]; omega
  · intro hne
    obtain ⟨h1, h2, h3, h4⟩ := hI (ds.take k) b
    rw [h4] at hne
    by_contra hcon
    apply hne
    rw [if_neg]
    intro hc
    exact hcon ⟨hc.2.1, hc.2.2⟩

theorem C3_witness :
    [Op.weakDtor 0, Op.sharedDtor 1, Op.sharedDtor 0].Perm
        (destroyAll (run (MakeShared State.empty 7) [Op.sharedCopy 0, Op.weakFromShared 0])) ∧
      0 < (run (MakeShared State.empty 7) [Op.sharedCopy 0, Op.weakFromShared 0]).heap.length ∧
      released (run (run (MakeShared State.empty 7) [Op.sharedCopy 0, Op.weakFromShared 0])
        [Op.weakDtor 0, Op.sharedDtor 1, Op.sharedDtor 0]) 0 = 1 ∧
      deallocated (run (run (MakeShared State.empty 7) [Op.sharedCopy 0, Op.weakFromShared 0])
        [Op.weakDtor 0, Op.sharedDtor 1, Op.sharedDtor 0]) 0 = 1 :=
  ⟨by decide, by decide,
    (C3_release_and_deallocation_once 7 [Op.sharedCopy 0, Op.weakFromShared 0] _ rfl
      [Op.weakDtor 0, Op.sharedDtor 1, Op.sharedDtor 0] (by decide) 0 (by decide) 0).1,
    (C3_release_and_deallocation_once 7 [Op.sharedCopy 0, Op.weakFromShared 0] _ rfl
      [Op.weakDtor 0, Op.sharedDtor 1, Op.sharedDtor 0] (by decide) 0 (by decide) 0).2.1⟩

/-- C4: in every state reached by the public operations, for a live `WeakPtr` at
index `w`: when `w` is not expired, the object returned by `w.Lock()` (the new
object at index `shared.length`) has `w`s payload pointer and block, and its
`UseCount()` is `w.UseCount()` before the call plus one; when `w` is expired,
which is when its block is absent or has `strong == 0`, the returned object has a
null pointer, no block and `UseCount() == 0`, and heap, `WeakPtr` store and event
log are the same as before. -/
theorem C4_Lock (ops : List Op) (s : State) (hs : s = run State.empty ops) (w : Nat)
    (hw : live s.weak w = true) :
    (WeakPtr.Expired s w = false →
      live (WeakPtr.Lock s w).shared s.shared.length = true ∧
      ptrOf (WeakPtr.Lock s w).shared s.shared.length = ptrOf s.weak w ∧
      blockOf (WeakPtr.Lock s w).shared s.shared.length = blockOf s.weak w ∧
      SharedPtr.UseCount (WeakPtr.Lock s w) s.shared.length = WeakPtr.UseCount s w + 1) ∧
    (WeakPtr.Expired s w = true ↔
      (blockOf s.weak w = none ∨ ∃ b, blockOf s.weak w = some b ∧ strongAt s.heap b = 0)) ∧
    (WeakPtr.Expired s w = true →
      live (WeakPtr.Lock s w).shared s.shared.length = true ∧
      ptrOf (WeakPtr.Lock s w).shared s.shared.length = none ∧
      blockOf (WeakPtr.Lock s w).shared s.shared.length = none ∧
      SharedPtr.UseCount (WeakPtr.Lock s w) s.shared.length = 0 ∧
      (WeakPtr.Lock s w).heap = s.heap ∧ (WeakPtr.Lock s w).weak = s.weak ∧
      (WeakPtr.Lock s w).log = s.log) := by
  have hI : Inv s := hs ▸ Inv_reachable ops
  refine ⟨?_, ?_, ?_⟩
  · intro he
    have hu : ¬ WeakPtr.UseCount s w = 0 := by
      intro h0; simp [WeakPtr.Expired, h0] at he
    cases hb : blockOf s.weak w with
    | none => exact absurd (by simp [WeakPtr.UseCount, hb]) hu
    | some b =>
      obtain ⟨hn, hs0, hw0⟩ := (hI b).bounds
      obtain ⟨hlt, _⟩ := (hI b).of_weak hb
      have hu2 : ¬ toSizeT (strongAt s.heap b) = 0 := by
        simpa [WeakPtr.UseCount, hb] using hu
      simp [WeakPtr.Lock, hw, hu2, SharedPtr.ctorPtrBlock, live_append, ptrOf_append,
        blockOf_append, SharedPtr.UseCount, hb, WeakPtr.UseCount, hlt, toSizeT_succ hs0]
  · exact Expired_iff_absent_or_zero hI w
  · intro he
    have hu : WeakPtr.UseCount s w = 0 := by
      simpa [WeakPtr.Expired] using he
    simp [WeakPtr.Lock, hw, hu, SharedPtr.ctorDefault, live_append, ptrOf_append,
      blockOf_append, SharedPtr.UseCount]

theorem C4_witness :
    live (run State.empty [Op.makeShared 7, Op.weakFromShared 0]).weak 0 = true ∧
      WeakPtr.Expired (run State.empty [Op.makeShared 7, Op.weakFromShared 0]) 0 = false ∧
      SharedPtr.UseCount
        (WeakPtr.Lock (run State.empty [Op.makeShared 7, Op.weakFromShared 0]) 0) 1 =
        WeakPtr.UseCount (run State.empty [Op.makeShared 7, Op.weakFromShared 0]) 0 + 1 :=
  ⟨by decide, by decide,
    ((C4_Lock [Op.makeShared 7, Op.weakFromShared 0] _ rfl 0 (by decide)).1 (by decide)).2.2.2⟩

/-- C5: in every state reached by the public operations, constructing a
`SharedPtr` from the live `WeakPtr` at index `w` throws `BadWeakPtr` exactly when
`w` is expired, which is when its block is absent or has `strong == 0`; and when
it throws, the state it leaves (every block, every handle, the event log) is the
state before the call. -/
theorem C5_promotion_throws_iff_expired (ops : List Op) (s : State)
    (hs : s = run State.empty ops) (w : Nat) (hw : live s.weak w = true) :
    ((SharedPtr.ctorWeak s w).1 = Except.error BadWeakPtr.mk ↔ WeakPtr.Expired s w = true) ∧
    ((SharedPtr.ctorWeak s w).1 = Except.error BadWeakPtr.mk ↔
      (blockOf s.weak w = none ∨ ∃ b, blockOf s.weak w = some b ∧ strongAt s.heap b = 0)) ∧
    ((SharedPtr.ctorWeak s w).1 = Except.error BadWeakPtr.mk → (SharedPtr.ctorWeak s w).2 = s) := by
  have h1 : (SharedPtr.ctorWeak s w).1 = Except.error BadWeakPtr.mk ↔
      WeakPtr.Expired s w = true := by
    unfold SharedPtr.ctorWeak
    by_cases he : WeakPtr.Expired s w = true <;> simp [hw, he]
  have hI : Inv s := hs ▸ Inv_reachable ops
  refine ⟨h1, h1.trans (Expired_iff_absent_or_zero hI w), ?_⟩
  intro ht
  have he := h1.1 ht
  simp [SharedPtr.ctorWeak, hw, he]

theorem C5_witness :
    live (run State.empty [Op.makeShared 7, Op.weakFromShared 0, Op.sharedDtor 0]).weak 0 = true ∧
      (SharedPtr.ctorWeak
        (run State.empty [Op.makeShared 7, Op.weakFromShared 0, Op.sharedDtor 0]) 0).2 =
        run State.empty [Op.makeShared 7, Op.weakFromShared 0, Op.sharedDtor 0] :=
  ⟨by decide,
    (C5_promotion_throws_iff_expired [Op.makeShared 7, Op.weakFromShared 0, Op.sharedDtor 0] _ rfl
      0 (by decide)).2.2 rfl⟩

/-- C6 (the code at the failing input): adopt the null pointer (`SharedPtr(T*)`
allocates a block for it, `strong == 1`), demote the handle to a `WeakPtr` and
construct a `SharedPtr` from that `WeakPtr`.  The `WeakPtr` is not expired and
nothing is thrown, yet the new object (index 1) has no block and
`UseCount() == 0`, and `strong` of the block is what it was: in
`*this = other.Lock()` the move assignment compares `Get()` of both sides, finds
`nullptr == nullptr` and returns, and the temporary gives its reference back. -/
theorem C6_promotion_of_null_pointer_observer :
    WeakPtr.Expired (run State.empty [Op.sharedPtr none, Op.weakFromShared 0]) 0 = false ∧
      (SharedPtr.ctorWeak (run State.empty [Op.sharedPtr none, Op.weakFromShared 0]) 0).1 =
        Except.ok () ∧
      blockOf (run State.empty [Op.sharedPtr none, Op.weakFromShared 0]).weak 0 = some 0 ∧
      live (SharedPtr.ctorWeak
        (run State.empty [Op.sharedPtr none, Op.weakFromShared 0]) 0).2.shared 1 = true ∧
      blockOf (SharedPtr.ctorWeak
        (run State.empty [Op.sharedPtr none, Op.weakFromShared 0]) 0).2.shared 1 = none ∧
      SharedPtr.UseCount (SharedPtr.ctorWeak
        (run State.empty [Op.sharedPtr none, Op.weakFromShared 0]) 0).2 1 = 0 ∧
      strongAt (run State.empty [Op.sharedPtr none, Op.weakFromShared 0]).heap 0 = 1 ∧
      strongAt (SharedPtr.ctorWeak
        (run State.empty [Op.sharedPtr none, Op.weakFromShared 0]) 0).2.heap 0 = 1 := by
  refine ⟨by decide, rfl, by decide, by decide, by decide, by decide, by decide, by decide⟩

/-- Promotion does what `Lock()` does when the payload pointer of the `WeakPtr`
is not null: the new object shares pointer and block, `strong` is one more. -/
theorem ctorWeak_of_ptr_ne_null {s : State} (h : Inv s) {w b p : Nat}
    (hb : blockOf s.weak w = some b) (hp : ptrOf s.weak w = some p)
    (he : WeakPtr.Expired s w = false) :
    (SharedPtr.ctorWeak s w).1 = Except.ok () ∧
      ptrOf (SharedPtr.ctorWeak s w).2.shared s.shared.length = some p ∧
      blockOf (SharedPtr.ctorWeak s w).2.shared s.shared.length = some b ∧
      strongAt (SharedPtr.ctorWeak s w).2.heap b = strongAt s.heap b + 1 := by
  have hw : live s.weak w = true := blockOf_live hb
  obtain ⟨hlt, _⟩ := (h b).of_weak hb
  have hu : ¬ toSizeT (strongAt s.heap b) = 0 := by
    intro h0; simp [WeakPtr.Expired, WeakPtr.UseCount, hb, h0] at he
  have hne : ¬ s.shared.length + 1 = s.shared.length := by omega
  simp [-List.append_assoc, SharedPtr.ctorWeak, hw, he, SharedPtr.ctorDefault, WeakPtr.Lock, WeakPtr.UseCount, hb,
    hu, SharedPtr.ctorPtrBlock, SharedPtr.moveAssign, SharedPtr.dtor, live_append, ptrOf_append,
    blockOf_append, hp, hne, live_setPtr, live_setBlock, ptrOf_setPtr, ptrOf_setBlock,
    blockOf_setPtr, blockOf_setBlock, ptrOf_endLife, blockOf_endLife, hlt]

theorem Expired_of_strong_zero {s : State} {w b : Nat} (hw : blockOf s.weak w = some b)
    (hz : strongAt s.heap b = 0) : WeakPtr.Expired s w = true := by
  simp [WeakPtr.Expired, WeakPtr.UseCount, hw, hz, toSizeT]

/-- Once `strong` of a block is back to 0 it stays 0, whatever operations follow. -/
theorem strong_zero_stays {s : State} (h : Inv s) {b : Nat} (hb : b < s.heap.length)
    (hz : strongAt s.heap b = 0) (more : List Op) : strongAt (run s more).heap b = 0 := by
  have h3 := (h b).rel_eq
  rw [if_pos ⟨hb, hz⟩] at h3
  have hm := released_mono_run more s b
  have h3b := (Inv_run more s h b).rel_eq
  by_contra hne
  rw [if_neg (fun hc => hne hc.2)] at h3b
  omega

/-- C7: in every state reached by the public operations, for a `WeakPtr` at index
`w` that holds block `b`: `Expired()` is true iff `UseCount() == 0`, and iff no
live `SharedPtr` holds `b`; so it is false while one does, and the destructor or
`Reset()` of the last such `SharedPtr` makes it true.  Once true it is true in
every later state, for every `WeakPtr` holding `b`, whatever operations (copies
and destructions of `WeakPtr` objects among them) have run in between. -/
theorem C7_Expired_tracks_last_SharedPtr (ops : List Op) (s : State)
    (hs : s = run State.empty ops) (w b : Nat) (hw : blockOf s.weak w = some b) :
    (WeakPtr.Expired s w = true ↔ WeakPtr.UseCount s w = 0) ∧
    (WeakPtr.Expired s w = true ↔ sharedCount s b = 0) ∧
    (∀ i, blockOf s.shared i = some b → sharedCount s b = 1 →
      WeakPtr.Expired s w = false ∧ WeakPtr.Expired (SharedPtr.dtor s i) w = true ∧
        WeakPtr.Expired (SharedPtr.Reset s i) w = true) ∧
    (WeakPtr.Expired s w = true → ∀ (more : List Op) (v : Nat),
      blockOf (run s more).weak v = some b → WeakPtr.Expired (run s more) v = true) := by
  have hI : Inv s := hs ▸ Inv_reachable ops
  obtain ⟨hlt, _⟩ := (hI b).of_weak hw
  have hiff := Expired_iff hI hw
  refine ⟨by simp [WeakPtr.Expired], hiff, ?_, ?_⟩
  · intro i hi hc
    have hl : live s.shared i = true := blockOf_live hi
    have hS : strongAt s.heap b = 1 := by
      rw [(hI b).strong_eq]; unfold sharedCount at hc; exact_mod_cast hc
    refine ⟨?_, ?_, ?_⟩
    · cases he : WeakPtr.Expired s w with
      | false => rfl
      | true => rw [hiff.1 he] at hc; omega
    · apply Expired_of_strong_zero (b := b)
      · simpa [SharedPtr.dtor, hl] using hw
      · simp [SharedPtr.dtor, hl, hi, hlt, hS]
    · apply Expired_of_strong_zero (b := b)
      · simpa [SharedPtr.Reset, hl] using hw
      · simp [SharedPtr.Reset, hl, hi, hlt, hS]
  · intro he more v hv
    have hz : strongAt s.heap b = 0 := by
      rw [(hI b).strong_eq]; have := hiff.1 he; unfold sharedCount at this; exact_mod_cast this
    exact Expired_of_strong_zero hv (strong_zero_stays hI hlt hz more)

theorem C7_witness :
    blockOf (run State.empty [Op.makeShared 7, Op.weakFromShared 0]).weak 0 = some 0 ∧
    blockOf (run State.empty [Op.makeShared 7, Op.weakFromShared 0]).shared 0 = some 0 ∧
    sharedCount (run State.empty [Op.makeShared 7, Op.weakFromShared 0]) 0 = 1 ∧
    (WeakPtr.Expired (run State.empty [Op.makeShared 7, Op.weakFromShared 0]) 0 = false ∧
      WeakPtr.Expired
        (SharedPtr.dtor (run State.empty [Op.makeShared 7, Op.weakFromShared 0]) 0) 0 = true ∧
      WeakPtr.Expired
        (SharedPtr.Reset (run State.empty [Op.makeShared 7, Op.weakFromShared 0]) 0) 0 = true) ∧
    blockOf (run State.empty [Op.makeShared 7, Op.weakFromShared 0, Op.sharedDtor 0]).weak 0 =
      some 0 ∧
    WeakPtr.Expired (run State.empty [Op.makeShared 7, Op.weakFromShared 0, Op.sharedDtor 0]) 0 =
      true ∧
    blockOf (run (run State.empty [Op.makeShared 7, Op.weakFromShared 0, Op.sharedDtor 0])
      [Op.weakCopy 0, Op.weakDtor 0]).weak 1 = some 0 ∧
    WeakPtr.Expired (run (run State.empty [Op.makeShared 7, Op.weakFromShared 0, Op.sharedDtor 0])
      [Op.weakCopy 0, Op.weakDtor 0]) 1 = true :=
  ⟨by decide, by decide, by decide,
    (C7_Expired_tracks_last_SharedPtr [Op.makeShared 7, Op.weakFromShared 0] _ rfl 0 0
      (by decide)).2.2.1 0 (by decide) (by decide),
    by decide, by decide, by decide,
    (C7_Expired_tracks_last_SharedPtr [Op.makeShared 7, Op.weakFromShared 0, Op.sharedDtor 0] _
      rfl 0 0 (by decide)).2.2.2 (by decide) [Op.weakCopy 0, Op.weakDtor 0] 1 (by decide)⟩

/-- C8 (counterexample): alias an empty `SharedPtr` (index 0) with the pointer
`5`.  The alias has no block either, and destroying it leaves `UseCount()` of the
original at 0: it does not drop by one. -/
theorem C8_counterexample_empty_original :
    ¬ (SharedPtr.Get (SharedPtr.ctorAlias (run State.empty [Op.sharedDefault]) 0 (some 5)) 1 =
          some 5 ∧
        SharedPtr.UseCount (SharedPtr.ctorAlias (run State.empty [Op.sharedDefault]) 0 (some 5)) 1 =
          SharedPtr.UseCount
            (SharedPtr.ctorAlias (run State.empty [Op.sharedDefault]) 0 (some 5)) 0 ∧
        SharedPtr.UseCount (SharedPtr.dtor
            (SharedPtr.ctorAlias (run State.empty [Op.sharedDefault]) 0 (some 5)) 1) 0 + 1 =
          SharedPtr.UseCount
            (SharedPtr.ctorAlias (run State.empty [Op.sharedDefault]) 0 (some 5)) 0) := by
  decide

/-- C8 (amended): in every state reached by the public operations, for a live
`SharedPtr` at index `h` and every pointer `p`, the alias `SharedPtr(h, p)` (the
new object at index `shared.length`) has `Get() == p`, the block of `h` and the
`UseCount()` of `h`.  When `h` holds a block, `strong` of that block is one more
than before, and destroying the alias takes `strong` back and lowers
`h.UseCount()` by one.  When `h` is empty, the alias has no block, no counter
changes, and `UseCount()` of `h` is 0 before and after the alias is destroyed. -/
theorem C8_aliasing_shares_block (ops : List Op) (s : State) (hs : s = run State.empty ops)
    (h : Nat) (p : Ptr) (hl : live s.shared h = true) :
    SharedPtr.Get (SharedPtr.ctorAlias s h p) s.shared.length = p ∧
    blockOf (SharedPtr.ctorAlias s h p).shared s.shared.length = blockOf s.shared h ∧
    blockOf (SharedPtr.ctorAlias s h p).shared h = blockOf s.shared h ∧
    SharedPtr.UseCount (SharedPtr.ctorAlias s h p) s.shared.length =
      SharedPtr.UseCount (SharedPtr.ctorAlias s h p) h ∧
    (∀ b, blockOf s.shared h = some b →
      strongAt (SharedPtr.ctorAlias s h p).heap b = strongAt s.heap b + 1 ∧
      strongAt (SharedPtr.dtor (SharedPtr.ctorAlias s h p) s.shared.length).heap b =
        strongAt s.heap b ∧
      SharedPtr.UseCount (SharedPtr.dtor (SharedPtr.ctorAlias s h p) s.shared.length) h + 1 =
        SharedPtr.UseCount (SharedPtr.ctorAlias s h p) h) ∧
    (blockOf s.shared h = none →
      (SharedPtr.ctorAlias s h p).heap = s.heap ∧
      SharedPtr.UseCount (SharedPtr.ctorAlias s h p) h = 0 ∧
      SharedPtr.UseCount (SharedPtr.dtor (SharedPtr.ctorAlias s h p) s.shared.length) h = 0 ∧
      (SharedPtr.dtor (SharedPtr.ctorAlias s h p) s.shared.length).heap = s.heap) := by
  have hI : Inv s := hs ▸ Inv_reachable ops
  have hne : ¬ h = s.shared.length := Nat.ne_of_lt (live_lt hl)
  cases hb : blockOf s.shared h with
  | none =>
    simp [SharedPtr.ctorAlias, SharedPtr.Get, SharedPtr.UseCount, SharedPtr.dtor, hl, hb,
      ptrOf_append, blockOf_append, live_append, blockOf_endLife, hne, incStrongIf, decStrongIf]
  | some b =>
    obtain ⟨hlt, hpos⟩ := (hI b).of_shared hb
    have h0 : (0 : Int) ≤ strongAt s.heap b := by omega
    simp [SharedPtr.ctorAlias, SharedPtr.Get, SharedPtr.UseCount, SharedPtr.dtor, hl, hb,
      ptrOf_append, blockOf_append, live_append, blockOf_endLife, hne, hlt, toSizeT_succ h0]

theorem C8_witness :
    live (run State.empty [Op.makeShared 7]).shared 0 = true ∧
    blockOf (run State.empty [Op.makeShared 7]).shared 0 = some 0 ∧
    (strongAt (SharedPtr.ctorAlias (run State.empty [Op.makeShared 7]) 0 (some 5)).heap 0 =
        strongAt (run State.empty [Op.makeShared 7]).heap 0 + 1 ∧
      strongAt (SharedPtr.dtor (SharedPtr.ctorAlias (run State.empty [Op.makeShared 7]) 0
        (some 5)) (run State.empty [Op.makeShared 7]).shared.length).heap 0 =
        strongAt (run State.empty [Op.makeShared 7]).heap 0 ∧
      SharedPtr.UseCount (SharedPtr.dtor (SharedPtr.ctorAlias (run State.empty [Op.makeShared 7])
        0 (some 5)) (run State.empty [Op.makeShared 7]).shared.length) 0 + 1 =
        SharedPtr.UseCount (SharedPtr.ctorAlias (run State.empty [Op.makeShared 7]) 0 (some 5)) 0) :=
  ⟨by decide, by decide,
    (C8_aliasing_shares_block [Op.makeShared 7] _ rfl 0 (some 5) (by decide)).2.2.2.2.1 0
      (by decide)⟩

/-- C9: `h = h` and `h = std::move(h)` on a `SharedPtr` leave the whole state as
it is: pointer, block and `UseCount()` of `h` are unchanged, no counter of any
block changes, and neither `StrongDeleter()` nor `delete this` runs. -/
theorem C9_self_assignment_is_noop (s : State) (h b : Nat) :
    SharedPtr.copyAssign s h h = s ∧ SharedPtr.moveAssign s h h = s ∧
    SharedPtr.Get (SharedPtr.copyAssign s h h) h = SharedPtr.Get s h ∧
    SharedPtr.Get (SharedPtr.moveAssign s h h) h = SharedPtr.Get s h ∧
    blockOf (SharedPtr.copyAssign s h h).shared h = blockOf s.shared h ∧
    blockOf (SharedPtr.moveAssign s h h).shared h = blockOf s.shared h ∧
    SharedPtr.UseCount (SharedPtr.copyAssign s h h) h = SharedPtr.UseCount s h ∧
    SharedPtr.UseCount (SharedPtr.moveAssign s h h) h = SharedPtr.UseCount s h ∧
    released (SharedPtr.copyAssign s h h) b = released s b ∧
    released (SharedPtr.moveAssign s h h) b = released s b ∧
    deallocated (SharedPtr.copyAssign s h h) b = deallocated s b ∧
    deallocated (SharedPtr.moveAssign s h h) b = deallocated s b := by
  have h1 : SharedPtr.copyAssign s h h = s := by
    simp [SharedPtr.copyAssign]
  have h2 : SharedPtr.moveAssign s h h = s := by
    simp [SharedPtr.moveAssign]
  rw [h1, h2]
  simp

/-- C10: the scenario, step by step, for a payload whose holder is at address
`a`.  `a = MakeShared(P)` is `SharedPtr` 0, its copy `b` is `SharedPtr` 1, `w` is
`WeakPtr` 0, and the handle returned by `w.Lock()` is `SharedPtr` 2. -/
theorem C10_scenario (a : Nat) :
    SharedPtr.UseCount (run State.empty [Op.makeShared a]) 0 = 1 ∧
    SharedPtr.UseCount (run State.empty [Op.makeShared a, Op.sharedCopy 0]) 0 = 2 ∧
    SharedPtr.UseCount (run State.empty [Op.makeShared a, Op.sharedCopy 0]) 1 = 2 ∧
    SharedPtr.UseCount (run State.empty
      [Op.makeShared a, Op.sharedCopy 0, Op.weakFromShared 1, Op.sharedDtor 1]) 0 = 1 ∧
    WeakPtr.Expired (run State.empty
      [Op.makeShared a, Op.sharedCopy 0, Op.weakFromShared 1, Op.sharedDtor 1]) 0 = false ∧
    WeakPtr.Expired (run State.empty
      [Op.makeShared a, Op.sharedCopy 0, Op.weakFromShared 1, Op.sharedDtor 1,
        Op.sharedDtor 0]) 0 = true ∧
    released (run State.empty
      [Op.makeShared a, Op.sharedCopy 0, Op.weakFromShared 1, Op.sharedDtor 1,
        Op.sharedDtor 0]) 0 = 1 ∧
    deallocated (run State.empty
      [Op.makeShared a, Op.sharedCopy 0, Op.weakFromShared 1, Op.sharedDtor 1,
        Op.sharedDtor 0]) 0 = 0 ∧
    live (run State.empty
      [Op.makeShared a, Op.sharedCopy 0, Op.weakFromShared 1, Op.sharedDtor 1,
        Op.sharedDtor 0, Op.weakLock 0]).shared 2 = true ∧
    SharedPtr.Get (run State.empty
      [Op.makeShared a, Op.sharedCopy 0, Op.weakFromShared 1, Op.sharedDtor 1,
        Op.sharedDtor 0, Op.weakLock 0]) 2 = none ∧
    blockOf (run State.empty
      [Op.makeShared a, Op.sharedCopy 0, Op.weakFromShared 1, Op.sharedDtor 1,
        Op.sharedDtor 0, Op.weakLock 0]).shared 2 = none ∧
    SharedPtr.UseCount (run State.empty
      [Op.makeShared a, Op.sharedCopy 0, Op.weakFromShared 1, Op.sharedDtor 1,
        Op.sharedDtor 0, Op.weakLock 0]) 2 = 0 := by
  refine ⟨?_, ?_, ?_, ?_, ?_, ?_, ?_, ?_, ?_, ?_, ?_, ?_⟩ <;>
    simp [run, step, MakeShared, SharedPtr.ctorBlock, SharedPtr.ctorCopy, WeakPtr.ctorShared,
      SharedPtr.dtor, WeakPtr.Lock, SharedPtr.ctorDefault, SharedPtr.ctorPtrBlock,
      SharedPtr.UseCount, SharedPtr.Get, WeakPtr.UseCount, WeakPtr.Expired, State.empty, live,
      slot, blockOf, ptrOf, State.newBlock, State.pushShared, State.setSharedPtr, setPtr, updAt,
      ptrAt, incStrongIf, IncrementStrong, State.updBlock, State.pushWeak, incWeakIf,
      IncrementWeak, decStrongIf, DecrementStrong, State.endShared, endLife, strongAt, weakAt,
      StrongDeleter, deleteThis, released, deallocated, toSizeT]

/-! ## More on single operations -/

theorem kindAt_append (h : List ControlBlock) (cb : ControlBlock) (b : Nat) :
    kindAt (h ++ [cb]) b = if b = h.length then some cb.kind else kindAt h b := by
  unfold kindAt; rw [List.getElem?_append]
  by_cases h1 : b < h.length
  · have : b ≠ h.length := by omega
    simp [h1, this]
  · by_cases h2 : b = h.length
    · subst h2; simp
    · have h4 : h[b]? = none := List.getElem?_eq_none (by omega)
      obtain ⟨k, hk⟩ := Nat.exists_eq_succ_of_ne_zero (show b - h.length ≠ 0 by omega)
      simp [h1, h2, h4, hk]

theorem strongAt_DecrementStrong (s : State) (c b : Nat) :
    strongAt (DecrementStrong s c).heap b =
      strongAt s.heap b - if c = b ∧ b < s.heap.length then 1 else 0 := by
  have h := strongAt_decStrongIf s (some c) b
  simpa [decStrongIf] using h

theorem weakAt_DecrementStrong (s : State) (c b : Nat) :
    weakAt (DecrementStrong s c).heap b = weakAt s.heap b := by
  have h := weakAt_decStrongIf s (some c) b
  simpa [decStrongIf] using h

theorem strongAt_DecrementWeak (s : State) (c b : Nat) :
    strongAt (DecrementWeak s c).heap b = strongAt s.heap b := by
  have h := strongAt_decWeakIf s (some c) b
  simpa [decWeakIf] using h

theorem weakAt_DecrementWeak (s : State) (c b : Nat) :
    weakAt (DecrementWeak s c).heap b =
      weakAt s.heap b - if c = b ∧ b < s.heap.length then 1 else 0 := by
  have h := weakAt_decWeakIf s (some c) b
  simpa [decWeakIf] using h

theorem log_DecrementStrong (s : State) (c : Nat) :
    (DecrementStrong s c).log = s.log ++
      (if c < s.heap.length ∧ strongAt s.heap c = 1 then
        (if weakAt s.heap c = 0 then [Event.release c, Event.dealloc c]
         else [Event.release c])
       else []) := by
  rw [DecrementStrong_eq]

theorem log_DecrementWeak (s : State) (c : Nat) :
    (DecrementWeak s c).log = s.log ++
      (if c < s.heap.length ∧ strongAt s.heap c = 0 ∧ weakAt s.heap c = 1 then
        [Event.dealloc c]
       else []) := by
  rw [DecrementWeak_eq]

/-! ### `Swap` on the fields of every handle -/

theorem Swap_fields (s : State) (i j : Nat) (hi : live s.shared i = true)
    (hj : live s.shared j = true) (k : Nat) :
    ptrOf (SharedPtr.Swap s i j).shared k =
      (if k = j then ptrOf s.shared i else if k = i then ptrOf s.shared j
        else ptrOf s.shared k) ∧
    blockOf (SharedPtr.Swap s i j).shared k =
      (if k = j then blockOf s.shared i else if k = i then blockOf s.shared j
        else blockOf s.shared k) ∧
    live (SharedPtr.Swap s i j).shared k = live s.shared k ∧
    (SharedPtr.Swap s i j).heap = s.heap ∧ (SharedPtr.Swap s i j).weak = s.weak ∧
    (SharedPtr.Swap s i j).log = s.log := by
  by_cases hkj : k = j <;> by_cases hki : k = i <;> by_cases hij : i = j <;>
    simp [SharedPtr.Swap, hi, hj, ptrOf_setPtr, ptrOf_setBlock, blockOf_setPtr, blockOf_setBlock,
      live_setPtr, live_setBlock, hkj, hki, hij]

theorem weak_Swap_fields (s : State) (i j : Nat) (hi : live s.weak i = true)
    (hj : live s.weak j = true) (k : Nat) :
    ptrOf (WeakPtr.Swap s i j).weak k =
      (if k = j then ptrOf s.weak i else if k = i then ptrOf s.weak j else ptrOf s.weak k) ∧
    blockOf (WeakPtr.Swap s i j).weak k =
      (if k = j then blockOf s.weak i else if k = i then blockOf s.weak j
        else blockOf s.weak k) ∧
    live (WeakPtr.Swap s i j).weak k = live s.weak k ∧
    (WeakPtr.Swap s i j).heap = s.heap ∧ (WeakPtr.Swap s i j).shared = s.shared ∧
    (WeakPtr.Swap s i j).log = s.log := by
  by_cases hkj : k = j <;> by_cases hki : k = i <;> by_cases hij : i = j <;>
    simp [WeakPtr.Swap, hi, hj, ptrOf_setPtr, ptrOf_setBlock, blockOf_setPtr, blockOf_setBlock,
      live_setPtr, live_setBlock, hkj, hki, hij]

/-! ## Pointer and block of a handle go together -/

theorem PairedStore_append {l : List (Option Handle)} (h : PairedStore l) (x : Handle)
    (hx : x.ptr_.isSome = x.block_.isSome) : PairedStore (l ++ [some x]) := by
  intro i
  rw [ptrOf_append, blockOf_append]
  by_cases hi : i = l.length
  · simp [hi, hx]
  · simp [hi, h i]

theorem PairedStore_set {l : List (Option Handle)} (h : PairedStore l) (i : Nat) (p : Ptr)
    (b : BlockRef) (hx : p.isSome = b.isSome) : PairedStore (setBlock (setPtr l i p) i b) := by
  intro k
  rw [ptrOf_setBlock, ptrOf_setPtr, blockOf_setBlock, blockOf_setPtr, live_setPtr]
  by_cases hk : k = i ∧ live l i = true
  · simp [hk, hx]
  · simp [hk, h k]

theorem PairedStore_endLife {l : List (Option Handle)} (h : PairedStore l) (i : Nat) :
    PairedStore (endLife l i) := by
  intro k
  rw [ptrOf_endLife, blockOf_endLife]
  by_cases hk : k = i
  · simp [hk]
  · simp [hk, h k]

theorem PairedStore_empty : PairedStore [] := by
  intro i; simp [ptrOf, blockOf, slot]

theorem isSome_ptrAt_append_self (h : List ControlBlock) (k : BlockKind) (a : Nat) :
    ptrAt (h ++ [{ kind := k, ptr := some a }]) h.length = some a := by
  simp [ptrAt_append]

theorem Paired_MakeShared (s : State) (a : Nat) (h : Paired s) : Paired (MakeShared s a) := by
  obtain ⟨h1, h2⟩ := h
  refine ⟨?_, ?_⟩
  · intro k
    simp only [MakeShared, SharedPtr.ctorBlock, shared_setSharedPtr, shared_pushShared,
      shared_newBlock, heap_pushShared, heap_newBlock, ptrOf_setPtr, blockOf_setPtr,
      ptrOf_append, blockOf_append, live_append, isSome_ptrAt_append_self]
    by_cases hk : k = s.shared.length
    · simp [hk]
    · simp [hk, h1 k]
  · simpa [MakeShared, SharedPtr.ctorBlock] using h2

theorem Paired_Swap_shared (s : State) (i j : Nat) (h : Paired s) :
    Paired (SharedPtr.Swap s i j) := by
  obtain ⟨h1, h2⟩ := h
  by_cases hl : live s.shared i = true ∧ live s.shared j = true
  · refine ⟨?_, ?_⟩
    · intro k
      obtain ⟨a1, a2, _⟩ := Swap_fields s i j hl.1 hl.2 k
      rw [a1, a2]
      split_ifs
      · exact h1 i
      · exact h1 j
      · exact h1 k
    · rw [(Swap_fields s i j hl.1 hl.2 0).2.2.2.2.1]; exact h2
  · simp only [SharedPtr.Swap, hl, if_false]; exact ⟨h1, h2⟩

theorem Paired_Swap_weak (s : State) (i j : Nat) (h : Paired s) :
    Paired (WeakPtr.Swap s i j) := by
  obtain ⟨h1, h2⟩ := h
  by_cases hl : live s.weak i = true ∧ live s.weak j = true
  · refine ⟨?_, ?_⟩
    · rw [(weak_Swap_fields s i j hl.1 hl.2 0).2.2.2.2.1]; exact h1
    · intro k
      obtain ⟨a1, a2, _⟩ := weak_Swap_fields s i j hl.1 hl.2 k
      rw [a1, a2]
      split_ifs
      · exact h2 i
      · exact h2 j
      · exact h2 k
  · simp only [WeakPtr.Swap, hl, if_false]; exact ⟨h1, h2⟩

theorem Paired_ctorDefault (s : State) (h : Paired s) : Paired (SharedPtr.ctorDefault s) :=
  ⟨PairedStore_append h.1 _ rfl, h.2⟩

theorem Paired_Lock (s : State) (i : Nat) (h : Paired s) : Paired (WeakPtr.Lock s i) := by
  obtain ⟨h1, h2⟩ := h
  unfold WeakPtr.Lock
  split_ifs
  · exact Paired_ctorDefault s ⟨h1, h2⟩
  · refine ⟨?_, ?_⟩
    · simp only [SharedPtr.ctorPtrBlock, shared_pushShared, shared_incStrongIf, weak_incStrongIf]
      exact PairedStore_append h1 _ (h2 i)
    · simpa [SharedPtr.ctorPtrBlock] using h2
  · exact ⟨h1, h2⟩

theorem Paired_moveAssign (s : State) (i j : Nat) (h : Paired s) :
    Paired (SharedPtr.moveAssign s i j) := by
  obtain ⟨h1, h2⟩ := h
  unfold SharedPtr.moveAssign
  split_ifs
  · exact ⟨h1, h2⟩
  · refine ⟨?_, ?_⟩
    · simp only [shared_setSharedBlock, shared_setSharedPtr, shared_decStrongIf, blockOf_setPtr]
      exact PairedStore_set (PairedStore_set h1 _ _ _ (h1 j)) _ _ _ rfl
    · simpa using h2
  · exact ⟨h1, h2⟩

theorem Paired_dtor (s : State) (i : Nat) (h : Paired s) : Paired (SharedPtr.dtor s i) := by
  obtain ⟨h1, h2⟩ := h
  unfold SharedPtr.dtor
  split_ifs
  · refine ⟨?_, ?_⟩
    · simp only [shared_endShared, shared_decStrongIf]
      exact PairedStore_endLife h1 _
    · simpa using h2
  · exact ⟨h1, h2⟩

theorem Paired_ctorWeak (s : State) (j : Nat) (h : Paired s) :
    Paired (SharedPtr.ctorWeak s j).2 := by
  unfold SharedPtr.ctorWeak
  split_ifs
  · exact h
  · exact Paired_dtor _ _ (Paired_moveAssign _ _ _ (Paired_Lock _ _ (Paired_ctorDefault _ h)))
  · exact h

theorem Paired_step (s : State) (op : Op) (h : Paired s) (hp : op.pairs s = true) :
    Paired (step s op) := by
  obtain ⟨h1, h2⟩ := h
  cases op with
  | sharedDefault => exact Paired_ctorDefault s ⟨h1, h2⟩
  | sharedPtr p =>
    simp only [Op.pairs] at hp
    exact ⟨by
      simp only [step, SharedPtr.ctorPtr, shared_pushShared, shared_newBlock]
      exact PairedStore_append h1 _ hp, by simpa [step, SharedPtr.ctorPtr] using h2⟩
  | makeShared a => exact Paired_MakeShared s a ⟨h1, h2⟩
  | sharedCopy j =>
    simp only [step, SharedPtr.ctorCopy]
    split_ifs
    · exact ⟨by
        simp only [shared_incStrongIf, shared_pushShared]
        exact PairedStore_append h1 _ (h1 j), by simpa using h2⟩
    · exact ⟨h1, h2⟩
  | sharedMove j =>
    simp only [step, SharedPtr.ctorMove]
    split_ifs
    · exact ⟨by
        simp only [shared_setSharedBlock, shared_setSharedPtr, shared_pushShared]
        exact PairedStore_set (PairedStore_append h1 _ (h1 j)) _ _ _ rfl, by simpa using h2⟩
    · exact ⟨h1, h2⟩
  | sharedAlias j p =>
    simp only [Op.pairs, beq_iff_eq] at hp
    simp only [step, SharedPtr.ctorAlias]
    split_ifs
    · exact ⟨by
        simp only [shared_incStrongIf, shared_pushShared]
        exact PairedStore_append h1 _ hp, by simpa using h2⟩
    · exact ⟨h1, h2⟩
  | sharedFromWeak j => exact Paired_ctorWeak s j ⟨h1, h2⟩
  | sharedCopyAssign i j =>
    simp only [step, SharedPtr.copyAssign]
    split_ifs
    · exact ⟨h1, h2⟩
    · exact ⟨by
        simp only [shared_incStrongIf, shared_setSharedBlock, shared_setSharedPtr,
          shared_decStrongIf, blockOf_setPtr]
        exact PairedStore_set h1 _ _ _ (h1 j), by simpa using h2⟩
    · exact ⟨h1, h2⟩
  | sharedMoveAssign i j => exact Paired_moveAssign s i j ⟨h1, h2⟩
  | sharedDtor i => exact Paired_dtor s i ⟨h1, h2⟩
  | sharedReset i =>
    simp only [step, SharedPtr.Reset]
    split_ifs
    · exact ⟨by
        simp only [shared_setSharedBlock, shared_setSharedPtr, shared_decStrongIf]
        exact PairedStore_set h1 _ _ _ rfl, by simpa using h2⟩
    · exact ⟨h1, h2⟩
  | sharedResetPtr i p =>
    simp only [Op.pairs] at hp
    simp only [step, SharedPtr.ResetPtr]
    split_ifs
    · exact ⟨by
        simp only [shared_setSharedBlock, shared_setSharedPtr, shared_decStrongIf,
          shared_newBlock]
        exact PairedStore_set h1 _ _ _ (by simpa using hp), by simpa using h2⟩
    · exact ⟨h1, h2⟩
  | sharedSwap i j => exact Paired_Swap_shared s i j ⟨h1, h2⟩
  | weakDefault =>
    exact ⟨by simpa [step, WeakPtr.ctorDefault] using h1, by
      simp only [step, WeakPtr.ctorDefault, weak_pushWeak]
      exact PairedStore_append h2 _ rfl⟩
  | weakCopy j =>
    simp only [step, WeakPtr.ctorCopy]
    split_ifs
    · exact ⟨by simpa using h1, by
        simp only [weak_incWeakIf, weak_pushWeak]
        exact PairedStore_append h2 _ (h2 j)⟩
    · exact ⟨h1, h2⟩
  | weakMove j =>
    simp only [step, WeakPtr.ctorMove]
    split_ifs
    · exact ⟨by simpa using h1, by
        simp only [weak_setWeakBlock, weak_setWeakPtr, weak_pushWeak]
        exact PairedStore_set (PairedStore_append h2 _ (h2 j)) _ _ _ rfl⟩
    · exact ⟨h1, h2⟩
  | weakFromShared j =>
    simp only [step, WeakPtr.ctorShared]
    split_ifs
    · exact ⟨by simpa using h1, by
        simp only [weak_incWeakIf, weak_pushWeak]
        exact PairedStore_append h2 _ (h1 j)⟩
    · exact ⟨h1, h2⟩
  | weakCopyAssign i j =>
    simp only [step, WeakPtr.copyAssign]
    split_ifs
    · exact ⟨h1, h2⟩
    · exact ⟨by simpa using h1, by
        simp only [weak_incWeakIf, weak_setWeakBlock, weak_setWeakPtr, weak_decWeakIf,
          blockOf_setPtr]
        exact PairedStore_set h2 _ _ _ (h2 j)⟩
    · exact ⟨h1, h2⟩
  | weakMoveAssign i j =>
    simp only [step, WeakPtr.moveAssign]
    split_ifs
    · exact ⟨h1, h2⟩
    · exact ⟨by simpa using h1, by
        simp only [weak_setWeakBlock, weak_setWeakPtr, weak_decWeakIf, blockOf_setPtr]
        exact PairedStore_set (PairedStore_set h2 _ _ _ (h2 j)) _ _ _ rfl⟩
    · exact ⟨h1, h2⟩
  | weakDtor i =>
    simp only [step, WeakPtr.dtor]
    split_ifs
    · exact ⟨by simpa using h1, by
        simp only [weak_endWeak, weak_decWeakIf]
        exact PairedStore_endLife h2 _⟩
    · exact ⟨h1, h2⟩
  | weakReset i =>
    simp only [step, WeakPtr.Reset]
    split_ifs
    · exact ⟨by simpa using h1, by
        simp only [weak_setWeakBlock, weak_setWeakPtr, weak_decWeakIf]
        exact PairedStore_set h2 _ _ _ rfl⟩
    · exact ⟨h1, h2⟩
  | weakSwap i j => exact Paired_Swap_weak s i j ⟨h1, h2⟩
  | weakLock i => exact Paired_Lock s i ⟨h1, h2⟩

theorem Paired_run (ops : List Op) (s : State) (h : Paired s) (hp : runPairs s ops = true) :
    Paired (run s ops) := by
  induction ops generalizing s with
  | nil => exact h
  | cons op ops ih =>
    simp only [runPairs, Bool.and_eq_true] at hp
    exact ih (step s op) (Paired_step s op h hp.1) hp.2

/-! ## The claims on single operations and on the invariants -/

/-- C11 (counterexample): `SharedPtr(p)` with a null `p` of type `T*` does not
give an empty handle: the new object has a block and `UseCount() == 1`. -/
theorem C11_counterexample_null_pointer :
    ¬ (blockOf (SharedPtr.ctorPtr State.empty none).shared 0 = none ∧
        SharedPtr.UseCount (SharedPtr.ctorPtr State.empty none) 0 = 0) := by
  decide

/-- C11 (amended): for every pointer `p`, null or not, `SharedPtr(p)` constructs
an object (at index `shared.length`) that holds `p` and a freshly allocated
`ControlBlockPtr` (at index `heap.length`) with `strong == 1`, `weak == 0` and
payload `p`, so its `UseCount()` is 1; the blocks there were are untouched.  The
empty handle (no block, `UseCount() == 0`) is what `SharedPtr()` and
`SharedPtr(nullptr)` construct. -/
theorem C11_adopt_allocates_block (s : State) (p : Ptr) :
    live (SharedPtr.ctorPtr s p).shared s.shared.length = true ∧
    SharedPtr.Get (SharedPtr.ctorPtr s p) s.shared.length = p ∧
    blockOf (SharedPtr.ctorPtr s p).shared s.shared.length = some s.heap.length ∧
    (SharedPtr.ctorPtr s p).heap.length = s.heap.length + 1 ∧
    kindAt (SharedPtr.ctorPtr s p).heap s.heap.length = some BlockKind.outOfPlace ∧
    ptrAt (SharedPtr.ctorPtr s p).heap s.heap.length = p ∧
    strongAt (SharedPtr.ctorPtr s p).heap s.heap.length = 1 ∧
    weakAt (SharedPtr.ctorPtr s p).heap s.heap.length = 0 ∧
    SharedPtr.UseCount (SharedPtr.ctorPtr s p) s.shared.length = 1 ∧
    (∀ b, b < s.heap.length →
      strongAt (SharedPtr.ctorPtr s p).heap b = strongAt s.heap b ∧
      weakAt (SharedPtr.ctorPtr s p).heap b = weakAt s.heap b) ∧
    (live (SharedPtr.ctorDefault s).shared s.shared.length = true ∧
      SharedPtr.Get (SharedPtr.ctorDefault s) s.shared.length = none ∧
      blockOf (SharedPtr.ctorDefault s).shared s.shared.length = none ∧
      SharedPtr.UseCount (SharedPtr.ctorDefault s) s.shared.length = 0 ∧
      (SharedPtr.ctorDefault s).heap = s.heap) := by
  refine ⟨?_, ?_, ?_, ?_, ?_, ?_, ?_, ?_, ?_, ?_, ?_⟩
  · simp [SharedPtr.ctorPtr, live_append]
  · simp [SharedPtr.ctorPtr, SharedPtr.Get, ptrOf_append]
  · simp [SharedPtr.ctorPtr, blockOf_append]
  · simp [SharedPtr.ctorPtr]
  · simp [SharedPtr.ctorPtr, kindAt_append]
  · simp [SharedPtr.ctorPtr, ptrAt_append]
  · simp [SharedPtr.ctorPtr, strongAt_append]
  · simp [SharedPtr.ctorPtr, weakAt_append]
  · simp [SharedPtr.ctorPtr, SharedPtr.UseCount, blockOf_append, strongAt_append, toSizeT]
  · intro b hb
    have hne : ¬ b = s.heap.length := by omega
    simp [SharedPtr.ctorPtr, strongAt_append, weakAt_append, hne]
  · simp [SharedPtr.ctorDefault, live_append, SharedPtr.Get, ptrOf_append, blockOf_append,
      SharedPtr.UseCount]

/-- C12 (counterexample): two reachable states with a live `SharedPtr` that
breaks the invariant.  Aliasing an empty handle with the pointer `5` gives a
handle with a pointer and no block; adopting a null pointer gives a handle with
a block (`strong == 1`) and no pointer. -/
theorem C12_counterexample_pointer_without_block :
    ¬ (((ptrOf (run State.empty [Op.sharedDefault, Op.sharedAlias 0 (some 5)]).shared 1 ≠ none ↔
          ∃ b, blockOf (run State.empty [Op.sharedDefault, Op.sharedAlias 0 (some 5)]).shared 1 =
              some b ∧
            1 ≤ strongAt (run State.empty [Op.sharedDefault, Op.sharedAlias 0 (some 5)]).heap b) ∨
        (ptrOf (run State.empty [Op.sharedDefault, Op.sharedAlias 0 (some 5)]).shared 1 = none ∧
          blockOf (run State.empty [Op.sharedDefault, Op.sharedAlias 0 (some 5)]).shared 1 =
            none))) ∧
    ¬ (((ptrOf (run State.empty [Op.sharedPtr none]).shared 0 ≠ none ↔
          ∃ b, blockOf (run State.empty [Op.sharedPtr none]).shared 0 = some b ∧
            1 ≤ strongAt (run State.empty [Op.sharedPtr none]).heap b) ∨
        (ptrOf (run State.empty [Op.sharedPtr none]).shared 0 = none ∧
          blockOf (run State.empty [Op.sharedPtr none]).shared 0 = none))) := by
  have e1 : ptrOf (run State.empty [Op.sharedDefault, Op.sharedAlias 0 (some 5)]).shared 1 =
      some 5 := by decide
  have e2 : blockOf (run State.empty [Op.sharedDefault, Op.sharedAlias 0 (some 5)]).shared 1 =
      none := by decide
  have e3 : ptrOf (run State.empty [Op.sharedPtr none]).shared 0 = none := by decide
  have e4 : blockOf (run State.empty [Op.sharedPtr none]).shared 0 = some 0 := by decide
  have e5 : strongAt (run State.empty [Op.sharedPtr none]).heap 0 = 1 := by decide
  constructor
  · rw [e1, e2]
    simp
  · rw [e3, e4]
    intro h
    rcases h with h | h
    · exact (h.2 ⟨0, rfl, by rw [e5]⟩) rfl
    · simp at h

/-- C12 (amended): in every state reached by the public operations, a block held
by a live `SharedPtr` is in the heap, has `strong >= 1` and has not been
deallocated.  When the run adopts no null pointer and aliases an empty handle
only with a null pointer and a handle with a block only with a pointer that is
not null (`runPairs`), the payload pointer of every live `SharedPtr` is not null
if and only if the handle holds a block, which then has `strong >= 1`. -/
theorem C12_pointer_and_block_go_together (ops : List Op) (s : State)
    (hs : s = run State.empty ops) (i : Nat) :
    (∀ b, blockOf s.shared i = some b →
      b < s.heap.length ∧ 1 ≤ strongAt s.heap b ∧ deallocated s b = 0) ∧
    (runPairs State.empty ops = true →
      (ptrOf s.shared i ≠ none ↔ ∃ b, blockOf s.shared i = some b ∧ 1 ≤ strongAt s.heap b)) := by
  have hI : Inv s := hs ▸ Inv_reachable ops
  have hb : ∀ b, blockOf s.shared i = some b →
      b < s.heap.length ∧ 1 ≤ strongAt s.heap b ∧ deallocated s b = 0 := by
    intro b hb
    obtain ⟨h1, h2⟩ := (hI b).of_shared hb
    refine ⟨h1, h2, ?_⟩
    rw [(hI b).dea_eq, if_neg]
    intro hc; omega
  refine ⟨hb, ?_⟩
  intro hp
  have hP : Paired s := hs ▸ Paired_run ops State.empty ⟨PairedStore_empty, PairedStore_empty⟩ hp
  have hk := hP.1 i
  constructor
  · intro hne
    cases hbk : blockOf s.shared i with
    | none =>
      rw [hbk] at hk
      cases hpt : ptrOf s.shared i with
      | none => exact absurd hpt hne
      | some x => rw [hpt] at hk; simp at hk
    | some b => exact ⟨b, rfl, (hb b hbk).2.1⟩
  · rintro ⟨b, hbk, _⟩ hpt
    rw [hbk, hpt] at hk
    simp at hk

theorem C12_witness :
    blockOf (run State.empty [Op.makeShared 7, Op.sharedCopy 0, Op.sharedAlias 1 (some 9),
      Op.sharedReset 0]).shared 2 = some 0 ∧
    runPairs State.empty [Op.makeShared 7, Op.sharedCopy 0, Op.sharedAlias 1 (some 9),
      Op.sharedReset 0] = true ∧
    (0 < (run State.empty [Op.makeShared 7, Op.sharedCopy 0, Op.sharedAlias 1 (some 9),
        Op.sharedReset 0]).heap.length ∧
      1 ≤ strongAt (run State.empty [Op.makeShared 7, Op.sharedCopy 0,
        Op.sharedAlias 1 (some 9), Op.sharedReset 0]).heap 0 ∧
      deallocated (run State.empty [Op.makeShared 7, Op.sharedCopy 0,
        Op.sharedAlias 1 (some 9), Op.sharedReset 0]) 0 = 0) ∧
    (ptrOf (run State.empty [Op.makeShared 7, Op.sharedCopy 0, Op.sharedAlias 1 (some 9),
        Op.sharedReset 0]).shared 2 ≠ none ↔
      ∃ b, blockOf (run State.empty [Op.makeShared 7, Op.sharedCopy 0,
          Op.sharedAlias 1 (some 9), Op.sharedReset 0]).shared 2 = some b ∧
        1 ≤ strongAt (run State.empty [Op.makeShared 7, Op.sharedCopy 0,
          Op.sharedAlias 1 (some 9), Op.sharedReset 0]).heap b) :=
  ⟨by decide, by decide,
    (C12_pointer_and_block_go_together [Op.makeShared 7, Op.sharedCopy 0,
      Op.sharedAlias 1 (some 9), Op.sharedReset 0] _ rfl 2).1 0 (by decide),
    (C12_pointer_and_block_go_together [Op.makeShared 7, Op.sharedCopy 0,
      Op.sharedAlias 1 (some 9), Op.sharedReset 0] _ rfl 2).2 (by decide)⟩

/-- C13: move construction from a live `SharedPtr` at index `j` gives a new
object (at index `shared.length`) with the former pointer and block of `j` and
leaves `j` with null pointer and no block; `a.Swap(b)` leaves `a` with the former
pointer and block of `b` and `b` with those of `a`.  Both leave heap (every
`strong` and `weak`), `WeakPtr` store and event log as they are, and after a
second `a.Swap(b)` every `SharedPtr` object has the pointer and block it had. -/
theorem C13_move_and_Swap_change_no_counter (s : State) (i j : Nat)
    (hi : live s.shared i = true) (hj : live s.shared j = true) :
    (live (SharedPtr.ctorMove s j).shared s.shared.length = true ∧
      ptrOf (SharedPtr.ctorMove s j).shared s.shared.length = ptrOf s.shared j ∧
      blockOf (SharedPtr.ctorMove s j).shared s.shared.length = blockOf s.shared j ∧
      live (SharedPtr.ctorMove s j).shared j = true ∧
      ptrOf (SharedPtr.ctorMove s j).shared j = none ∧
      blockOf (SharedPtr.ctorMove s j).shared j = none ∧
      (SharedPtr.ctorMove s j).heap = s.heap ∧ (SharedPtr.ctorMove s j).weak = s.weak ∧
      (SharedPtr.ctorMove s j).log = s.log) ∧
    (ptrOf (SharedPtr.Swap s i j).shared i = ptrOf s.shared j ∧
      blockOf (SharedPtr.Swap s i j).shared i = blockOf s.shared j ∧
      ptrOf (SharedPtr.Swap s i j).shared j = ptrOf s.shared i ∧
      blockOf (SharedPtr.Swap s i j).shared j = blockOf s.shared i ∧
      (SharedPtr.Swap s i j).heap = s.heap ∧ (SharedPtr.Swap s i j).weak = s.weak ∧
      (SharedPtr.Swap s i j).log = s.log) ∧
    (∀ k, ptrOf (SharedPtr.Swap (SharedPtr.Swap s i j) i j).shared k = ptrOf s.shared k ∧
      blockOf (SharedPtr.Swap (SharedPtr.Swap s i j) i j).shared k = blockOf s.shared k ∧
      live (SharedPtr.Swap (SharedPtr.Swap s i j) i j).shared k = live s.shared k) ∧
    (SharedPtr.Swap (SharedPtr.Swap s i j) i j).heap = s.heap := by
  have hjl : ¬ j = s.shared.length := Nat.ne_of_lt (live_lt hj)
  have hlj : ¬ s.shared.length = j := fun e => hjl e.symm
  have hi2 : live (SharedPtr.Swap s i j).shared i = true := by
    rw [(Swap_fields s i j hi hj i).2.2.1]; exact hi
  have hj2 : live (SharedPtr.Swap s i j).shared j = true := by
    rw [(Swap_fields s i j hi hj j).2.2.1]; exact hj
  refine ⟨?_, ?_, ?_, ?_⟩
  · simp [SharedPtr.ctorMove, hj, live_append, ptrOf_append, blockOf_append, live_setPtr,
      live_setBlock, ptrOf_setPtr, ptrOf_setBlock, blockOf_setPtr, blockOf_setBlock, hjl, hlj]
  · obtain ⟨a1, a2, _, a4, a5, a6⟩ := Swap_fields s i j hi hj i
    obtain ⟨b1, b2, _, _, _, _⟩ := Swap_fields s i j hi hj j
    refine ⟨?_, ?_, ?_, ?_, a4, a5, a6⟩
    · rw [a1]; by_cases hij : i = j <;> simp [hij]
    · rw [a2]; by_cases hij : i = j <;> simp [hij]
    · rw [b1]; simp
    · rw [b2]; simp
  · intro k
    obtain ⟨c1, c2, c3, _, _, _⟩ := Swap_fields (SharedPtr.Swap s i j) i j hi2 hj2 k
    rw [c1, c2, c3]
    obtain ⟨a1, a2, _⟩ := Swap_fields s i j hi hj i
    obtain ⟨b1, b2, _⟩ := Swap_fields s i j hi hj j
    obtain ⟨k1, k2, k3, _⟩ := Swap_fields s i j hi hj k
    rw [a1, a2, b1, b2, k1, k2, k3]
    by_cases hkj : k = j <;> by_cases hki : k = i <;> by_cases hij : i = j <;>
      simp [hkj, hki, hij]
  · rw [(Swap_fields (SharedPtr.Swap s i j) i j hi2 hj2 0).2.2.2.1,
      (Swap_fields s i j hi hj 0).2.2.2.1]

theorem C13_witness :
    live (run State.empty [Op.makeShared 7, Op.sharedPtr (some 9)]).shared 0 = true ∧
    live (run State.empty [Op.makeShared 7, Op.sharedPtr (some 9)]).shared 1 = true ∧
    (ptrOf (SharedPtr.Swap (run State.empty [Op.makeShared 7, Op.sharedPtr (some 9)]) 0 1).shared
        0 = ptrOf (run State.empty [Op.makeShared 7, Op.sharedPtr (some 9)]).shared 1 ∧
      blockOf (SharedPtr.Swap (run State.empty [Op.makeShared 7, Op.sharedPtr (some 9)]) 0
        1).shared 0 = blockOf (run State.empty [Op.makeShared 7, Op.sharedPtr (some 9)]).shared 1 ∧
      ptrOf (SharedPtr.Swap (run State.empty [Op.makeShared 7, Op.sharedPtr (some 9)]) 0 1).shared
        1 = ptrOf (run State.empty [Op.makeShared 7, Op.sharedPtr (some 9)]).shared 0 ∧
      blockOf (SharedPtr.Swap (run State.empty [Op.makeShared 7, Op.sharedPtr (some 9)]) 0
        1).shared 1 = blockOf (run State.empty [Op.makeShared 7, Op.sharedPtr (some 9)]).shared 0 ∧
      (SharedPtr.Swap (run State.empty [Op.makeShared 7, Op.sharedPtr (some 9)]) 0 1).heap =
        (run State.empty [Op.makeShared 7, Op.sharedPtr (some 9)]).heap ∧
      (SharedPtr.Swap (run State.empty [Op.makeShared 7, Op.sharedPtr (some 9)]) 0 1).weak =
        (run State.empty [Op.makeShared 7, Op.sharedPtr (some 9)]).weak ∧
      (SharedPtr.Swap (run State.empty [Op.makeShared 7, Op.sharedPtr (some 9)]) 0 1).log =
        (run State.empty [Op.makeShared 7, Op.sharedPtr (some 9)]).log) :=
  ⟨by decide, by decide,
    (C13_move_and_Swap_change_no_counter _ 0 1 (by decide) (by decide)).2.1⟩

/-- C14: in every state reached by the public operations, for a live `SharedPtr`
at index `h` and every pointer `p`, `h.Reset(p)` lowers `strong` of the block `h`
held by one (and calls `StrongDeleter()` on it exactly when that `strong` was 1)
and touches no other block there was; afterwards `h.Get() == p` and `h` holds a
freshly allocated `ControlBlockPtr` (at index `heap.length`) with `strong == 1`,
`weak == 0` and payload `p`, so `h.UseCount() == 1`: the block `SharedPtr(p)`
allocates for its new object. -/
theorem C14_Reset_with_pointer (ops : List Op) (s : State) (hs : s = run State.empty ops)
    (h : Nat) (p : Ptr) (hl : live s.shared h = true) :
    SharedPtr.Get (SharedPtr.ResetPtr s h p) h = p ∧
    blockOf (SharedPtr.ResetPtr s h p).shared h = some s.heap.length ∧
    (SharedPtr.ResetPtr s h p).heap.length = s.heap.length + 1 ∧
    kindAt (SharedPtr.ResetPtr s h p).heap s.heap.length = some BlockKind.outOfPlace ∧
    ptrAt (SharedPtr.ResetPtr s h p).heap s.heap.length = p ∧
    strongAt (SharedPtr.ResetPtr s h p).heap s.heap.length = 1 ∧
    weakAt (SharedPtr.ResetPtr s h p).heap s.heap.length = 0 ∧
    SharedPtr.UseCount (SharedPtr.ResetPtr s h p) h = 1 ∧
    (∀ b, blockOf s.shared h = some b →
      strongAt (SharedPtr.ResetPtr s h p).heap b = strongAt s.heap b - 1 ∧
      released (SharedPtr.ResetPtr s h p) b =
        released s b + if strongAt s.heap b = 1 then 1 else 0) ∧
    (∀ c, c < s.heap.length → blockOf s.shared h ≠ some c →
      strongAt (SharedPtr.ResetPtr s h p).heap c = strongAt s.heap c ∧
      released (SharedPtr.ResetPtr s h p) c = released s c) ∧
    (∀ c, c < s.heap.length →
      weakAt (SharedPtr.ResetPtr s h p).heap c = weakAt s.heap c) ∧
    (SharedPtr.Get (SharedPtr.ctorPtr s p) s.shared.length = p ∧
      blockOf (SharedPtr.ctorPtr s p).shared s.shared.length = some s.heap.length ∧
      kindAt (SharedPtr.ctorPtr s p).heap s.heap.length = some BlockKind.outOfPlace ∧
      ptrAt (SharedPtr.ctorPtr s p).heap s.heap.length = p ∧
      strongAt (SharedPtr.ctorPtr s p).heap s.heap.length = 1 ∧
      weakAt (SharedPtr.ctorPtr s p).heap s.heap.length = 0 ∧
      SharedPtr.UseCount (SharedPtr.ctorPtr s p) s.shared.length = 1) := by
  have hI : Inv s := hs ▸ Inv_reachable ops
  refine ⟨?_, ?_, ?_, ?_, ?_, ?_, ?_, ?_, ?_, ?_, ?_, ?_⟩
  · simp [SharedPtr.ResetPtr, SharedPtr.Get, hl, ptrOf_setBlock, ptrOf_setPtr]
  · simp [SharedPtr.ResetPtr, hl, blockOf_setBlock, live_setPtr]
  · simp [SharedPtr.ResetPtr, hl]
  · simp [SharedPtr.ResetPtr, hl, kindAt_append]
  · simp [SharedPtr.ResetPtr, hl, ptrAt_append]
  · simp [SharedPtr.ResetPtr, hl, strongAt_append]
  · simp [SharedPtr.ResetPtr, hl, weakAt_append]
  · simp [SharedPtr.ResetPtr, SharedPtr.UseCount, hl, blockOf_setBlock, live_setPtr,
      strongAt_append, toSizeT]
  · intro b hb
    obtain ⟨hlt, _⟩ := (hI b).of_shared hb
    have hne : ¬ b = s.heap.length := by omega
    simp [SharedPtr.ResetPtr, hl, strongAt_append, hne, hb, hlt]
  · intro c hc hb
    have hne : ¬ c = s.heap.length := by omega
    simp [SharedPtr.ResetPtr, hl, strongAt_append, hne, hb]
  · intro c hc
    have hne : ¬ c = s.heap.length := by omega
    simp [SharedPtr.ResetPtr, hl, weakAt_append, hne]
  · simp [SharedPtr.ctorPtr, SharedPtr.Get, ptrOf_append, blockOf_append, kindAt_append,
      ptrAt_append, strongAt_append, weakAt_append, SharedPtr.UseCount, toSizeT]

theorem C14_witness :
    live (run State.empty [Op.makeShared 7]).shared 0 = true ∧
    blockOf (run State.empty [Op.makeShared 7]).shared 0 = some 0 ∧
    SharedPtr.UseCount (SharedPtr.ResetPtr (run State.empty [Op.makeShared 7]) 0 (some 9)) 0 = 1 ∧
    (strongAt (SharedPtr.ResetPtr (run State.empty [Op.makeShared 7]) 0 (some 9)).heap 0 =
        strongAt (run State.empty [Op.makeShared 7]).heap 0 - 1 ∧
      released (SharedPtr.ResetPtr (run State.empty [Op.makeShared 7]) 0 (some 9)) 0 =
        released (run State.empty [Op.makeShared 7]) 0 +
          if strongAt (run State.empty [Op.makeShared 7]).heap 0 = 1 then 1 else 0) :=
  ⟨by decide, by decide,
    (C14_Reset_with_pointer [Op.makeShared 7] _ rfl 0 (some 9) (by decide)).2.2.2.2.2.2.2.1,
    (C14_Reset_with_pointer [Op.makeShared 7] _ rfl 0 (some 9) (by decide)).2.2.2.2.2.2.2.2.1 0
      (by decide)⟩

/-- C15 (counterexample): demoting an empty `SharedPtr` (index 1) and copying an
empty `WeakPtr` (index 0) leave the heap as it is: no `weak` is one more than
before. -/
theorem C15_counterexample_empty_source :
    ¬ (∃ b, weakAt (WeakPtr.ctorShared
          (run State.empty [Op.makeShared 7, Op.sharedDefault]) 1).heap b =
        weakAt (run State.empty [Op.makeShared 7, Op.sharedDefault]).heap b + 1) ∧
    ¬ (∃ b, weakAt (WeakPtr.ctorCopy
          (run State.empty [Op.makeShared 7, Op.weakDefault]) 0).heap b =
        weakAt (run State.empty [Op.makeShared 7, Op.weakDefault]).heap b + 1) := by
  have e1 : (WeakPtr.ctorShared (run State.empty [Op.makeShared 7, Op.sharedDefault]) 1).heap =
      (run State.empty [Op.makeShared 7, Op.sharedDefault]).heap := by decide
  have e2 : (WeakPtr.ctorCopy (run State.empty [Op.makeShared 7, Op.weakDefault]) 0).heap =
      (run State.empty [Op.makeShared 7, Op.weakDefault]).heap := by decide
  rw [e1, e2]
  constructor
  · rintro ⟨b, hb⟩; omega
  · rintro ⟨b, hb⟩; omega

/-- C15 (amended): in every state reached by the public operations, no operation of
`WeakPtr` other than `Lock()` changes `strong` of any block.  Copy construction
and demotion raise `weak` of the block the source holds by one (there is none to
raise when the source holds no block) and change no other `weak`; the destructor
and `Reset()` lower `weak` of the block the `WeakPtr` holds by one and change no
other `weak`; move construction and `Swap` leave the heap as it is. -/
theorem C15_WeakPtr_operations_and_counters (ops : List Op) (s : State)
    (hs : s = run State.empty ops) (i j b : Nat) :
    (strongAt (WeakPtr.ctorCopy s j).heap b = strongAt s.heap b ∧
      strongAt (WeakPtr.ctorMove s j).heap b = strongAt s.heap b ∧
      strongAt (WeakPtr.ctorShared s j).heap b = strongAt s.heap b ∧
      strongAt (WeakPtr.copyAssign s i j).heap b = strongAt s.heap b ∧
      strongAt (WeakPtr.moveAssign s i j).heap b = strongAt s.heap b ∧
      strongAt (WeakPtr.Reset s i).heap b = strongAt s.heap b ∧
      strongAt (WeakPtr.Swap s i j).heap b = strongAt s.heap b ∧
      strongAt (WeakPtr.dtor s i).heap b = strongAt s.heap b) ∧
    (live s.weak j = true → weakAt (WeakPtr.ctorCopy s j).heap b =
      weakAt s.heap b + if blockOf s.weak j = some b then 1 else 0) ∧
    (live s.shared j = true → weakAt (WeakPtr.ctorShared s j).heap b =
      weakAt s.heap b + if blockOf s.shared j = some b then 1 else 0) ∧
    (live s.weak i = true → weakAt (WeakPtr.dtor s i).heap b =
      weakAt s.heap b - if blockOf s.weak i = some b then 1 else 0) ∧
    (live s.weak i = true → weakAt (WeakPtr.Reset s i).heap b =
      weakAt s.heap b - if blockOf s.weak i = some b then 1 else 0) ∧
    (WeakPtr.ctorMove s j).heap = s.heap ∧ (WeakPtr.Swap s i j).heap = s.heap := by
  have hI : Inv s := hs ▸ Inv_reachable ops
  have hw := fun k => @BlockInv.of_weak s b k (hI b)
  have hsh := fun k => @BlockInv.of_shared s b k (hI b)
  refine ⟨⟨?_, ?_, ?_, ?_, ?_, ?_, ?_, ?_⟩, ?_, ?_, ?_, ?_, ?_, ?_⟩
  · unfold WeakPtr.ctorCopy; split_ifs <;> simp
  · unfold WeakPtr.ctorMove; split_ifs <;> simp
  · unfold WeakPtr.ctorShared; split_ifs <;> simp
  · unfold WeakPtr.copyAssign; split_ifs <;> simp
  · unfold WeakPtr.moveAssign; split_ifs <;> simp
  · unfold WeakPtr.Reset; split_ifs <;> simp
  · unfold WeakPtr.Swap; split_ifs <;> simp
  · unfold WeakPtr.dtor; split_ifs <;> simp
  · intro hl
    by_cases hb : blockOf s.weak j = some b
    · simp [WeakPtr.ctorCopy, hl, blockOf_append, hb, (hw j hb).1]
    · simp [WeakPtr.ctorCopy, hl, blockOf_append, hb]
  · intro hl
    by_cases hb : blockOf s.shared j = some b
    · simp [WeakPtr.ctorShared, hl, blockOf_append, hb, (hsh j hb).1]
    · simp [WeakPtr.ctorShared, hl, blockOf_append, hb]
  · intro hl
    by_cases hb : blockOf s.weak i = some b
    · simp [WeakPtr.dtor, hl, hb, (hw i hb).1]
    · simp [WeakPtr.dtor, hl, hb]
  · intro hl
    by_cases hb : blockOf s.weak i = some b
    · simp [WeakPtr.Reset, hl, hb, (hw i hb).1]
    · simp [WeakPtr.Reset, hl, hb]
  · unfold WeakPtr.ctorMove; split_ifs <;> simp
  · unfold WeakPtr.Swap; split_ifs <;> simp

theorem C15_witness :
    live (run State.empty [Op.makeShared 7, Op.weakFromShared 0]).weak 0 = true ∧
    blockOf (run State.empty [Op.makeShared 7, Op.weakFromShared 0]).weak 0 = some 0 ∧
    weakAt (WeakPtr.ctorCopy (run State.empty [Op.makeShared 7, Op.weakFromShared 0]) 0).heap 0 =
      weakAt (run State.empty [Op.makeShared 7, Op.weakFromShared 0]).heap 0 +
        (if blockOf (run State.empty [Op.makeShared 7, Op.weakFromShared 0]).weak 0 = some 0
          then 1 else 0) ∧
    weakAt (WeakPtr.dtor (run State.empty [Op.makeShared 7, Op.weakFromShared 0]) 0).heap 0 =
      weakAt (run State.empty [Op.makeShared 7, Op.weakFromShared 0]).heap 0 -
        (if blockOf (run State.empty [Op.makeShared 7, Op.weakFromShared 0]).weak 0 = some 0
          then 1 else 0) :=
  ⟨by decide, by decide,
    (C15_WeakPtr_operations_and_counters [Op.makeShared 7, Op.weakFromShared 0] _ rfl 0 0
      0).2.1 (by decide),
    (C15_WeakPtr_operations_and_counters [Op.makeShared 7, Op.weakFromShared 0] _ rfl 0 0
      0).2.2.2.1 (by decide)⟩

/-- C16: a factory-created block starts with `strong == 1` and `weak == 0`, and
in every state reached from it by the public operations of `SharedPtr` and
`WeakPtr`, for every block, `strong` and `weak` are not negative, `strong` is the
number of live `SharedPtr` objects holding the block and `weak` the number of
live `WeakPtr` objects holding it. -/
theorem C16_counters_count_live_handles (a : Nat) (ops : List Op) (b : Nat) :
    strongAt (MakeShared State.empty a).heap 0 = 1 ∧
    weakAt (MakeShared State.empty a).heap 0 = 0 ∧
    0 ≤ strongAt (run (MakeShared State.empty a) ops).heap b ∧
    0 ≤ weakAt (run (MakeShared State.empty a) ops).heap b ∧
    strongAt (run (MakeShared State.empty a) ops).heap b =
      sharedCount (run (MakeShared State.empty a) ops) b ∧
    weakAt (run (MakeShared State.empty a) ops).heap b =
      weakCount (run (MakeShared State.empty a) ops) b := by
  have h := Inv_MakeShared_run a ops b
  obtain ⟨_, h0, h1⟩ := h.bounds
  refine ⟨?_, ?_, h0, h1, h.strong_eq, h.weak_eq⟩
  · simp [MakeShared, SharedPtr.ctorBlock, State.empty, strongAt]
  · simp [MakeShared, SharedPtr.ctorBlock, State.empty, weakAt]

/-- C19: for a block `b` of the heap with `strong >= 1`, `DecrementStrong()`
lowers `strong` by one, to a value that is not negative, and leaves `weak` and
every other block as they are.  When
the new `strong` is not 0 nothing is logged: the payload is not released.  When
it is 0 and `weak` is not 0, exactly one `StrongDeleter()` call is logged and no
`delete this`: the block stays with `strong == 0` and its `weak`.  When it is 0
and `weak == 0`, `StrongDeleter()` is logged and then `delete this`. -/
theorem C19_DecrementStrong (s : State) (b : Nat) (hb : b < s.heap.length)
    (hs : 1 ≤ strongAt s.heap b) :
    strongAt (DecrementStrong s b).heap b = strongAt s.heap b - 1 ∧
    0 ≤ strongAt (DecrementStrong s b).heap b ∧
    weakAt (DecrementStrong s b).heap b = weakAt s.heap b ∧
    (∀ c, c ≠ b → strongAt (DecrementStrong s b).heap c = strongAt s.heap c ∧
      weakAt (DecrementStrong s b).heap c = weakAt s.heap c) ∧
    (strongAt s.heap b - 1 ≠ 0 → (DecrementStrong s b).log = s.log) ∧
    (strongAt s.heap b - 1 = 0 → weakAt s.heap b ≠ 0 →
      (DecrementStrong s b).log = s.log ++ [Event.release b] ∧
      strongAt (DecrementStrong s b).heap b = 0 ∧
      deallocated (DecrementStrong s b) b = deallocated s b ∧
      released (DecrementStrong s b) b = released s b + 1) ∧
    (strongAt s.heap b - 1 = 0 → weakAt s.heap b = 0 →
      (DecrementStrong s b).log = s.log ++ [Event.release b, Event.dealloc b] ∧
      deallocated (DecrementStrong s b) b = deallocated s b + 1 ∧
      released (DecrementStrong s b) b = released s b + 1) := by
  have e1 : strongAt (DecrementStrong s b).heap b = strongAt s.heap b - 1 := by
    rw [strongAt_DecrementStrong]; simp [hb]
  refine ⟨e1, by omega, weakAt_DecrementStrong s b b, ?_, ?_, ?_, ?_⟩
  · intro c hc
    have hbc : ¬ b = c := fun e => hc e.symm
    exact ⟨by rw [strongAt_DecrementStrong]; simp [hbc], weakAt_DecrementStrong s b c⟩
  · intro h
    have h1 : ¬ strongAt s.heap b = 1 := by omega
    rw [log_DecrementStrong]; simp [h1]
  · intro h hw
    have h1 : strongAt s.heap b = 1 := by omega
    have hl : (DecrementStrong s b).log = s.log ++ [Event.release b] := by
      rw [log_DecrementStrong]; simp [h1, hb, hw]
    refine ⟨hl, ?_, ?_, ?_⟩
    · rw [strongAt_DecrementStrong]; simp [hb, h1]
    · simp [deallocated, hl]
    · simp [released, hl]
  · intro h hw
    have h1 : strongAt s.heap b = 1 := by omega
    have hl : (DecrementStrong s b).log = s.log ++ [Event.release b, Event.dealloc b] := by
      rw [log_DecrementStrong]; simp [h1, hb, hw]
    refine ⟨hl, ?_, ?_⟩
    · simp [deallocated, hl]
    · simp [released, hl]

theorem C19_witness :
    0 < (run State.empty [Op.makeShared 7, Op.weakFromShared 0]).heap.length ∧
    1 ≤ strongAt (run State.empty [Op.makeShared 7, Op.weakFromShared 0]).heap 0 ∧
    weakAt (run State.empty [Op.makeShared 7, Op.weakFromShared 0]).heap 0 ≠ 0 ∧
    ((DecrementStrong (run State.empty [Op.makeShared 7, Op.weakFromShared 0]) 0).log =
        (run State.empty [Op.makeShared 7, Op.weakFromShared 0]).log ++ [Event.release 0] ∧
      strongAt (DecrementStrong (run State.empty [Op.makeShared 7, Op.weakFromShared 0]) 0).heap
        0 = 0 ∧
      deallocated (DecrementStrong (run State.empty [Op.makeShared 7, Op.weakFromShared 0]) 0) 0 =
        deallocated (run State.empty [Op.makeShared 7, Op.weakFromShared 0]) 0 ∧
      released (DecrementStrong (run State.empty [Op.makeShared 7, Op.weakFromShared 0]) 0) 0 =
        released (run State.empty [Op.makeShared 7, Op.weakFromShared 0]) 0 + 1) :=
  ⟨by decide, by decide, by decide,
    (C19_DecrementStrong _ 0 (by decide) (by decide)).2.2.2.2.2.1 (by decide) (by decide)⟩

/-- C20: for a block `b` of the heap with `weak >= 1`, `DecrementWeak()` lowers
`weak` by one, to a value that is not negative, leaves `strong` and every other
block as they are and never calls
`StrongDeleter()`; it logs one `delete this` when afterwards `weak == 0` and
`strong == 0`, and logs nothing otherwise. -/
theorem C20_DecrementWeak (s : State) (b : Nat) (hb : b < s.heap.length)
    (hw : 1 ≤ weakAt s.heap b) :
    weakAt (DecrementWeak s b).heap b = weakAt s.heap b - 1 ∧
    0 ≤ weakAt (DecrementWeak s b).heap b ∧
    strongAt (DecrementWeak s b).heap b = strongAt s.heap b ∧
    (∀ c, c ≠ b → strongAt (DecrementWeak s b).heap c = strongAt s.heap c ∧
      weakAt (DecrementWeak s b).heap c = weakAt s.heap c) ∧
    (∀ c, released (DecrementWeak s b) c = released s c) ∧
    ((weakAt (DecrementWeak s b).heap b = 0 ∧ strongAt (DecrementWeak s b).heap b = 0) →
      (DecrementWeak s b).log = s.log ++ [Event.dealloc b] ∧
      deallocated (DecrementWeak s b) b = deallocated s b + 1) ∧
    (¬ (weakAt (DecrementWeak s b).heap b = 0 ∧ strongAt (DecrementWeak s b).heap b = 0) →
      (DecrementWeak s b).log = s.log ∧
      deallocated (DecrementWeak s b) b = deallocated s b) := by
  have e1 : weakAt (DecrementWeak s b).heap b = weakAt s.heap b - 1 := by
    rw [weakAt_DecrementWeak]; simp [hb]
  have e2 := strongAt_DecrementWeak s b b
  refine ⟨e1, by omega, e2, ?_, ?_, ?_, ?_⟩
  · intro c hc
    have hbc : ¬ b = c := fun e => hc e.symm
    exact ⟨strongAt_DecrementWeak s b c, by rw [weakAt_DecrementWeak]; simp [hbc]⟩
  · intro c
    have h := released_decWeakIf s (some b) c
    simpa [decWeakIf] using h
  · rw [e1, e2]
    intro h
    have h1 : weakAt s.heap b = 1 := by omega
    have hl : (DecrementWeak s b).log = s.log ++ [Event.dealloc b] := by
      rw [log_DecrementWeak]; simp [h1, hb, h.2]
    exact ⟨hl, by simp [deallocated, hl]⟩
  · rw [e1, e2]
    intro h
    have h1 : ¬ (b < s.heap.length ∧ strongAt s.heap b = 0 ∧ weakAt s.heap b = 1) := by
      intro hc; apply h; constructor
      · omega
      · exact hc.2.1
    have hl : (DecrementWeak s b).log = s.log := by
      rw [log_DecrementWeak]; simp [h1]
    exact ⟨hl, by simp [deallocated, hl]⟩

theorem C20_witness :
    0 < (run State.empty [Op.makeShared 7, Op.weakFromShared 0, Op.sharedDtor 0]).heap.length ∧
    1 ≤ weakAt (run State.empty [Op.makeShared 7, Op.weakFromShared 0, Op.sharedDtor 0]).heap 0 ∧
    (weakAt (DecrementWeak (run State.empty
        [Op.makeShared 7, Op.weakFromShared 0, Op.sharedDtor 0]) 0).heap 0 = 0 ∧
      strongAt (DecrementWeak (run State.empty
        [Op.makeShared 7, Op.weakFromShared 0, Op.sharedDtor 0]) 0).heap 0 = 0) ∧
    ((DecrementWeak (run State.empty
        [Op.makeShared 7, Op.weakFromShared 0, Op.sharedDtor 0]) 0).log =
      (run State.empty [Op.makeShared 7, Op.weakFromShared 0, Op.sharedDtor 0]).log ++
        [Event.dealloc 0] ∧
      deallocated (DecrementWeak (run State.empty
        [Op.makeShared 7, Op.weakFromShared 0, Op.sharedDtor 0]) 0) 0 =
      deallocated (run State.empty [Op.makeShared 7, Op.weakFromShared 0, Op.sharedDtor 0]) 0
        + 1) :=
  ⟨by decide, by decide, by decide,
    (C20_DecrementWeak _ 0 (by decide) (by decide)).2.2.2.2.2.1 (by decide)⟩

/-! ## Lemmas on object stores in general -/

namespace Store

theorem slot_upd {α : Type} (l : List (Option α)) (i j : Nat) (g : α → α) :
    slot (upd l i g) j = if j = i then (slot l i).map g else slot l j := by
  unfold slot upd
  rw [getElem?_updAt]
  by_cases hj : j = i
  · subst hj
    simp only [if_true]
    rcases l[j]? with _ | _ | a <;> rfl
  · simp [hj]

theorem slot_kill {α : Type} (l : List (Option α)) (i j : Nat) :
    slot (kill l i) j = if j = i then none else slot l j := by
  unfold slot kill
  rw [getElem?_updAt]
  by_cases hj : j = i
  · subst hj
    simp only [if_true]
    rcases l[j]? with _ | _ | a <;> rfl
  · simp [hj]

theorem slot_snoc {α : Type} (l : List (Option α)) (a : α) (j : Nat) :
    slot (l ++ [some a]) j = if j = l.length then some a else slot l j := by
  unfold slot
  rw [List.getElem?_append]
  by_cases h1 : j < l.length
  · have : j ≠ l.length := by omega
    simp [h1, this]
  · by_cases h2 : j = l.length
    · subst h2; simp
    · have h4 : l[j]? = none := List.getElem?_eq_none (by omega)
      obtain ⟨k, hk⟩ := Nat.exists_eq_succ_of_ne_zero (show j - l.length ≠ 0 by omega)
      simp [h1, h2, h4, hk]

theorem live_upd {α : Type} (l : List (Option α)) (i j : Nat) (g : α → α) :
    live (upd l i g) j = live l j := by
  unfold live; rw [slot_upd]
  by_cases hj : j = i
  · subst hj; cases slot l j <;> simp
  · simp [hj]

theorem live_kill {α : Type} (l : List (Option α)) (i j : Nat) :
    live (kill l i) j = (!decide (j = i) && live l j) := by
  unfold live; rw [slot_kill]; by_cases hj : j = i <;> simp [hj]

theorem live_snoc {α : Type} (l : List (Option α)) (a : α) (j : Nat) :
    live (l ++ [some a]) j = (decide (j = l.length) || live l j) := by
  unfold live; rw [slot_snoc]; by_cases hj : j = l.length <;> simp [hj]

theorem length_upd {α : Type} (l : List (Option α)) (i : Nat) (g : α → α) :
    (upd l i g).length = l.length := length_updAt _ _ _

theorem length_kill {α : Type} (l : List (Option α)) (i : Nat) :
    (kill l i).length = l.length := length_updAt _ _ _

theorem live_lt_length {α : Type} {l : List (Option α)} {i : Nat} (h : live l i = true) :
    i < l.length := by
  unfold live slot at h
  by_contra hn
  have : l[i]? = none := List.getElem?_eq_none (by omega)
  simp [this] at h

theorem live_of_slot {α : Type} {l : List (Option α)} {i : Nat} {a : α}
    (h : slot l i = some a) : live l i = true := by
  unfold live; rw [h]; rfl

theorem count_append {α : Type} (key : α → Ptr) (l : List (Option α)) (a : α) (o : Nat) :
    (count key (l ++ [some a]) o : Int) = count key l o + if key a = some o then 1 else 0 := by
  unfold count
  simp only [List.countP_append, List.countP_cons, List.countP_nil, beq_iff_eq]
  split_ifs <;> simp

theorem count_upd {α : Type} (key : α → Ptr) (l : List (Option α)) (i : Nat) (g : α → α)
    (o : Nat) :
    (count key (upd l i g) o : Int) = count key l o +
      (match slot l i with
        | some a => (if key (g a) = some o then 1 else 0) - (if key a = some o then 1 else 0)
        | none => 0) := by
  unfold count upd
  rw [countP_updAt]
  unfold slot
  rcases hl : l[i]? with _ | _ | a
  · simp
  · simp
  · simp

theorem count_kill {α : Type} (key : α → Ptr) (l : List (Option α)) (i : Nat) (o : Nat) :
    (count key (kill l i) o : Int) = count key l o -
      (match slot l i with
        | some a => if key a = some o then 1 else 0
        | none => 0) := by
  unfold count kill
  rw [countP_updAt]
  unfold slot
  rcases hl : l[i]? with _ | _ | a
  · simp
  · simp
  · simp
    split_ifs <;> ring

theorem count_pos {α : Type} (key : α → Ptr) {l : List (Option α)} {i o : Nat} {a : α}
    (h : slot l i = some a) (hk : key a = some o) : 0 < count key l o := by
  unfold count
  rw [List.countP_pos_iff]
  unfold slot at h
  rcases hl : l[i]? with _ | _ | x
  · simp [hl] at h
  · simp [hl] at h
  · simp [hl] at h
    subst h
    exact ⟨some x, List.getElem?_mem hl, by simp [hk]⟩

theorem count_le_length {α : Type} (key : α → Ptr) (l : List (Option α)) (o : Nat) :
    count key l o ≤ l.length := by
  unfold count; exact List.countP_le_length _

theorem count_eq_zero {α : Type} (key : α → Ptr) {l : List (Option α)}
    (h : ∀ i, live l i = false) (o : Nat) : count key l o = 0 := by
  by_contra hne
  have hp : 0 < count key l o := Nat.pos_of_ne_zero hne
  unfold count at hp
  rw [List.countP_pos_iff] at hp
  obtain ⟨x, hx, hb⟩ := hp
  obtain ⟨i, hi⟩ := List.mem_iff_getElem?.1 hx
  cases x with
  | none => simp at hb
  | some a =>
    have := h i
    simp [live, slot, hi] at this

end Store

namespace Intrusive

/-! ## `IntrusivePtr`: reads after writes, counting -/

@[simp] theorem objects_push (s : IState) (h : IntrusivePtr) : (s.push h).objects = s.objects := rfl
@[simp] theorem handles_push (s : IState) (h : IntrusivePtr) :
    (s.push h).handles = s.handles ++ [some h] := rfl
@[simp] theorem destroyed_push (s : IState) (h : IntrusivePtr) :
    (s.push h).destroyed = s.destroyed := rfl
@[simp] theorem objects_setPtr (s : IState) (i : Nat) (p : Ptr) :
    (s.setPtr i p).objects = s.objects := rfl
@[simp] theorem handles_setPtr (s : IState) (i : Nat) (p : Ptr) :
    (s.setPtr i p).handles = setPtr s.handles i p := rfl
@[simp] theorem destroyed_setPtr (s : IState) (i : Nat) (p : Ptr) :
    (s.setPtr i p).destroyed = s.destroyed := rfl
@[simp] theorem objects_endHandle (s : IState) (i : Nat) :
    (s.endHandle i).objects = s.objects := rfl
@[simp] theorem handles_endHandle (s : IState) (i : Nat) :
    (s.endHandle i).handles = Store.kill s.handles i := rfl
@[simp] theorem destroyed_endHandle (s : IState) (i : Nat) :
    (s.endHandle i).destroyed = s.destroyed := rfl

theorem ptrOf_handles_append (l : List (Option IntrusivePtr)) (h : IntrusivePtr) (j : Nat) :
    ptrOf (l ++ [some h]) j = if j = l.length then h.ptr_ else ptrOf l j := by
  simp only [ptrOf, Store.slot_snoc]
  by_cases hj : j = l.length <;> simp [hj]

theorem ptrOf_handles_setPtr (l : List (Option IntrusivePtr)) (i : Nat) (p : Ptr) (j : Nat) :
    ptrOf (setPtr l i p) j = if j = i ∧ Store.live l i = true then p else ptrOf l j := by
  simp only [setPtr, ptrOf, Store.slot_upd, Store.live]
  by_cases hj : j = i
  · subst hj; cases Store.slot l j <;> simp
  · simp [hj]

theorem ptrOf_kill (l : List (Option IntrusivePtr)) (i j : Nat) :
    ptrOf (Store.kill l i) j = if j = i then none else ptrOf l j := by
  simp only [ptrOf, Store.slot_kill]
  by_cases hj : j = i <;> simp [hj]

theorem live_handles_setPtr (l : List (Option IntrusivePtr)) (i : Nat) (p : Ptr) (j : Nat) :
    Store.live (setPtr l i p) j = Store.live l j :=
  Store.live_upd _ _ _ _

theorem length_handles_setPtr (l : List (Option IntrusivePtr)) (i : Nat) (p : Ptr) :
    (setPtr l i p).length = l.length :=
  Store.length_upd _ _ _

theorem owners_append (l : List (Option IntrusivePtr)) (h : IntrusivePtr) (o : Nat) :
    (owners (l ++ [some h]) o : Int) = owners l o + if h.ptr_ = some o then 1 else 0 :=
  Store.count_append _ _ _ _

theorem owners_setPtr (l : List (Option IntrusivePtr)) (i : Nat) (p : Ptr) (o : Nat) :
    (owners (setPtr l i p) o : Int) = owners l o
      - (if ptrOf l i = some o then 1 else 0)
      + (if Store.live l i = true ∧ p = some o then 1 else 0) := by
  have h := Store.count_upd IntrusivePtr.ptr_ l i (fun h => { h with ptr_ := p }) o
  cases hs : Store.slot l i with
  | none =>
    rw [hs] at h
    simp only [owners, setPtr, h, ptrOf, Store.live, hs]
    simp
  | some a =>
    rw [hs] at h
    simp only [owners, setPtr, h, ptrOf, Store.live, hs]
    simp
    ring

theorem owners_kill (l : List (Option IntrusivePtr)) (i : Nat) (o : Nat) :
    (owners (Store.kill l i) o : Int) = owners l o
      - (if ptrOf l i = some o then 1 else 0) := by
  have h := Store.count_kill IntrusivePtr.ptr_ l i o
  cases hs : Store.slot l i with
  | none =>
    rw [hs] at h
    simp only [owners, h, ptrOf, hs]
    simp
  | some a =>
    rw [hs] at h
    simp only [owners, h, ptrOf, hs]

theorem owners_pos {l : List (Option IntrusivePtr)} {i o : Nat} (h : ptrOf l i = some o) :
    0 < owners l o := by
  unfold ptrOf at h
  cases hs : Store.slot l i with
  | none => simp [hs] at h
  | some a =>
    simp only [hs] at h
    exact Store.count_pos _ hs h

theorem live_of_ptrOf {l : List (Option IntrusivePtr)} {i o : Nat} (h : ptrOf l i = some o) :
    Store.live l i = true := by
  unfold ptrOf at h
  cases hs : Store.slot l i with
  | none => simp [hs] at h
  | some a => exact Store.live_of_slot hs

theorem owners_le_length (l : List (Option IntrusivePtr)) (o : Nat) : owners l o ≤ l.length :=
  Store.count_le_length _ _ _

theorem owners_two {l : List (Option IntrusivePtr)} {i j o : Nat} (hij : i ≠ j)
    (hi : ptrOf l i = some o) (hj : ptrOf l j = some o) : 2 ≤ owners l o := by
  have h1 := owners_kill l i o
  have h2 : ptrOf (Store.kill l i) j = some o := by
    have hji : ¬ j = i := fun e => hij e.symm
    simp [ptrOf_kill, hji, hj]
  have h3 := owners_pos h2
  simp only [hi, if_true] at h1
  omega

/-! ### The counter of an object -/

theorem RefCount_of_le {s : IState} {o : Nat} (h : s.objects.length ≤ o) :
    RefCounted.RefCount s o = 0 := by
  unfold RefCounted.RefCount; rw [List.getElem?_eq_none h]

theorem RefCount_updAt (s : IState) (f : SimpleCounter → SimpleCounter) (c o : Nat)
    (t : IState) (ht : t.objects = updAt s.objects c f) :
    RefCounted.RefCount t o =
      if o = c ∧ c < s.objects.length then (f { count_ := RefCounted.RefCount s c }).count_
      else RefCounted.RefCount s o := by
  unfold RefCounted.RefCount
  rw [ht, getElem?_updAt]
  by_cases ho : o = c
  · subst ho
    by_cases hl : o < s.objects.length
    · simp [hl, List.getElem?_eq_getElem hl, SimpleCounter.RefCount]
    · simp [hl, List.getElem?_eq_none (Nat.le_of_not_lt hl)]
  · simp [ho]

theorem RefCount_incRefIf (s : IState) (r : Ptr) (o : Nat) :
    RefCounted.RefCount (incRefIf s r) o =
      if r = some o ∧ o < s.objects.length then (RefCounted.RefCount s o + 1) % sizeMod
      else RefCounted.RefCount s o := by
  cases r with
  | none => simp [incRefIf]
  | some c =>
    simp only [incRefIf, Option.some.injEq]
    rw [RefCount_updAt s SimpleCounter.IncRef c o (RefCounted.IncRef s c) rfl]
    by_cases ho : o = c
    · subst ho; simp [SimpleCounter.IncRef]
    · have : ¬ c = o := fun e => ho e.symm
      simp [ho, this]

@[simp] theorem handles_incRefIf (s : IState) (r : Ptr) : (incRefIf s r).handles = s.handles := by
  cases r <;> rfl

@[simp] theorem destroyed_incRefIf (s : IState) (r : Ptr) :
    (incRefIf s r).destroyed = s.destroyed := by
  cases r <;> rfl

@[simp] theorem length_objects_incRefIf (s : IState) (r : Ptr) :
    (incRefIf s r).objects.length = s.objects.length := by
  cases r with
  | none => rfl
  | some c => simp [incRefIf, RefCounted.IncRef, length_updAt]

/-- What `DecRef` does, in one equation. -/
theorem DecRef_eq (s : IState) (c : Nat) :
    RefCounted.DecRef s c =
      { s with
        objects := if 0 < RefCounted.RefCount s c then updAt s.objects c SimpleCounter.DecRef
          else s.objects
        destroyed := s.destroyed ++
          (if c < s.objects.length ∧
              (if 0 < RefCounted.RefCount s c then
                (RefCounted.RefCount s c + sizeMod - 1) % sizeMod else 0) = 0
            then [c] else []) } := by
  unfold RefCounted.DecRef
  by_cases hl : c < s.objects.length
  · by_cases hp : 0 < RefCounted.RefCount s c
    · have e : RefCounted.RefCount
          { s with objects := updAt s.objects c SimpleCounter.DecRef } c =
          (RefCounted.RefCount s c + sizeMod - 1) % sizeMod := by
        rw [RefCount_updAt s SimpleCounter.DecRef c c _ rfl]
        simp [hl, SimpleCounter.DecRef]
      simp only [hl, hp, if_true, gt_iff_lt, e, true_and]
      split_ifs <;> simp [DefaultDelete.Destroy]
    · have h0 : RefCounted.RefCount s c = 0 := by omega
      simp [hl, hp, h0, DefaultDelete.Destroy]
  · have h0 : RefCounted.RefCount s c = 0 := RefCount_of_le (Nat.le_of_not_lt hl)
    simp [hl, h0]

@[simp] theorem handles_decRefIf (s : IState) (r : Ptr) : (decRefIf s r).handles = s.handles := by
  cases r with
  | none => rfl
  | some c => simp [decRefIf, DecRef_eq]

@[simp] theorem length_objects_decRefIf (s : IState) (r : Ptr) :
    (decRefIf s r).objects.length = s.objects.length := by
  cases r with
  | none => rfl
  | some c =>
    simp only [decRefIf, DecRef_eq]
    split_ifs <;> simp [length_updAt]

theorem RefCount_decRefIf (s : IState) (r : Ptr) (o : Nat) :
    RefCounted.RefCount (decRefIf s r) o =
      if r = some o ∧ 0 < RefCounted.RefCount s o then
        (RefCounted.RefCount s o + sizeMod - 1) % sizeMod
      else RefCounted.RefCount s o := by
  cases r with
  | none => simp [decRefIf]
  | some c =>
    simp only [decRefIf, Option.some.injEq]
    by_cases hp : 0 < RefCounted.RefCount s c
    · rw [RefCount_updAt s SimpleCounter.DecRef c o (RefCounted.DecRef s c)
        (by simp [DecRef_eq, hp])]
      have hl : c < s.objects.length := by
        by_contra hn
        rw [RefCount_of_le (Nat.le_of_not_lt hn)] at hp
        omega
      by_cases ho : o = c
      · subst ho; simp [hl, hp, SimpleCounter.DecRef]
      · have : ¬ c = o := fun e => ho e.symm
        simp [ho, this]
    · have e : (RefCounted.DecRef s c).objects = s.objects := by simp [DecRef_eq, hp]
      have e2 : RefCounted.RefCount (RefCounted.DecRef s c) o = RefCounted.RefCount s o := by
        unfold RefCounted.RefCount; rw [e]
      rw [e2]
      by_cases ho : c = o
      · subst ho; simp [hp]
      · simp [ho]

theorem destroyedCount_decRefIf (s : IState) (r : Ptr) (o : Nat) :
    destroyedCount (decRefIf s r) o =
      destroyedCount s o +
        if r = some o ∧ o < s.objects.length ∧
          (if 0 < RefCounted.RefCount s o then
            (RefCounted.RefCount s o + sizeMod - 1) % sizeMod else 0) = 0
        then 1 else 0 := by
  cases r with
  | none => simp [decRefIf]
  | some c =>
    simp only [decRefIf, DecRef_eq, destroyedCount, List.count_append, Option.some.injEq]
    by_cases ho : c = o
    · subst ho
      split_ifs <;> simp_all
    · have ho2 : ¬ o = c := fun e => ho e.symm
      simp only [ho, false_and, if_false, add_zero, add_right_eq_self]
      split_ifs <;> simp [ho2]

/-! ## The counting invariant of `IntrusivePtr` is kept by every call -/

theorem mod_succ {n : Nat} (h : n + 1 < sizeMod) : (n + 1) % sizeMod = n + 1 :=
  Nat.mod_eq_of_lt h

theorem mod_pred {n : Nat} (h0 : 0 < n) (h : n < sizeMod) :
    (n + sizeMod - 1) % sizeMod = n - 1 := by
  have e : n + sizeMod - 1 = (n - 1) + sizeMod := by omega
  rw [e, Nat.add_mod_right]
  exact Nat.mod_eq_of_lt (by omega)

theorem ObjInv.of_owner {s : IState} {o i : Nat} (h : ObjInv s o)
    (hp : ptrOf s.handles i = some o) :
    o < s.objects.length ∧ 1 ≤ RefCounted.RefCount s o ∧ destroyedCount s o = 0 := by
  have hpos := owners_pos hp
  have h1 : 1 ≤ RefCounted.RefCount s o := by rw [h.count_eq]; exact hpos
  have h2 : o < s.objects.length := by
    by_contra hn
    rw [RefCount_of_le (Nat.le_of_not_lt hn)] at h1
    omega
  refine ⟨h2, h1, ?_⟩
  rw [h.destroyed_eq, if_neg]
  intro hc; omega

theorem IInv_empty : IInv IState.empty := by
  intro o
  constructor <;> simp [IState.empty, RefCounted.RefCount, owners, Store.count, destroyedCount]

@[simp] theorem destroyedCount_incRefIf (s : IState) (r : Ptr) (o : Nat) :
    destroyedCount (incRefIf s r) o = destroyedCount s o := by
  simp [destroyedCount]

@[simp] theorem destroyedCount_push (s : IState) (h : IntrusivePtr) (o : Nat) :
    destroyedCount (s.push h) o = destroyedCount s o := rfl

@[simp] theorem destroyedCount_setPtr (s : IState) (i : Nat) (p : Ptr) (o : Nat) :
    destroyedCount (s.setPtr i p) o = destroyedCount s o := rfl

@[simp] theorem destroyedCount_endHandle (s : IState) (i : Nat) (o : Nat) :
    destroyedCount (s.endHandle i) o = destroyedCount s o := rfl

@[simp] theorem RefCount_push (s : IState) (h : IntrusivePtr) (o : Nat) :
    RefCounted.RefCount (s.push h) o = RefCounted.RefCount s o := rfl

@[simp] theorem RefCount_setPtr (s : IState) (i : Nat) (p : Ptr) (o : Nat) :
    RefCounted.RefCount (s.setPtr i p) o = RefCounted.RefCount s o := rfl

@[simp] theorem RefCount_endHandle (s : IState) (i : Nat) (o : Nat) :
    RefCounted.RefCount (s.endHandle i) o = RefCounted.RefCount s o := rfl

theorem IInv_ctorDefault (s : IState) (h : IInv s) : IInv (IntrusivePtr.ctorDefault s) := by
  intro o
  obtain ⟨h1, h2⟩ := h o
  have e := owners_append s.handles { ptr_ := none } o
  constructor
  · simp [IntrusivePtr.ctorDefault] at e ⊢
    omega
  · simpa [IntrusivePtr.ctorDefault] using h2

theorem IInv_ctorCopy (s : IState) (j : Nat) (h : IInv s)
    (hlen : (IntrusivePtr.ctorCopy s j).handles.length < sizeMod) :
    IInv (IntrusivePtr.ctorCopy s j) := by
  intro o
  obtain ⟨h1, h2⟩ := h o
  have hj := @ObjInv.of_owner s o j (h o)
  have hle := owners_le_length s.handles o
  have e := owners_append s.handles { ptr_ := ptrOf s.handles j } o
  unfold IntrusivePtr.ctorCopy at hlen ⊢
  split_ifs at hlen ⊢ with hl
  · simp only [handles_incRefIf, handles_push, List.length_append, List.length_singleton]
      at hlen
    by_cases hP : ptrOf s.handles j = some o
    · obtain ⟨hj1, hj2, hj3⟩ := hj hP
      have hb : RefCounted.RefCount s o + 1 < sizeMod := by omega
      constructor
      · simp [RefCount_incRefIf, ptrOf_handles_append, hP, hj1, mod_succ hb] at e ⊢
        omega
      · simp [RefCount_incRefIf, ptrOf_handles_append, hP, hj1, mod_succ hb, hj3]
    · constructor
      · simp [RefCount_incRefIf, ptrOf_handles_append, hP] at e ⊢
        omega
      · simpa [RefCount_incRefIf, ptrOf_handles_append, hP] using h2
  · exact ⟨h1, h2⟩

theorem alive_iff (s : IState) (o : Nat) :
    alive s o = true ↔ o < s.objects.length ∧ destroyedCount s o = 0 := by
  simp [alive]

theorem IInv_ctorPtr (s : IState) (p : Ptr) (h : IInv s)
    (hd : (IOp.fromRaw p).defined s = true)
    (hlen : (IntrusivePtr.ctorPtr s p).handles.length < sizeMod) :
    IInv (IntrusivePtr.ctorPtr s p) := by
  intro o
  obtain ⟨h1, h2⟩ := h o
  have hle := owners_le_length s.handles o
  have e := owners_append s.handles { ptr_ := p } o
  unfold IntrusivePtr.ctorPtr at hlen ⊢
  simp only [handles_incRefIf, handles_push, List.length_append, List.length_singleton] at hlen
  by_cases hP : p = some o
  · subst hP
    simp only [IOp.defined, alive_iff] at hd
    obtain ⟨hd1, hd2⟩ := hd
    have hb : RefCounted.RefCount s o + 1 < sizeMod := by omega
    constructor
    · simp [RefCount_incRefIf, ptrOf_handles_append, hd1, mod_succ hb] at e ⊢
      omega
    · simp [RefCount_incRefIf, ptrOf_handles_append, hd1, mod_succ hb, hd2]
  · constructor
    · simp [RefCount_incRefIf, ptrOf_handles_append, hP] at e ⊢
      omega
    · simpa [RefCount_incRefIf, ptrOf_handles_append, hP] using h2

theorem RefCount_ctor (s : IState) (o : Nat) :
    RefCounted.RefCount (RefCounted.ctor s) o = RefCounted.RefCount s o := by
  unfold RefCounted.RefCount RefCounted.ctor
  simp only [List.getElem?_append]
  by_cases h1 : o < s.objects.length
  · simp [h1]
  · have h4 : s.objects[o]? = none := List.getElem?_eq_none (by omega)
    by_cases h2 : o = s.objects.length
    · subst h2; simp [h4, SimpleCounter.RefCount]
    · obtain ⟨k, hk⟩ := Nat.exists_eq_succ_of_ne_zero (show o - s.objects.length ≠ 0 by omega)
      simp [h1, h4, hk]

theorem IInv_MakeIntrusive (s : IState) (h : IInv s)
    (hlen : (MakeIntrusive s).handles.length < sizeMod) : IInv (MakeIntrusive s) := by
  intro o
  obtain ⟨h1, h2⟩ := h o
  have hle := owners_le_length s.handles o
  have e := owners_append s.handles { ptr_ := some s.objects.length } o
  have hn : s.objects.length ≤ o → RefCounted.RefCount s o = 0 := fun hle => RefCount_of_le hle
  unfold MakeIntrusive IntrusivePtr.ctorPtr at hlen ⊢
  simp only [handles_incRefIf, handles_push, List.length_append, List.length_singleton,
    RefCounted.ctor] at hlen
  have hobj : (RefCounted.ctor s).objects.length = s.objects.length + 1 := by
    simp [RefCounted.ctor]
  have hh : (RefCounted.ctor s).handles = s.handles := rfl
  have hdd : ∀ x, destroyedCount (RefCounted.ctor s) x = destroyedCount s x := fun _ => rfl
  by_cases hP : o = s.objects.length
  · have h0 := hn (by omega)
    have hb : RefCounted.RefCount s o + 1 < sizeMod := by omega
    have hP2 : s.objects.length = o := hP.symm
    constructor
    · simp [RefCount_incRefIf, ptrOf_handles_append, hh, hobj, RefCount_ctor, hP2, mod_succ hb] at e ⊢
      omega
    · simp only [destroyedCount_incRefIf, destroyedCount_push, hdd, length_objects_incRefIf,
        objects_push, hobj, RefCount_incRefIf, RefCount_push, RefCount_ctor, handles_push, hh,
        ptrOf_handles_append, if_true, hP2, true_and, Nat.lt_succ_self, mod_succ hb]
      rw [h2]
      simp [← hP2]
  · have hP2 : ¬ s.objects.length = o := fun e => hP e.symm
    constructor
    · simp [RefCount_incRefIf, ptrOf_handles_append, hh, hobj, RefCount_ctor, hP2] at e ⊢
      omega
    · simp only [destroyedCount_incRefIf, destroyedCount_push, hdd, length_objects_incRefIf,
        objects_push, hobj, RefCount_incRefIf, RefCount_push, RefCount_ctor, handles_push, hh,
        ptrOf_handles_append, if_true, Option.some.injEq, hP2, false_and, if_false]
      rw [h2]
      by_cases hlt : o < s.objects.length
      · have : o < s.objects.length + 1 := by omega
        simp [hlt, this]
      · have h0 := hn (by omega)
        have : ¬ o < s.objects.length + 1 := by omega
        simp [hlt, this]

theorem IInv_ctorMove (s : IState) (j : Nat) (h : IInv s) :
    IInv (IntrusivePtr.ctorMove s j) := by
  intro o
  obtain ⟨h1, h2⟩ := h o
  have e := owners_append s.handles { ptr_ := ptrOf s.handles j } o
  have e2 := owners_setPtr (s.handles ++ [some { ptr_ := ptrOf s.handles j }]) j none o
  unfold IntrusivePtr.ctorMove
  split_ifs with hl
  · have hlt := Store.live_lt_length hl
    have hne : ¬ j = s.handles.length := by omega
    constructor
    · simp [ptrOf_handles_append, hne] at e e2 ⊢
      omega
    · simpa using h2
  · exact ⟨h1, h2⟩

/-- The state between the `DecRef` of a handle and the update of its `ptr_`: the
counter has lost the reference of the handle, and `Destroy` has run exactly when
the counter is `0`. -/
theorem ObjInv.decRef {s : IState} {o : Nat} (h : ObjInv s o) (i : Nat)
    (hlen : s.handles.length < sizeMod) :
    RefCounted.RefCount (decRefIf s (ptrOf s.handles i)) o
        + (if ptrOf s.handles i = some o then 1 else 0) = RefCounted.RefCount s o ∧
      destroyedCount (decRefIf s (ptrOf s.handles i)) o =
        if o < s.objects.length ∧ RefCounted.RefCount (decRefIf s (ptrOf s.handles i)) o = 0
        then 1 else 0 := by
  have hle := owners_le_length s.handles o
  have h1 := h.count_eq
  have h2 := h.destroyed_eq
  by_cases hP : ptrOf s.handles i = some o
  · obtain ⟨hj1, hj2, hj3⟩ := h.of_owner hP
    have hpos : 0 < RefCounted.RefCount s o := hj2
    have hlt : RefCounted.RefCount s o < sizeMod := by omega
    rw [RefCount_decRefIf, destroyedCount_decRefIf]
    simp only [hP, hpos, true_and, if_true, mod_pred hpos hlt, hj1, hj3, and_self]
    constructor
    · omega
    · simp
  · rw [RefCount_decRefIf, destroyedCount_decRefIf]
    simp only [hP, false_and, if_false, add_zero]
    exact ⟨trivial, h2⟩

theorem IInv_dtor (s : IState) (i : Nat) (h : IInv s) (hlen : s.handles.length < sizeMod) :
    IInv (IntrusivePtr.dtor s i) := by
  intro o
  obtain ⟨d1, d2⟩ := (h o).decRef i hlen
  have h1 := (h o).count_eq
  have e := owners_kill s.handles i o
  unfold IntrusivePtr.dtor
  split_ifs with hl
  · constructor
    · simp only [RefCount_endHandle, handles_endHandle, handles_decRefIf]
      split_ifs at d1 e <;> omega
    · simpa using d2
  · exact h o

theorem IInv_Reset (s : IState) (i : Nat) (h : IInv s) (hlen : s.handles.length < sizeMod) :
    IInv (IntrusivePtr.Reset s i) := by
  intro o
  obtain ⟨d1, d2⟩ := (h o).decRef i hlen
  have h1 := (h o).count_eq
  have e := owners_setPtr s.handles i none o
  unfold IntrusivePtr.Reset
  split_ifs with hl
  · constructor
    · simp only [RefCount_setPtr, handles_setPtr, handles_decRefIf]
      simp at e
      split_ifs at d1 e <;> omega
    · simpa using d2
  · exact h o

theorem IInv_Swap (s : IState) (i j : Nat) (h : IInv s) : IInv (IntrusivePtr.Swap s i j) := by
  intro o
  obtain ⟨h1, h2⟩ := h o
  have e := owners_setPtr s.handles i (ptrOf s.handles j) o
  have e2 := owners_setPtr (setPtr s.handles i (ptrOf s.handles j)) j (ptrOf s.handles i) o
  unfold IntrusivePtr.Swap
  split_ifs with hl
  · obtain ⟨hi, hj⟩ := hl
    constructor
    · simp only [RefCount_setPtr, handles_setPtr]
      simp only [ptrOf_handles_setPtr, live_handles_setPtr, hi, hj, true_and, and_true] at e e2
      by_cases hij : j = i
      · subst hij
        simp at e e2
        omega
      · simp only [hij, if_false] at e2
        split_ifs at e e2 <;> omega
    · simpa using h2
  · exact ⟨h1, h2⟩

theorem IInv_ResetPtr (s : IState) (i : Nat) (p : Ptr) (h : IInv s)
    (hd : (IOp.resetPtr i p).defined s = true) (hlen : s.handles.length < sizeMod) :
    IInv (IntrusivePtr.ResetPtr s i p) := by
  intro o
  obtain ⟨d1, d2⟩ := (h o).decRef i hlen
  have h1 := (h o).count_eq
  have hle := owners_le_length (setPtr s.handles i p) o
  rw [length_handles_setPtr] at hle
  have e := owners_setPtr s.handles i p o
  have hpos := @owners_pos s.handles i o
  unfold IntrusivePtr.ResetPtr
  split_ifs with hl
  · simp only [hl, true_and] at e
    by_cases hP : p = some o
    · subst hP
      simp only [IOp.defined, alive_iff, length_objects_decRefIf] at hd
      obtain ⟨hd1, hd2⟩ := hd
      have hnz : RefCounted.RefCount (decRefIf s (ptrOf s.handles i)) o ≠ 0 := by
        intro h0
        rw [d2] at hd2
        simp [hd1, h0] at hd2
      simp only [if_true] at e
      have hb : RefCounted.RefCount (decRefIf s (ptrOf s.handles i)) o + 1 < sizeMod := by
        split_ifs at d1 e
        · have := hpos (by assumption)
          omega
        · omega
      constructor
      · simp only [RefCount_incRefIf, RefCount_setPtr, handles_setPtr, handles_decRefIf,
          handles_incRefIf, ptrOf_handles_setPtr, hl, and_self, if_true, objects_setPtr,
          length_objects_decRefIf, true_and, hd1, mod_succ hb]
        split_ifs at d1 e
        · have := hpos (by assumption)
          omega
        · omega
      · simp only [RefCount_incRefIf, destroyedCount_incRefIf, destroyedCount_setPtr,
          RefCount_setPtr, handles_setPtr, handles_decRefIf, ptrOf_handles_setPtr, hl,
          and_self, if_true, objects_setPtr, length_objects_decRefIf, length_objects_incRefIf,
          true_and, hd1, mod_succ hb]
        rw [hd2]; simp
    · simp only [hP, if_false] at e
      constructor
      · simp only [RefCount_incRefIf, RefCount_setPtr, handles_setPtr, handles_decRefIf,
          handles_incRefIf, ptrOf_handles_setPtr, hl, and_self, if_true, hP, false_and, if_false]
        split_ifs at d1 e
        · have := hpos (by assumption)
          omega
        · omega
      · simp only [RefCount_incRefIf, destroyedCount_incRefIf, destroyedCount_setPtr,
          RefCount_setPtr, handles_setPtr, handles_decRefIf, ptrOf_handles_setPtr, hl,
          and_self, if_true, objects_setPtr, length_objects_decRefIf, length_objects_incRefIf,
          hP, false_and, if_false]
        exact d2
  · exact h o

theorem copyAssign_eq_ResetPtr (s : IState) (i j : Nat)
    (hl : Store.live s.handles i = true ∧ Store.live s.handles j = true)
    (hne : ptrOf s.handles i ≠ ptrOf s.handles j) :
    IntrusivePtr.copyAssign s i j = IntrusivePtr.ResetPtr s i (ptrOf s.handles j) := by
  unfold IntrusivePtr.copyAssign IntrusivePtr.ResetPtr
  simp only [hl, and_self, if_true, hne, if_false, handles_decRefIf]

theorem IInv_copyAssign (s : IState) (i j : Nat) (h : IInv s)
    (hlen : s.handles.length < sizeMod) : IInv (IntrusivePtr.copyAssign s i j) := by
  by_cases hl : Store.live s.handles i = true ∧ Store.live s.handles j = true
  · by_cases hne : ptrOf s.handles i = ptrOf s.handles j
    · unfold IntrusivePtr.copyAssign
      simp only [hl, and_self, if_true, hne]
      exact h
    · rw [copyAssign_eq_ResetPtr s i j hl hne]
      refine IInv_ResetPtr s i _ h ?_ hlen
      cases hj : ptrOf s.handles j with
      | none => rfl
      | some o =>
        obtain ⟨d1, d2⟩ := (h o).decRef i hlen
        obtain ⟨hj1, hj2, hj3⟩ := (h o).of_owner hj
        have hP : ¬ ptrOf s.handles i = some o := by rw [← hj]; exact hne
        simp only [hP, if_false, add_zero] at d1
        simp only [IOp.defined, alive_iff, length_objects_decRefIf]
        refine ⟨hj1, ?_⟩
        rw [d2, if_neg]
        intro hc
        omega
  · unfold IntrusivePtr.copyAssign
    simp only [hl, if_false]
    exact h

theorem IInv_moveAssign (s : IState) (i j : Nat) (h : IInv s)
    (hlen : s.handles.length < sizeMod) : IInv (IntrusivePtr.moveAssign s i j) := by
  intro o
  obtain ⟨d1, d2⟩ := (h o).decRef i hlen
  have h1 := (h o).count_eq
  have e := owners_setPtr s.handles i (ptrOf s.handles j) o
  have e2 := owners_setPtr (setPtr s.handles i (ptrOf s.handles j)) j none o
  unfold IntrusivePtr.moveAssign
  split_ifs with hl hne
  · exact h o
  · obtain ⟨hi, hj⟩ := hl
    have hij : ¬ j = i := by
      intro e0
      subst e0
      exact hne rfl
    constructor
    · simp only [RefCount_setPtr, handles_setPtr, handles_decRefIf]
      by_cases hP : ptrOf s.handles i = some o
      · have hQ : ¬ ptrOf s.handles j = some o := by
          intro hc; rw [hP, hc] at hne; exact hne rfl
        simp only [hP, if_true] at d1 ⊢
        simp [ptrOf_handles_setPtr, hij, hi, hj, live_handles_setPtr, hP, hQ] at e e2
        omega
      · simp only [hP, if_false] at d1
        by_cases hQ : ptrOf s.handles j = some o
        · simp [ptrOf_handles_setPtr, hij, hi, hj, live_handles_setPtr, hP, hQ] at e e2 ⊢
          omega
        · simp [ptrOf_handles_setPtr, hij, hi, hj, live_handles_setPtr, hP, hQ] at e e2
          omega
    · simpa using d2
  · exact h o

/-! ### Runs -/

theorem length_istep (s : IState) (op : IOp) :
    s.handles.length ≤ (istep s op).handles.length := by
  cases op <;>
    simp only [istep, MakeIntrusive, IntrusivePtr.ctorDefault, IntrusivePtr.ctorPtr,
      IntrusivePtr.ctorCopy, IntrusivePtr.ctorMove, IntrusivePtr.copyAssign,
      IntrusivePtr.moveAssign, IntrusivePtr.dtor, IntrusivePtr.Reset, IntrusivePtr.ResetPtr,
      IntrusivePtr.Swap] <;>
    (try split_ifs) <;>
    simp [length_handles_setPtr, Store.length_kill, RefCounted.ctor]

theorem length_irun (s : IState) (ops : List IOp) :
    s.handles.length ≤ (irun s ops).handles.length := by
  induction ops generalizing s with
  | nil => exact Nat.le_refl _
  | cons op ops ih => exact Nat.le_trans (length_istep s op) (ih (istep s op))

theorem IInv_step (s : IState) (op : IOp) (h : IInv s) (hd : op.defined s = true)
    (hlen : (istep s op).handles.length < sizeMod) : IInv (istep s op) := by
  have hl : s.handles.length < sizeMod := Nat.lt_of_le_of_lt (length_istep s op) hlen
  cases op with
  | makeIntrusive => exact IInv_MakeIntrusive s h hlen
  | default => exact IInv_ctorDefault s h
  | fromRaw p => exact IInv_ctorPtr s p h hd hlen
  | copy j => exact IInv_ctorCopy s j h hlen
  | move j => exact IInv_ctorMove s j h
  | copyAssign i j => exact IInv_copyAssign s i j h hl
  | moveAssign i j => exact IInv_moveAssign s i j h hl
  | dtor i => exact IInv_dtor s i h hl
  | reset i => exact IInv_Reset s i h hl
  | resetPtr i p => exact IInv_ResetPtr s i p h hd hl
  | swap i j => exact IInv_Swap s i j h

theorem IInv_run (s : IState) (ops : List IOp) (h : IInv s) (hd : runDefined s ops = true)
    (hlen : (irun s ops).handles.length < sizeMod) : IInv (irun s ops) := by
  induction ops generalizing s with
  | nil => exact h
  | cons op ops ih =>
    simp only [runDefined, Bool.and_eq_true] at hd
    have hl : (istep s op).handles.length < sizeMod :=
      Nat.lt_of_le_of_lt (length_irun (istep s op) ops) hlen
    exact ih (istep s op) (IInv_step s op h hd.1 hl) hd.2 hlen

theorem irun_append (s : IState) (a b : List IOp) : irun s (a ++ b) = irun (irun s a) b := by
  simp [irun, List.foldl_append]

theorem runDefined_append (s : IState) (a b : List IOp) :
    runDefined s (a ++ b) = (runDefined s a && runDefined (irun s a) b) := by
  induction a generalizing s with
  | nil => simp [runDefined, irun]
  | cons op a ih => simp [runDefined, irun, ih, Bool.and_assoc]

theorem ptrOf_setPtr_other (l : List (Option IntrusivePtr)) (i j : Nat) :
    ptrOf (setPtr l i (ptrOf l j)) j = ptrOf l j := by
  rw [ptrOf_handles_setPtr]
  split_ifs with hc
  · rfl
  · rfl

/-- One call takes at most one owner away from an object. -/
theorem owners_istep (s : IState) (op : IOp) (o : Nat) :
    owners s.handles o ≤ owners (istep s op).handles o + 1 := by
  cases op with
  | makeIntrusive =>
    have e := owners_append s.handles { ptr_ := some s.objects.length } o
    simp [istep, MakeIntrusive, IntrusivePtr.ctorPtr, RefCounted.ctor] at e ⊢
    split_ifs at e <;> omega
  | default =>
    have e := owners_append s.handles { ptr_ := none } o
    simp [istep, IntrusivePtr.ctorDefault] at e ⊢
    omega
  | fromRaw p =>
    have e := owners_append s.handles { ptr_ := p } o
    simp [istep, IntrusivePtr.ctorPtr] at e ⊢
    split_ifs at e <;> omega
  | copy j =>
    have e := owners_append s.handles { ptr_ := ptrOf s.handles j } o
    simp only [istep, IntrusivePtr.ctorCopy]
    split_ifs
    · simp at e ⊢
      split_ifs at e <;> omega
    · omega
  | move j =>
    have e := owners_append s.handles { ptr_ := ptrOf s.handles j } o
    have e2 := owners_setPtr (s.handles ++ [some { ptr_ := ptrOf s.handles j }]) j none o
    simp only [istep, IntrusivePtr.ctorMove]
    split_ifs with hl
    · have hlt := Store.live_lt_length hl
      have hne : ¬ j = s.handles.length := by omega
      simp [ptrOf_handles_append, hne] at e e2 ⊢
      omega
    · omega
  | copyAssign i j =>
    have e := owners_setPtr s.handles i (ptrOf s.handles j) o
    simp only [istep, IntrusivePtr.copyAssign]
    split_ifs
    · omega
    · simp only [handles_incRefIf, handles_setPtr, handles_decRefIf]
      split_ifs at e <;> omega
    · omega
  | moveAssign i j =>
    have e := owners_setPtr s.handles i (ptrOf s.handles j) o
    have e2 := owners_setPtr (setPtr s.handles i (ptrOf s.handles j)) j none o
    rw [ptrOf_setPtr_other] at e2
    simp only [istep, IntrusivePtr.moveAssign]
    split_ifs with hl
    · omega
    · simp only [handles_setPtr, handles_decRefIf]
      generalize owners (setPtr (setPtr s.handles i (ptrOf s.handles j)) j none) o = A at e2 ⊢
      generalize owners (setPtr s.handles i (ptrOf s.handles j)) o = B at e e2
      by_cases hP : ptrOf s.handles i = some o <;> by_cases hQ : ptrOf s.handles j = some o <;>
        simp [hP, hQ, hl.1, hl.2, live_handles_setPtr] at e e2 <;> omega
    · omega
  | dtor i =>
    have e := owners_kill s.handles i o
    simp only [istep, IntrusivePtr.dtor]
    split_ifs
    · simp only [handles_endHandle, handles_decRefIf]
      split_ifs at e <;> omega
    · omega
  | reset i =>
    have e := owners_setPtr s.handles i none o
    simp only [istep, IntrusivePtr.Reset]
    split_ifs
    · simp only [handles_setPtr, handles_decRefIf]
      simp only [and_false, if_false, reduceCtorEq] at e
      split_ifs at e <;> omega
    · omega
  | resetPtr i p =>
    have e := owners_setPtr s.handles i p o
    simp only [istep, IntrusivePtr.ResetPtr]
    split_ifs
    · simp only [handles_incRefIf, handles_setPtr, handles_decRefIf]
      split_ifs at e <;> omega
    · omega
  | swap i j =>
    have e := owners_setPtr s.handles i (ptrOf s.handles j) o
    have e2 := owners_setPtr (setPtr s.handles i (ptrOf s.handles j)) j (ptrOf s.handles i) o
    rw [ptrOf_setPtr_other] at e2
    simp only [istep, IntrusivePtr.Swap]
    split_ifs with hl
    · simp only [handles_setPtr]
      generalize owners (setPtr (setPtr s.handles i (ptrOf s.handles j)) j
        (ptrOf s.handles i)) o = A at e2 ⊢
      generalize owners (setPtr s.handles i (ptrOf s.handles j)) o = B at e e2
      by_cases hP : ptrOf s.handles i = some o <;> by_cases hQ : ptrOf s.handles j = some o <;>
        simp [hP, hQ, hl.1, hl.2, live_handles_setPtr] at e e2 <;> omega
    · omega

theorem length_objects_istep (s : IState) (op : IOp) :
    s.objects.length ≤ (istep s op).objects.length := by
  cases op <;>
    simp only [istep, MakeIntrusive, IntrusivePtr.ctorDefault, IntrusivePtr.ctorPtr,
      IntrusivePtr.ctorCopy, IntrusivePtr.ctorMove, IntrusivePtr.copyAssign,
      IntrusivePtr.moveAssign, IntrusivePtr.dtor, IntrusivePtr.Reset, IntrusivePtr.ResetPtr,
      IntrusivePtr.Swap] <;>
    (try split_ifs) <;>
    simp [RefCounted.ctor]

/-- The `Destroy` calls of one call are those of at most one `DecRef`, through
the pointer of a handle. -/
theorem destroyed_istep (s : IState) (op : IOp) :
    ∃ r : Ptr, (r = none ∨ ∃ i, r = ptrOf s.handles i) ∧
      (istep s op).destroyed = (decRefIf s r).destroyed := by
  cases op with
  | makeIntrusive =>
    exact ⟨none, Or.inl rfl, by simp [istep, MakeIntrusive, IntrusivePtr.ctorPtr, decRefIf,
      RefCounted.ctor]⟩
  | default => exact ⟨none, Or.inl rfl, rfl⟩
  | fromRaw p => exact ⟨none, Or.inl rfl, by simp [istep, IntrusivePtr.ctorPtr, decRefIf]⟩
  | copy j =>
    refine ⟨none, Or.inl rfl, ?_⟩
    simp only [istep, IntrusivePtr.ctorCopy]
    split_ifs <;> simp [decRefIf]
  | move j =>
    refine ⟨none, Or.inl rfl, ?_⟩
    simp only [istep, IntrusivePtr.ctorMove]
    split_ifs <;> simp [decRefIf]
  | copyAssign i j =>
    simp only [istep, IntrusivePtr.copyAssign]
    split_ifs
    · exact ⟨none, Or.inl rfl, rfl⟩
    · exact ⟨ptrOf s.handles i, Or.inr ⟨i, rfl⟩, by simp⟩
    · exact ⟨none, Or.inl rfl, rfl⟩
  | moveAssign i j =>
    simp only [istep, IntrusivePtr.moveAssign]
    split_ifs
    · exact ⟨none, Or.inl rfl, rfl⟩
    · exact ⟨ptrOf s.handles i, Or.inr ⟨i, rfl⟩, by simp⟩
    · exact ⟨none, Or.inl rfl, rfl⟩
  | dtor i =>
    simp only [istep, IntrusivePtr.dtor]
    split_ifs
    · exact ⟨ptrOf s.handles i, Or.inr ⟨i, rfl⟩, by simp⟩
    · exact ⟨none, Or.inl rfl, rfl⟩
  | reset i =>
    simp only [istep, IntrusivePtr.Reset]
    split_ifs
    · exact ⟨ptrOf s.handles i, Or.inr ⟨i, rfl⟩, by simp⟩
    · exact ⟨none, Or.inl rfl, rfl⟩
  | resetPtr i p =>
    simp only [istep, IntrusivePtr.ResetPtr]
    split_ifs
    · exact ⟨ptrOf s.handles i, Or.inr ⟨i, rfl⟩, by simp⟩
    · exact ⟨none, Or.inl rfl, rfl⟩
  | swap i j =>
    refine ⟨none, Or.inl rfl, ?_⟩
    simp only [istep, IntrusivePtr.Swap]
    split_ifs <;> simp [decRefIf]

/-- Between two states that satisfy the counting invariant, `Destroy` runs on an
object exactly in the call that takes its counter from `1` to `0`. -/
theorem destroyed_step (s : IState) (op : IOp) (o : Nat) (h : IInv s)
    (h2 : IInv (istep s op)) :
    destroyedCount (istep s op) o = destroyedCount s o +
      if RefCounted.RefCount s o = 1 ∧ RefCounted.RefCount (istep s op) o = 0 then 1 else 0 := by
  have a := h o
  have b := h2 o
  have hm := owners_istep s op o
  have hl := length_objects_istep s op
  have hn : s.objects.length ≤ o → RefCounted.RefCount s o = 0 := fun hle => RefCount_of_le hle
  have a1 := a.count_eq
  have b1 := b.count_eq
  have a2 := a.destroyed_eq
  have b2 := b.destroyed_eq
  obtain ⟨r, hr, hd⟩ := destroyed_istep s op
  have hdc : destroyedCount (istep s op) o = destroyedCount (decRefIf s r) o := by
    unfold destroyedCount; rw [hd]
  have hmono : destroyedCount s o ≤ destroyedCount (istep s op) o := by
    rw [hdc, destroyedCount_decRefIf]; omega
  have hnew : s.objects.length ≤ o → destroyedCount (istep s op) o = destroyedCount s o := by
    intro hle
    rw [hdc, destroyedCount_decRefIf]
    have : ¬ o < s.objects.length := by omega
    simp [this]
  by_cases ho : o < s.objects.length
  · have ho2 : o < (istep s op).objects.length := by omega
    simp only [ho, ho2, true_and] at a2 b2
    rw [a2, b2]
    rw [a2, b2] at hmono
    split_ifs at hmono ⊢ <;> omega
  · have h0 := hn (by omega)
    have hnew2 := hnew (by omega)
    simp only [ho, false_and, if_false] at a2
    rw [hnew2, a2, h0]
    simp

theorem one_lt_sizeMod : 1 < sizeMod := by
  unfold sizeMod; norm_num

theorem MakeIntrusive_new (s : IState) :
    IntrusivePtr.Get (MakeIntrusive s) s.handles.length = some s.objects.length ∧
      RefCounted.RefCount (MakeIntrusive s) s.objects.length =
        (RefCounted.RefCount s s.objects.length + 1) % sizeMod := by
  have hh : (RefCounted.ctor s).handles = s.handles := rfl
  have hobj : (RefCounted.ctor s).objects.length = s.objects.length + 1 := by
    simp [RefCounted.ctor]
  constructor
  · simp [IntrusivePtr.Get, MakeIntrusive, IntrusivePtr.ctorPtr, hh, ptrOf_handles_append]
  · simp [MakeIntrusive, IntrusivePtr.ctorPtr, hh, ptrOf_handles_append, RefCount_incRefIf, hobj,
      RefCount_ctor]

/-- Claim C17.  In every run of `MakeIntrusive`, construction from a raw pointer,
copies, moves, assignments, `Reset`, `Swap` and destructions of `IntrusivePtr`
handles that starts with no object, passes raw pointers to existing objects only
and leaves fewer than `2^64` handle objects: `UseCount()` of a non-empty handle
is `RefCount()` of its object, which is the number of live handles pointing to
the object and at least `1`, and the object has not been destroyed; the handle
returned by `MakeIntrusive` has `UseCount() = 1`; `Destroy` has run on a created
object once if no live handle points to it and never otherwise; and a call runs
`Destroy` on an object exactly when it takes the counter of the object from `1`
to `0`. -/
theorem C17_IntrusivePtr_counts_live_handles (ops : List IOp) (op : IOp)
    (hd : runDefined IState.empty (ops ++ [op]) = true)
    (hlen : (irun IState.empty (ops ++ [op])).handles.length < sizeMod) :
    (∀ i o, IntrusivePtr.Get (irun IState.empty ops) i = some o →
      IntrusivePtr.UseCount (irun IState.empty ops) i
          = RefCounted.RefCount (irun IState.empty ops) o ∧
        RefCounted.RefCount (irun IState.empty ops) o = ownerCount (irun IState.empty ops) o ∧
        1 ≤ ownerCount (irun IState.empty ops) o ∧
        destroyedCount (irun IState.empty ops) o = 0) ∧
    (IntrusivePtr.Get (MakeIntrusive (irun IState.empty ops))
          (irun IState.empty ops).handles.length = some (irun IState.empty ops).objects.length ∧
      IntrusivePtr.UseCount (MakeIntrusive (irun IState.empty ops))
          (irun IState.empty ops).handles.length = 1) ∧
    (∀ o, o < (irun IState.empty ops).objects.length →
      destroyedCount (irun IState.empty ops) o =
        if ownerCount (irun IState.empty ops) o = 0 then 1 else 0) ∧
    (∀ o, destroyedCount (istep (irun IState.empty ops) op) o =
      destroyedCount (irun IState.empty ops) o +
        if RefCounted.RefCount (irun IState.empty ops) o = 1 ∧
          RefCounted.RefCount (istep (irun IState.empty ops) op) o = 0 then 1 else 0) := by
  rw [runDefined_append, Bool.and_eq_true] at hd
  rw [irun_append] at hlen
  have hlen1 : (istep (irun IState.empty ops) op).handles.length < sizeMod := hlen
  have hlen0 : (irun IState.empty ops).handles.length < sizeMod :=
    Nat.lt_of_le_of_lt (length_istep _ op) hlen1
  have hI : IInv (irun IState.empty ops) := IInv_run _ ops IInv_empty hd.1 hlen0
  have hd2 : op.defined (irun IState.empty ops) = true := by
    have := hd.2
    simp only [runDefined, irun, List.foldl, Bool.and_true] at this
    exact this
  have hI2 : IInv (istep (irun IState.empty ops) op) := IInv_step _ op hI hd2 hlen1
  refine ⟨?_, ?_, ?_, ?_⟩
  · intro i o hg
    obtain ⟨k1, k2, k3⟩ := (hI o).of_owner hg
    have hc := (hI o).count_eq
    refine ⟨?_, hc, ?_, k3⟩
    · unfold IntrusivePtr.UseCount
      unfold IntrusivePtr.Get at hg
      rw [hg]
    · unfold ownerCount; omega
  · obtain ⟨m1, m2⟩ := MakeIntrusive_new (irun IState.empty ops)
    refine ⟨m1, ?_⟩
    unfold IntrusivePtr.UseCount
    unfold IntrusivePtr.Get at m1
    rw [m1]
    simp only [m2, RefCount_of_le (Nat.le_refl _)]
    exact Nat.mod_eq_of_lt one_lt_sizeMod
  · intro o ho
    rw [(hI o).destroyed_eq, (hI o).count_eq]
    simp [ho, ownerCount]
  · intro o
    exact destroyed_step _ op o hI hI2

/-- Claim C17, witness: two handles on one object, the first destroyed, and the
call that destroys the second. -/
theorem C17_witness :
    IntrusivePtr.UseCount (irun IState.empty [IOp.makeIntrusive, IOp.copy 0, IOp.dtor 0]) 1
        = RefCounted.RefCount (irun IState.empty [IOp.makeIntrusive, IOp.copy 0, IOp.dtor 0]) 0 ∧
      ownerCount (irun IState.empty [IOp.makeIntrusive, IOp.copy 0, IOp.dtor 0]) 0 = 1 ∧
      destroyedCount (irun IState.empty [IOp.makeIntrusive, IOp.copy 0, IOp.dtor 0]) 0 = 0 ∧
      destroyedCount (irun IState.empty [IOp.makeIntrusive, IOp.copy 0, IOp.dtor 0, IOp.dtor 1]) 0
        = 1 :=
  have h := C17_IntrusivePtr_counts_live_handles
    [IOp.makeIntrusive, IOp.copy 0, IOp.dtor 0] (IOp.dtor 1) (by decide) (by decide)
  ⟨(h.1 1 0 (by decide)).1, by decide, (h.1 1 0 (by decide)).2.2.2, by decide⟩

end Intrusive

namespace Unique

/-! ## `UniquePtr`: reads after writes, counting -/

@[simp] theorem handles_push_unique (s : UState) (h : UniquePtr) :
    (s.push h).handles = s.handles ++ [some h] := rfl
@[simp] theorem calls_push (s : UState) (h : UniquePtr) : (s.push h).calls = s.calls := rfl
@[simp] theorem adopted_push (s : UState) (h : UniquePtr) : (s.push h).adopted = s.adopted := rfl
@[simp] theorem handedOut_push (s : UState) (h : UniquePtr) :
    (s.push h).handedOut = s.handedOut := rfl
@[simp] theorem handles_setFirst (s : UState) (i : Nat) (p : Ptr) :
    (s.setFirst i p).handles = setFirst s.handles i p := rfl
@[simp] theorem calls_setFirst (s : UState) (i : Nat) (p : Ptr) :
    (s.setFirst i p).calls = s.calls := rfl
@[simp] theorem adopted_setFirst (s : UState) (i : Nat) (p : Ptr) :
    (s.setFirst i p).adopted = s.adopted := rfl
@[simp] theorem handedOut_setFirst (s : UState) (i : Nat) (p : Ptr) :
    (s.setFirst i p).handedOut = s.handedOut := rfl
@[simp] theorem handles_setSecond (s : UState) (i : Nat) (d : Nat) :
    (s.setSecond i d).handles = setSecond s.handles i d := rfl
@[simp] theorem calls_setSecond (s : UState) (i : Nat) (d : Nat) :
    (s.setSecond i d).calls = s.calls := rfl
@[simp] theorem adopted_setSecond (s : UState) (i : Nat) (d : Nat) :
    (s.setSecond i d).adopted = s.adopted := rfl
@[simp] theorem handedOut_setSecond (s : UState) (i : Nat) (d : Nat) :
    (s.setSecond i d).handedOut = s.handedOut := rfl
@[simp] theorem handles_endHandle_unique (s : UState) (i : Nat) :
    (s.endHandle i).handles = Store.kill s.handles i := rfl
@[simp] theorem calls_endHandle (s : UState) (i : Nat) : (s.endHandle i).calls = s.calls := rfl
@[simp] theorem adopted_endHandle (s : UState) (i : Nat) :
    (s.endHandle i).adopted = s.adopted := rfl
@[simp] theorem handedOut_endHandle (s : UState) (i : Nat) :
    (s.endHandle i).handedOut = s.handedOut := rfl
@[simp] theorem handles_call (s : UState) (d o : Nat) : (s.call d o).handles = s.handles := rfl
@[simp] theorem calls_call (s : UState) (d o : Nat) :
    (s.call d o).calls = s.calls ++ [(d, o)] := rfl
@[simp] theorem adopted_call (s : UState) (d o : Nat) : (s.call d o).adopted = s.adopted := rfl
@[simp] theorem handedOut_call (s : UState) (d o : Nat) :
    (s.call d o).handedOut = s.handedOut := rfl

theorem firstOf_append (l : List (Option UniquePtr)) (h : UniquePtr) (j : Nat) :
    firstOf (l ++ [some h]) j = if j = l.length then h.first else firstOf l j := by
  simp only [firstOf, Store.slot_snoc]
  by_cases hj : j = l.length <;> simp [hj]

theorem firstOf_setFirst (l : List (Option UniquePtr)) (i : Nat) (p : Ptr) (j : Nat) :
    firstOf (setFirst l i p) j = if j = i ∧ Store.live l i = true then p else firstOf l j := by
  simp only [setFirst, firstOf, Store.slot_upd, Store.live]
  by_cases hj : j = i
  · subst hj; cases Store.slot l j <;> simp
  · simp [hj]

theorem firstOf_setSecond (l : List (Option UniquePtr)) (i : Nat) (d : Nat) (j : Nat) :
    firstOf (setSecond l i d) j = firstOf l j := by
  simp only [setSecond, firstOf, Store.slot_upd]
  by_cases hj : j = i
  · subst hj; cases Store.slot l j <;> simp
  · simp [hj]

theorem firstOf_kill (l : List (Option UniquePtr)) (i j : Nat) :
    firstOf (Store.kill l i) j = if j = i then none else firstOf l j := by
  simp only [firstOf, Store.slot_kill]
  by_cases hj : j = i <;> simp [hj]

theorem live_setFirst (l : List (Option UniquePtr)) (i : Nat) (p : Ptr) (j : Nat) :
    Store.live (setFirst l i p) j = Store.live l j :=
  Store.live_upd _ _ _ _

theorem live_setSecond (l : List (Option UniquePtr)) (i : Nat) (d : Nat) (j : Nat) :
    Store.live (setSecond l i d) j = Store.live l j :=
  Store.live_upd _ _ _ _

theorem firstOf_of_not_live {l : List (Option UniquePtr)} {i : Nat}
    (h : ¬ Store.live l i = true) : firstOf l i = none := by
  unfold Store.live at h
  unfold firstOf
  cases hs : Store.slot l i with
  | none => rfl
  | some a => simp [hs] at h

theorem owners_append_unique (l : List (Option UniquePtr)) (h : UniquePtr) (o : Nat) :
    (owners (l ++ [some h]) o : Int) = owners l o + if h.first = some o then 1 else 0 :=
  Store.count_append _ _ _ _

theorem owners_setFirst (l : List (Option UniquePtr)) (i : Nat) (p : Ptr) (o : Nat) :
    (owners (setFirst l i p) o : Int) = owners l o
      - (if firstOf l i = some o then 1 else 0)
      + (if Store.live l i = true ∧ p = some o then 1 else 0) := by
  have h := Store.count_upd UniquePtr.first l i (fun h => { h with first := p }) o
  cases hs : Store.slot l i with
  | none =>
    rw [hs] at h
    simp only [owners, setFirst, h, firstOf, Store.live, hs]
    simp
  | some a =>
    rw [hs] at h
    simp only [owners, setFirst, h, firstOf, Store.live, hs]
    simp
    ring

theorem owners_setSecond (l : List (Option UniquePtr)) (i : Nat) (d : Nat) (o : Nat) :
    owners (setSecond l i d) o = owners l o := by
  have h := Store.count_upd UniquePtr.first l i (fun h => { h with second := d }) o
  cases hs : Store.slot l i with
  | none =>
    rw [hs] at h
    simp only [owners, setSecond] at h ⊢
    omega
  | some a =>
    rw [hs] at h
    simp only [owners, setSecond] at h ⊢
    simp at h
    omega

theorem owners_kill_unique (l : List (Option UniquePtr)) (i : Nat) (o : Nat) :
    (owners (Store.kill l i) o : Int) = owners l o
      - (if firstOf l i = some o then 1 else 0) := by
  have h := Store.count_kill UniquePtr.first l i o
  cases hs : Store.slot l i with
  | none =>
    rw [hs] at h
    simp only [owners, h, firstOf, hs]
    simp
  | some a =>
    rw [hs] at h
    simp only [owners, h, firstOf, hs]

theorem callCount_call (s : UState) (d c o : Nat) :
    callCount (s.call d c) o = callCount s o + if c = o then 1 else 0 := by
  simp [callCount, UState.call, List.count_append, List.count_singleton]

@[simp] theorem callCount_push (s : UState) (h : UniquePtr) (o : Nat) :
    callCount (s.push h) o = callCount s o := rfl
@[simp] theorem callCount_setFirst (s : UState) (i : Nat) (p : Ptr) (o : Nat) :
    callCount (s.setFirst i p) o = callCount s o := rfl
@[simp] theorem callCount_setSecond (s : UState) (i : Nat) (d : Nat) (o : Nat) :
    callCount (s.setSecond i d) o = callCount s o := rfl
@[simp] theorem callCount_endHandle (s : UState) (i : Nat) (o : Nat) :
    callCount (s.endHandle i) o = callCount s o := rfl

/-! ### `Release` and `Reset` -/

theorem Release_snd (s : UState) (i : Nat) : (UniquePtr.Release s i).2 = firstOf s.handles i := by
  unfold UniquePtr.Release
  split_ifs with hl
  · rfl
  · exact (firstOf_of_not_live hl).symm

theorem setFirst_of_not_live {l : List (Option UniquePtr)} {i : Nat}
    (hl : ¬ Store.live l i = true) (p : Ptr) : setFirst l i p = l := by
  simp only [setFirst, Store.upd]
  unfold Store.live Store.slot at hl
  unfold updAt
  rcases hx : l[i]? with _ | _ | a
  · simp
  · simp only [Option.map_none]
    apply List.ext_getElem?
    intro n
    by_cases hn : i = n
    · subst hn
      have hi : i < l.length := (List.getElem?_eq_some.1 hx).1
      simp [List.getElem?_set, hi, hx]
    · simp [List.getElem?_set, hn]
  · simp [hx] at hl

theorem Release_handles (s : UState) (i : Nat) :
    (UniquePtr.Release s i).1.handles = setFirst s.handles i none := by
  unfold UniquePtr.Release
  split_ifs with hl
  · rfl
  · exact (setFirst_of_not_live hl none).symm

@[simp] theorem Release_calls (s : UState) (i : Nat) :
    (UniquePtr.Release s i).1.calls = s.calls := by
  unfold UniquePtr.Release; split_ifs <;> rfl

@[simp] theorem Release_adopted (s : UState) (i : Nat) :
    (UniquePtr.Release s i).1.adopted = s.adopted := by
  unfold UniquePtr.Release; split_ifs <;> rfl

@[simp] theorem Release_handedOut (s : UState) (i : Nat) :
    (UniquePtr.Release s i).1.handedOut = s.handedOut := by
  unfold UniquePtr.Release; split_ifs <;> rfl

@[simp] theorem Reset_adopted (s : UState) (i : Nat) (q : Ptr) :
    (UniquePtr.Reset s i q).adopted = s.adopted := by
  unfold UniquePtr.Reset
  split_ifs
  · cases firstOf s.handles i <;> rfl
  · rfl

@[simp] theorem Reset_handedOut (s : UState) (i : Nat) (q : Ptr) :
    (UniquePtr.Reset s i q).handedOut = s.handedOut := by
  unfold UniquePtr.Reset
  split_ifs
  · cases firstOf s.handles i <;> rfl
  · rfl

theorem Reset_handles (s : UState) (i : Nat) (q : Ptr) :
    (UniquePtr.Reset s i q).handles = setFirst s.handles i q := by
  unfold UniquePtr.Reset
  split_ifs with hl
  · cases firstOf s.handles i <;> rfl
  · exact (setFirst_of_not_live hl q).symm

theorem Reset_callCount (s : UState) (i : Nat) (q : Ptr) (o : Nat) :
    callCount (UniquePtr.Reset s i q) o =
      callCount s o + if firstOf s.handles i = some o then 1 else 0 := by
  unfold UniquePtr.Reset
  split_ifs with hl hf hf
  · rw [hf]; simp [callCount_call]
  · cases hx : firstOf s.handles i with
    | none => rfl
    | some c =>
      have : ¬ c = o := by intro e; rw [hx, e] at hf; exact hf rfl
      simp [callCount_call, this]
  · rw [firstOf_of_not_live hl] at hf; cases hf
  · rfl

/-! ### The ownership invariant is kept by every call -/

theorem UInv_empty : UInv UState.empty := by
  intro o
  simp [UState.empty, owners, Store.count, callCount, handedOutCount, adoptedCount]

theorem adoptedCount_adopt (s : UState) (p : Ptr) (o : Nat) :
    adoptedCount (adopt s p) o = adoptedCount s o + if p = some o then 1 else 0 := by
  cases p with
  | none => simp [adopt]
  | some c => simp [adopt, adoptedCount, List.count_append, List.count_singleton]

@[simp] theorem handles_adopt (s : UState) (p : Ptr) : (adopt s p).handles = s.handles := by
  cases p <;> rfl
@[simp] theorem callCount_adopt (s : UState) (p : Ptr) (o : Nat) :
    callCount (adopt s p) o = callCount s o := by
  cases p <;> rfl
@[simp] theorem handedOutCount_adopt (s : UState) (p : Ptr) (o : Nat) :
    handedOutCount (adopt s p) o = handedOutCount s o := by
  cases p <;> rfl

theorem handedOutCount_handOut (s : UState) (p : Ptr) (o : Nat) :
    handedOutCount (handOut s p) o = handedOutCount s o + if p = some o then 1 else 0 := by
  cases p with
  | none => simp [handOut]
  | some c => simp [handOut, handedOutCount, List.count_append, List.count_singleton]

@[simp] theorem handles_handOut (s : UState) (p : Ptr) : (handOut s p).handles = s.handles := by
  cases p <;> rfl
@[simp] theorem callCount_handOut (s : UState) (p : Ptr) (o : Nat) :
    callCount (handOut s p) o = callCount s o := by
  cases p <;> rfl
@[simp] theorem adoptedCount_handOut (s : UState) (p : Ptr) (o : Nat) :
    adoptedCount (handOut s p) o = adoptedCount s o := by
  cases p <;> rfl

theorem UInv_ctor (s : UState) (p : Ptr) (d : Nat) (h : UInv s) :
    UInv (adopt (UniquePtr.ctorPtrDeleter s p d) p) := by
  intro o
  have h0 := h o
  have e1 := owners_append_unique s.handles { first := none, second := 0 } o
  have e2 := owners_setFirst (s.handles ++ [some { first := none, second := 0 }])
    s.handles.length p o
  simp only [firstOf_append, if_true, Store.live_snoc, decide_True, Bool.true_or,
    true_and, reduceCtorEq, if_false] at e1 e2
  simp only [UniquePtr.ctorPtrDeleter, handles_adopt, handles_setSecond, handles_setFirst,
    handles_push_unique, owners_setSecond, callCount_adopt, callCount_setSecond, callCount_setFirst,
    callCount_push, handedOutCount_adopt, adoptedCount_adopt]
  simp only [handedOutCount, adoptedCount] at h0 ⊢
  simp only [handedOut_setSecond, handedOut_setFirst, handedOut_push, adopted_setSecond,
    adopted_setFirst, adopted_push]
  split_ifs at e2 ⊢ <;> omega

theorem Reset_total (s : UState) (i : Nat) (q : Ptr) (o : Nat) :
    (owners (UniquePtr.Reset s i q).handles o : Int) + callCount (UniquePtr.Reset s i q) o =
      owners s.handles o + callCount s o +
        if Store.live s.handles i = true ∧ q = some o then 1 else 0 := by
  have e := owners_setFirst s.handles i q o
  rw [Reset_handles, Reset_callCount, e]
  push_cast
  split_ifs <;> ring

theorem Release_total (s : UState) (i : Nat) (o : Nat) :
    (owners (UniquePtr.Release s i).1.handles o : Int) +
      (if firstOf s.handles i = some o then 1 else 0) = owners s.handles o := by
  have e := owners_setFirst s.handles i none o
  rw [Release_handles, e]
  simp

theorem UInv_release (s : UState) (i : Nat) (h : UInv s) :
    UInv (handOut (UniquePtr.Release s i).1 (UniquePtr.Release s i).2) := by
  intro o
  have h0 := h o
  have e := Release_total s i o
  rw [handles_handOut, callCount_handOut, handedOutCount_handOut, adoptedCount_handOut,
    Release_snd]
  simp only [callCount, handedOutCount, adoptedCount, Release_calls, Release_adopted,
    Release_handedOut] at h0 ⊢
  split_ifs at e ⊢ <;> omega

theorem UInv_reset (s : UState) (i : Nat) (q : Ptr) (h : UInv s)
    (hl : Store.live s.handles i = true) : UInv (adopt (UniquePtr.Reset s i q) q) := by
  intro o
  have h0 := h o
  have e := Reset_total s i q o
  rw [handles_adopt, callCount_adopt, handedOutCount_adopt, adoptedCount_adopt]
  simp only [handedOutCount, adoptedCount, Reset_adopted, Reset_handedOut, hl, true_and]
    at h0 e ⊢
  split_ifs at e ⊢ <;> omega

theorem UInv_assignNull (s : UState) (i : Nat) (h : UInv s) :
    UInv (UniquePtr.assignNull s i) := by
  intro o
  have h0 := h o
  have e := Reset_total s i none o
  unfold UniquePtr.assignNull
  simp only [handedOutCount, adoptedCount, Reset_adopted, Reset_handedOut, and_false,
    if_false, reduceCtorEq] at h0 e ⊢
  omega

theorem UInv_moveAssign (s : UState) (i j : Nat) (h : UInv s) :
    UInv (UniquePtr.moveAssign s i j) := by
  intro o
  have h0 := h o
  unfold UniquePtr.moveAssign
  split_ifs with hl
  · have e1 := Release_total s j o
    have e2 := Reset_total (UniquePtr.Release s j).1 i (UniquePtr.Release s j).2 o
    rw [Release_handles, live_setFirst] at e2
    rw [Release_handles] at e1
    simp only [hl.1, true_and] at e2
    simp only [handles_setSecond, owners_setSecond, callCount_setSecond]
    simp only [Release_snd] at e2 ⊢
    simp only [handedOutCount, adoptedCount, adopted_setSecond, handedOut_setSecond,
      Reset_adopted, Reset_handedOut, Release_adopted, Release_handedOut] at h0 ⊢
    have e3 : callCount (UniquePtr.Release s j).1 o = callCount s o := by
      simp [callCount]
    rw [e3] at e2
    split_ifs at e1 e2 <;> omega
  · exact h0

theorem UInv_ctorMove (s : UState) (j : Nat) (h : UInv s) : UInv (UniquePtr.ctorMove s j) := by
  intro o
  have h0 := h o
  unfold UniquePtr.ctorMove
  split_ifs with hl
  · have hlt := Store.live_lt_length hl
    have hne : ¬ j = s.handles.length := by omega
    have e1 := owners_append_unique s.handles { first := none, second := 0 } o
    have e2 := owners_setFirst (s.handles ++ [some { first := none, second := 0 }])
      s.handles.length (firstOf s.handles j) o
    have e3 := owners_setFirst
      (setSecond (setFirst (s.handles ++ [some { first := none, second := 0 }])
        s.handles.length (firstOf s.handles j)) s.handles.length
        (secondOf (setFirst (s.handles ++ [some { first := none, second := 0 }])
          s.handles.length (firstOf s.handles j)) j)) j none o
    rw [owners_setSecond] at e3
    simp only [firstOf_setSecond, firstOf_setFirst, firstOf_append, hne, false_and, if_false,
      if_true, Store.live_snoc, decide_True, Bool.true_or, true_and, reduceCtorEq,
      and_false, live_setSecond, live_setFirst] at e1 e2 e3
    simp only [handles_setFirst, handles_setSecond, handles_push_unique, callCount_setFirst,
      callCount_setSecond, callCount_push, firstOf_append, hne, if_false]
    simp only [handedOutCount, adoptedCount] at h0 ⊢
    simp only [handedOut_setSecond, handedOut_setFirst, handedOut_push, adopted_setSecond,
      adopted_setFirst, adopted_push]
    split_ifs at e2 e3 <;> omega
  · exact h0

theorem UInv_ctorMoveConv (s : UState) (j : Nat) (h : UInv s) :
    UInv (UniquePtr.ctorMoveConv s j) := by
  intro o
  have h0 := h o
  unfold UniquePtr.ctorMoveConv
  split_ifs with hl
  · have hlt := Store.live_lt_length hl
    have hne : ¬ j = s.handles.length := by omega
    have hne2 : ¬ s.handles.length = j := by omega
    dsimp only
    generalize secondOf ((UniquePtr.Release (s.push { first := none, second := 0 }) j).1.setFirst
      s.handles.length (UniquePtr.Release (s.push { first := none, second := 0 }) j).2).handles j
      = d
    have e1 := owners_append_unique s.handles { first := none, second := 0 } o
    have e2 := Release_total (s.push { first := none, second := 0 }) j o
    have e3 := owners_setFirst (UniquePtr.Release (s.push { first := none, second := 0 }) j).1.handles
      s.handles.length (UniquePtr.Release (s.push { first := none, second := 0 }) j).2 o
    have e4 := Reset_total
      (((UniquePtr.Release (s.push { first := none, second := 0 }) j).1.setFirst s.handles.length
        (UniquePtr.Release (s.push { first := none, second := 0 }) j).2).setSecond
          s.handles.length d) j none o
    simp only [handedOutCount, adoptedCount, Reset_adopted, Reset_handedOut, adopted_setSecond,
      handedOut_setSecond, adopted_setFirst, handedOut_setFirst, Release_adopted,
      Release_handedOut, adopted_push, handedOut_push] at h0 ⊢
    simp only [and_false, if_false, reduceCtorEq, add_zero, handles_setSecond,
      owners_setSecond, handles_setFirst, callCount_setSecond, callCount_setFirst] at e4
    have e5 : callCount (UniquePtr.Release (s.push { first := none, second := 0 }) j).1 o
        = callCount s o := by
      simp [callCount]
    rw [e5] at e4
    generalize owners (UniquePtr.Reset
      (((UniquePtr.Release (s.push { first := none, second := 0 }) j).1.setFirst s.handles.length
        (UniquePtr.Release (s.push { first := none, second := 0 }) j).2).setSecond
          s.handles.length d) j none).handles o = A at e4 ⊢
    generalize callCount (UniquePtr.Reset
      (((UniquePtr.Release (s.push { first := none, second := 0 }) j).1.setFirst s.handles.length
        (UniquePtr.Release (s.push { first := none, second := 0 }) j).2).setSecond
          s.handles.length d) j none) o = B at e4 ⊢
    generalize owners (setFirst (UniquePtr.Release (s.push { first := none, second := 0 }) j).1.handles
      s.handles.length (UniquePtr.Release (s.push { first := none, second := 0 }) j).2) o = C
      at e3 e4
    generalize owners (UniquePtr.Release (s.push { first := none, second := 0 }) j).1.handles o = D
      at e2 e3
    simp only [Release_handles, Release_snd, handles_push_unique, firstOf_setFirst, firstOf_append,
      hne, hne2, false_and, if_false, if_true, Store.live_snoc, decide_True, Bool.true_or,
      true_and, reduceCtorEq, and_false, live_setFirst] at e1 e2 e3
    split_ifs at e2 e3 <;> omega
  · exact h0

theorem UInv_dtor (s : UState) (i : Nat) (h : UInv s) : UInv (UniquePtr.dtor s i) := by
  intro o
  have h0 := h o
  unfold UniquePtr.dtor
  split_ifs with hl
  · cases hf : firstOf s.handles i with
    | none =>
      have e := owners_kill_unique s.handles i o
      simp only [hf, reduceCtorEq, if_false] at e
      simp only [handles_endHandle_unique, callCount_endHandle]
      simp only [handedOutCount, adoptedCount, adopted_endHandle, handedOut_endHandle] at h0 ⊢
      omega
    | some c =>
      have e1 := owners_setFirst s.handles i none o
      have e2 := owners_kill_unique (setFirst s.handles i none) i o
      simp only [firstOf_setFirst, hl, and_self, if_true, reduceCtorEq, if_false,
        and_false, hf, Option.some.injEq] at e1 e2
      simp only [handles_endHandle_unique, callCount_endHandle, handles_setFirst, handles_call,
        callCount_setFirst, callCount_call]
      simp only [handedOutCount, adoptedCount, adopted_endHandle, handedOut_endHandle,
        adopted_setFirst, handedOut_setFirst, adopted_call, handedOut_call] at h0 ⊢
      split_ifs at e1 ⊢ <;> omega
  · exact h0

theorem firstOf_setFirst_other (l : List (Option UniquePtr)) (i j : Nat) :
    firstOf (setFirst l i (firstOf l j)) j = firstOf l j := by
  rw [firstOf_setFirst]
  split_ifs <;> rfl

theorem UInv_Swap (s : UState) (i j : Nat) (h : UInv s) : UInv (UniquePtr.Swap s i j) := by
  intro o
  have h0 := h o
  unfold UniquePtr.Swap
  split_ifs with hl
  · have e1 := owners_setFirst s.handles i (firstOf s.handles j) o
    have e2 := owners_setFirst
      (setSecond (setFirst s.handles i (firstOf s.handles j)) i (secondOf s.handles j)) j
      (firstOf s.handles i) o
    rw [owners_setSecond, firstOf_setSecond, firstOf_setFirst_other, live_setSecond,
      live_setFirst] at e2
    simp only [hl.1, hl.2, true_and] at e1 e2
    simp only [handles_setSecond, handles_setFirst, owners_setSecond, callCount_setSecond,
      callCount_setFirst]
    simp only [handedOutCount, adoptedCount, adopted_setSecond, handedOut_setSecond,
      adopted_setFirst, handedOut_setFirst] at h0 ⊢
    generalize owners (setFirst (setSecond (setFirst s.handles i (firstOf s.handles j)) i
      (secondOf s.handles j)) j (firstOf s.handles i)) o = A at e2 ⊢
    generalize owners (setFirst s.handles i (firstOf s.handles j)) o = B at e1 e2
    split_ifs at e1 e2 <;> omega
  · exact h0

theorem UInv_step (s : UState) (op : UOp) (h : UInv s) : UInv (ustep s op) := by
  cases op with
  | ctor p => exact UInv_ctor s p 0 h
  | ctorDel p d => exact UInv_ctor s p d h
  | move j => exact UInv_ctorMove s j h
  | moveConv j => exact UInv_ctorMoveConv s j h
  | moveAssign i j => exact UInv_moveAssign s i j h
  | assignNull i => exact UInv_assignNull s i h
  | dtor i => exact UInv_dtor s i h
  | release i => exact UInv_release s i h
  | reset i q =>
    simp only [ustep]
    split_ifs with hl
    · exact UInv_reset s i q h hl
    · exact h
  | swap i j => exact UInv_Swap s i j h

theorem UInv_run (s : UState) (ops : List UOp) (h : UInv s) : UInv (urun s ops) := by
  induction ops generalizing s with
  | nil => exact h
  | cons op ops ih => exact ih (ustep s op) (UInv_step s op h)

/-! ### Pointers adopted at most once -/

theorem adopted_ctorMove (s : UState) (j : Nat) : (UniquePtr.ctorMove s j).adopted = s.adopted := by
  unfold UniquePtr.ctorMove; split_ifs <;> rfl

theorem adopted_ctorMoveConv (s : UState) (j : Nat) :
    (UniquePtr.ctorMoveConv s j).adopted = s.adopted := by
  unfold UniquePtr.ctorMoveConv; split_ifs <;> simp

theorem adopted_moveAssign (s : UState) (i j : Nat) :
    (UniquePtr.moveAssign s i j).adopted = s.adopted := by
  unfold UniquePtr.moveAssign; split_ifs <;> simp

theorem adopted_dtor (s : UState) (i : Nat) : (UniquePtr.dtor s i).adopted = s.adopted := by
  unfold UniquePtr.dtor
  split_ifs
  · cases firstOf s.handles i <;> rfl
  · rfl

theorem adopted_Swap (s : UState) (i j : Nat) : (UniquePtr.Swap s i j).adopted = s.adopted := by
  unfold UniquePtr.Swap; split_ifs <;> rfl

theorem adoptedCount_step_le (s : UState) (op : UOp) (o : Nat) (hf : op.fresh s = true)
    (h : adoptedCount s o ≤ 1) : adoptedCount (ustep s op) o ≤ 1 := by
  have key : ∀ (t : UState) (p : Ptr), t.adopted = s.adopted →
      (∀ c, p = some c → adoptedCount s c = 0) → adoptedCount (adopt t p) o ≤ 1 := by
    intro t p ht hp
    rw [adoptedCount_adopt]
    have e : adoptedCount t o = adoptedCount s o := by unfold adoptedCount; rw [ht]
    rw [e]
    split_ifs with hc
    · have := hp o hc
      omega
    · exact h
  cases op with
  | ctor p =>
    refine key _ p rfl ?_
    intro c hc; subst hc
    simpa [UOp.fresh] using hf
  | ctorDel p d =>
    refine key _ p rfl ?_
    intro c hc; subst hc
    simpa [UOp.fresh] using hf
  | move j => simpa [ustep, adoptedCount, adopted_ctorMove] using h
  | moveConv j => simpa [ustep, adoptedCount, adopted_ctorMoveConv] using h
  | moveAssign i j => simpa [ustep, adoptedCount, adopted_moveAssign] using h
  | assignNull i => simpa [ustep, adoptedCount, UniquePtr.assignNull] using h
  | dtor i => simpa [ustep, adoptedCount, adopted_dtor] using h
  | release i =>
    simp only [ustep, adoptedCount_handOut]
    simpa [adoptedCount] using h
  | reset i q =>
    simp only [ustep]
    split_ifs
    · refine key _ q (Reset_adopted s i q) ?_
      intro c hc; subst hc
      simpa [UOp.fresh] using hf
    · exact h
  | swap i j => simpa [ustep, adoptedCount, adopted_Swap] using h

theorem adoptedCount_run_le (s : UState) (ops : List UOp) (o : Nat)
    (hf : runFresh s ops = true) (h : adoptedCount s o ≤ 1) :
    adoptedCount (urun s ops) o ≤ 1 := by
  induction ops generalizing s with
  | nil => exact h
  | cons op ops ih =>
    simp only [runFresh, Bool.and_eq_true] at hf
    exact ih (ustep s op) hf.2 (adoptedCount_step_le s op o hf.1 h)

theorem live_of_allDestroyed {s : UState} (h : allDestroyed s = true) (i : Nat) :
    Store.live s.handles i = false := by
  unfold allDestroyed at h
  rw [List.all_eq_true] at h
  unfold Store.live Store.slot
  rcases hx : s.handles[i]? with _ | _ | a
  · rfl
  · rfl
  · have := h (some a) (List.getElem?_mem hx)
    simp at this

/-- Claim C18.  In every run of constructions, move constructions, move
assignments, `= nullptr`, `Reset(q)`, `Release()`, `Swap` and destructions of
`UniquePtr` handles that starts with no handle and adopts each non-null pointer
at most once: a deleter has been called at most once on each pointer, and only on
adopted pointers; no deleter has been called on a pointer that `Release()`
returned; once every handle is destroyed, a deleter has been called exactly once
on each adopted pointer that `Release()` did not return; and `Release()` returns
the stored pointer, leaves the handle empty and calls no deleter. -/
theorem C18_deleter_called_once (ops : List UOp) (hf : runFresh UState.empty ops = true) :
    (∀ o, callCount (urun UState.empty ops) o ≤ 1 ∧
      callCount (urun UState.empty ops) o ≤ adoptedCount (urun UState.empty ops) o) ∧
    (∀ o, 0 < handedOutCount (urun UState.empty ops) o →
      callCount (urun UState.empty ops) o = 0) ∧
    (allDestroyed (urun UState.empty ops) = true →
      ∀ o, 0 < adoptedCount (urun UState.empty ops) o →
        handedOutCount (urun UState.empty ops) o = 0 →
        callCount (urun UState.empty ops) o = 1) ∧
    (∀ i, (UniquePtr.Release (urun UState.empty ops) i).2
          = UniquePtr.Get (urun UState.empty ops) i ∧
        UniquePtr.Get (UniquePtr.Release (urun UState.empty ops) i).1 i = none ∧
        (UniquePtr.Release (urun UState.empty ops) i).1.calls
          = (urun UState.empty ops).calls) := by
  have hI := UInv_run UState.empty ops UInv_empty
  have hA : ∀ o, adoptedCount (urun UState.empty ops) o ≤ 1 := fun o =>
    adoptedCount_run_le UState.empty ops o hf (by simp [adoptedCount, UState.empty])
  refine ⟨?_, ?_, ?_, ?_⟩
  · intro o
    have := hI o
    have := hA o
    constructor <;> omega
  · intro o ho
    have := hI o
    have := hA o
    omega
  · intro hall o ha hh
    have := hI o
    have := hA o
    have h0 : owners (urun UState.empty ops).handles o = 0 :=
      Store.count_eq_zero _ (live_of_allDestroyed hall) o
    omega
  · intro i
    refine ⟨Release_snd _ i, ?_, Release_calls _ i⟩
    unfold UniquePtr.Get
    rw [Release_handles, firstOf_setFirst]
    split_ifs with hc
    · rfl
    · have hl : ¬ Store.live (urun UState.empty ops).handles i = true := by
        intro hl; exact hc ⟨rfl, hl⟩
      exact firstOf_of_not_live hl

/-- Claim C18, witness: three adopted pointers; `5` is deleted by a move
assignment, `7` is returned by `Release()`, `6` is deleted by a destructor. -/
theorem C18_witness :
    callCount (urun UState.empty [UOp.ctor (some 5), UOp.ctorDel (some 6) 2, UOp.ctor (some 7),
        UOp.moveAssign 0 1, UOp.release 2, UOp.dtor 0, UOp.dtor 1, UOp.dtor 2]) 7 = 0 ∧
      callCount (urun UState.empty [UOp.ctor (some 5), UOp.ctorDel (some 6) 2, UOp.ctor (some 7),
        UOp.moveAssign 0 1, UOp.release 2, UOp.dtor 0, UOp.dtor 1, UOp.dtor 2]) 6 = 1 ∧
      callCount (urun UState.empty [UOp.ctor (some 5), UOp.ctorDel (some 6) 2, UOp.ctor (some 7),
        UOp.moveAssign 0 1, UOp.release 2, UOp.dtor 0, UOp.dtor 1, UOp.dtor 2]) 5 = 1 :=
  have h := C18_deleter_called_once [UOp.ctor (some 5), UOp.ctorDel (some 6) 2,
    UOp.ctor (some 7), UOp.moveAssign 0 1, UOp.release 2, UOp.dtor 0, UOp.dtor 1, UOp.dtor 2]
    (by decide)
  ⟨h.2.1 7 (by decide), h.2.2.1 (by decide) 6 (by decide) (by decide),
    h.2.2.1 (by decide) 5 (by decide) (by decide)⟩

end Unique

/-! ## Copy assignment of `SharedPtr` and its guard -/

theorem copyAssign_of_ptr_ne (s : State) (a b : Nat) (ha : live s.shared a = true)
    (hb : live s.shared b = true) (hne : ptrOf s.shared a ≠ ptrOf s.shared b) :
    ptrOf (SharedPtr.copyAssign s a b).shared a = ptrOf s.shared b ∧
      blockOf (SharedPtr.copyAssign s a b).shared a = blockOf s.shared b ∧
      ptrOf (SharedPtr.copyAssign s a b).shared b = ptrOf s.shared b ∧
      blockOf (SharedPtr.copyAssign s a b).shared b = blockOf s.shared b := by
  have hab : ¬ b = a := by
    intro e; subst e; exact hne rfl
  unfold SharedPtr.copyAssign
  simp [ha, hb, hne, hab, ptrOf_setPtr, ptrOf_setBlock, blockOf_setPtr, blockOf_setBlock,
    live_setPtr, live_setBlock]

theorem copyAssign_of_ptr_eq (s : State) (a b : Nat)
    (he : ptrOf s.shared a = ptrOf s.shared b) : SharedPtr.copyAssign s a b = s := by
  unfold SharedPtr.copyAssign
  simp [he]

/-- C21 (code defect): `a = b` on two live `SharedPtr` objects always leaves
`a.Get() == b.Get()`.  When the two pointers differed before the assignment, `a`
also holds the block of `b` afterwards and `a.UseCount() == b.UseCount()`.  When
the two pointers were equal before the assignment, the guard
`this->Get() == (&other)->Get()` returns at once and the state is unchanged: a
handle `a` whose block differed from the block of `b` still holds its own block
afterwards. -/
theorem C21_copy_assignment_guard_compares_pointers (s : State) (a b : Nat)
    (ha : live s.shared a = true) (hb : live s.shared b = true) :
    SharedPtr.Get (SharedPtr.copyAssign s a b) a = SharedPtr.Get (SharedPtr.copyAssign s a b) b ∧
    (ptrOf s.shared a ≠ ptrOf s.shared b →
      blockOf (SharedPtr.copyAssign s a b).shared a = blockOf s.shared b ∧
      blockOf (SharedPtr.copyAssign s a b).shared a =
        blockOf (SharedPtr.copyAssign s a b).shared b ∧
      SharedPtr.UseCount (SharedPtr.copyAssign s a b) a =
        SharedPtr.UseCount (SharedPtr.copyAssign s a b) b) ∧
    (ptrOf s.shared a = ptrOf s.shared b →
      SharedPtr.copyAssign s a b = s ∧
      blockOf (SharedPtr.copyAssign s a b).shared a = blockOf s.shared a ∧
      (blockOf s.shared a ≠ blockOf s.shared b →
        blockOf (SharedPtr.copyAssign s a b).shared a ≠
          blockOf (SharedPtr.copyAssign s a b).shared b)) := by
  refine ⟨?_, ?_, ?_⟩
  · by_cases he : ptrOf s.shared a = ptrOf s.shared b
    · rw [copyAssign_of_ptr_eq s a b he]
      exact he
    · obtain ⟨h1, _, h3, _⟩ := copyAssign_of_ptr_ne s a b ha hb he
      unfold SharedPtr.Get
      rw [h1, h3]
  · intro hne
    obtain ⟨_, h2, _, h4⟩ := copyAssign_of_ptr_ne s a b ha hb hne
    refine ⟨h2, by rw [h2, h4], ?_⟩
    unfold SharedPtr.UseCount
    rw [h2, h4]
  · intro he
    rw [copyAssign_of_ptr_eq s a b he]
    exact ⟨rfl, rfl, fun h => h⟩

/-- C21, failing input: two handles made by `MakeShared`, a copy of the second,
and the aliases `a` (index 2, of the first) and `b` (index 3, of the second) to
the same address `7`.  After `a = b` the handle `a` still holds block `0` with
`UseCount() == 2`, while `b` holds block `1` with `UseCount() == 3`. -/
theorem C21_witness :
    SharedPtr.Get (SharedPtr.copyAssign (run State.empty [Op.makeShared 10, Op.makeShared 20,
        Op.sharedAlias 0 (some 7), Op.sharedAlias 1 (some 7), Op.sharedCopy 1]) 2 3) 2 =
      SharedPtr.Get (SharedPtr.copyAssign (run State.empty [Op.makeShared 10, Op.makeShared 20,
        Op.sharedAlias 0 (some 7), Op.sharedAlias 1 (some 7), Op.sharedCopy 1]) 2 3) 3 ∧
    blockOf (SharedPtr.copyAssign (run State.empty [Op.makeShared 10, Op.makeShared 20,
        Op.sharedAlias 0 (some 7), Op.sharedAlias 1 (some 7), Op.sharedCopy 1]) 2 3).shared 2 ≠
      blockOf (SharedPtr.copyAssign (run State.empty [Op.makeShared 10, Op.makeShared 20,
        Op.sharedAlias 0 (some 7), Op.sharedAlias 1 (some 7), Op.sharedCopy 1]) 2 3).shared 3 ∧
    SharedPtr.UseCount (SharedPtr.copyAssign (run State.empty [Op.makeShared 10,
        Op.makeShared 20, Op.sharedAlias 0 (some 7), Op.sharedAlias 1 (some 7),
        Op.sharedCopy 1]) 2 3) 2 = 2 ∧
    SharedPtr.UseCount (SharedPtr.copyAssign (run State.empty [Op.makeShared 10,
        Op.makeShared 20, Op.sharedAlias 0 (some 7), Op.sharedAlias 1 (some 7),
        Op.sharedCopy 1]) 2 3) 3 = 3 :=
  have h := C21_copy_assignment_guard_compares_pointers
    (run State.empty [Op.makeShared 10, Op.makeShared 20, Op.sharedAlias 0 (some 7),
      Op.sharedAlias 1 (some 7), Op.sharedCopy 1]) 2 3 (by decide) (by decide)
  ⟨h.1, (h.2.2 (by decide)).2.2 (by decide), by decide, by decide⟩

namespace Intrusive

/-! ## `RefCounted`: the counter stops at zero and is never copied -/

/-- C23: for an existing `RefCounted` object whose count is a `size_t` value,
`DecRef` leaves a count of `0` at `0` and takes a count `n > 0` to `n - 1`, so the
count never grows; `Destroy` is called on the object exactly when the count after
the call is `0`, in particular when it was `0` before; no other object and no
handle changes. -/
theorem C23_DecRef_stops_at_zero (s : IState) (o : Nat) (ho : o < s.objects.length)
    (hn : RefCounted.RefCount s o < sizeMod) :
    (RefCounted.RefCount s o = 0 → RefCounted.RefCount (RefCounted.DecRef s o) o = 0) ∧
    (0 < RefCounted.RefCount s o →
      RefCounted.RefCount (RefCounted.DecRef s o) o = RefCounted.RefCount s o - 1) ∧
    RefCounted.RefCount (RefCounted.DecRef s o) o ≤ RefCounted.RefCount s o ∧
    (RefCounted.DecRef s o).destroyed = s.destroyed ++
      (if RefCounted.RefCount (RefCounted.DecRef s o) o = 0 then [o] else []) ∧
    (∀ c, c ≠ o →
      RefCounted.RefCount (RefCounted.DecRef s o) c = RefCounted.RefCount s c) ∧
    (RefCounted.DecRef s o).handles = s.handles := by
  have hR := RefCount_decRefIf s (some o)
  have hD : (RefCounted.DecRef s o).destroyed = s.destroyed ++
      (if o < s.objects.length ∧
          (if 0 < RefCounted.RefCount s o then
            (RefCounted.RefCount s o + sizeMod - 1) % sizeMod else 0) = 0
        then [o] else []) := by
    rw [DecRef_eq]
  have hH : (RefCounted.DecRef s o).handles = s.handles := handles_decRefIf s (some o)
  simp only [decRefIf] at hR
  by_cases hp : 0 < RefCounted.RefCount s o
  · have e := mod_pred hp hn
    have hc := hR o
    simp only [hp, and_self, if_true, e] at hc
    refine ⟨fun h0 => by omega, fun _ => hc, by omega, ?_, ?_, hH⟩
    · rw [hD, hc]
      simp [ho, hp, e]
    · intro c hco
      have hoc : ¬ o = c := fun e => hco e.symm
      simpa [hoc] using hR c
  · have h0 : RefCounted.RefCount s o = 0 := by omega
    have hc := hR o
    simp only [hp, and_false, if_false] at hc
    refine ⟨fun _ => by rw [hc]; exact h0, fun h => absurd h hp, by omega, ?_, ?_, hH⟩
    · rw [hD, hc]
      simp [ho, h0]
    · intro c hco
      have hoc : ¬ o = c := fun e => hco e.symm
      simpa [hoc] using hR c

/-- C23, witness: the object made by `MakeIntrusive` has count `1`; `DecRef` takes
the count to `0` and destroys the object, and a second `DecRef` leaves the count
at `0` and calls `Destroy` again. -/
theorem C23_witness :
    RefCounted.RefCount (irun IState.empty [IOp.makeIntrusive]) 0 = 1 ∧
    RefCounted.RefCount (RefCounted.DecRef (irun IState.empty [IOp.makeIntrusive]) 0) 0 =
      RefCounted.RefCount (irun IState.empty [IOp.makeIntrusive]) 0 - 1 ∧
    (RefCounted.DecRef (irun IState.empty [IOp.makeIntrusive]) 0).destroyed = [0] ∧
    RefCounted.RefCount (RefCounted.DecRef
      (RefCounted.DecRef (irun IState.empty [IOp.makeIntrusive]) 0) 0) 0 = 0 ∧
    (RefCounted.DecRef
      (RefCounted.DecRef (irun IState.empty [IOp.makeIntrusive]) 0) 0).destroyed = [0, 0] :=
  have h1 := C23_DecRef_stops_at_zero (irun IState.empty [IOp.makeIntrusive]) 0
    (by decide) (by decide)
  have h2 := C23_DecRef_stops_at_zero
    (RefCounted.DecRef (irun IState.empty [IOp.makeIntrusive]) 0) 0 (by decide) (by decide)
  ⟨by decide, h1.2.1 (by decide), by decide, h2.1 (by decide), by decide⟩

/-- C24: the copy constructor of `RefCounted` makes a new object with
`RefCount() == 0`, whatever the count of the source, and changes no existing
object, no handle and no `Destroy` record; the copy assignment changes nothing at
all, so the target keeps its count and the source keeps its count. -/
theorem C24_count_is_not_copied (s : IState) (this other : Nat) :
    RefCounted.RefCount (RefCounted.ctorCopy s other) s.objects.length = 0 ∧
    (RefCounted.ctorCopy s other).objects.length = s.objects.length + 1 ∧
    (∀ o, o ≠ s.objects.length →
      RefCounted.RefCount (RefCounted.ctorCopy s other) o = RefCounted.RefCount s o) ∧
    (RefCounted.ctorCopy s other).handles = s.handles ∧
    (RefCounted.ctorCopy s other).destroyed = s.destroyed ∧
    RefCounted.RefCount (RefCounted.assign s this other) this = RefCounted.RefCount s this ∧
    RefCounted.RefCount (RefCounted.assign s this other) other = RefCounted.RefCount s other ∧
    RefCounted.assign s this other = s := by
  have e : RefCounted.ctorCopy s other = RefCounted.ctor s := rfl
  refine ⟨?_, ?_, ?_, rfl, rfl, rfl, rfl, rfl⟩
  · rw [e, RefCount_ctor]
    exact RefCount_of_le (Nat.le_refl _)
  · simp [RefCounted.ctorCopy]
  · intro o _
    rw [e, RefCount_ctor]

end Intrusive

/-! ## The single-counter control block and the `strong` counter -/

theorem counterAt_updAt (h : List Shared.ControlBlock) (c b : Nat)
    (f : Shared.ControlBlock → Shared.ControlBlock) :
    Shared.counterAt (updAt h c f) b =
      if b = c ∧ c < h.length then (match h[c]? with
        | some cb => (f cb).counter
        | none => 0)
      else Shared.counterAt h b := by
  unfold Shared.counterAt
  rw [getElem?_updAt]
  by_cases hb : b = c
  · subst hb
    by_cases hl : b < h.length
    · simp [hl, List.getElem?_eq_getElem hl]
    · simp [hl, List.getElem?_eq_none (Nat.le_of_not_lt hl)]
  · simp [hb]

theorem counterAt_of_le {h : List Shared.ControlBlock} {b : Nat} (hb : h.length ≤ b) :
    Shared.counterAt h b = 0 := by
  unfold Shared.counterAt; rw [List.getElem?_eq_none hb]

theorem counterAt_Increment (s : Shared.State) (c b : Nat) :
    Shared.counterAt (Shared.ControlBlock.Increment s c).heap b =
      Shared.counterAt s.heap b + if b = c ∧ c < s.heap.length then 1 else 0 := by
  unfold Shared.ControlBlock.Increment
  simp only [counterAt_updAt]
  by_cases hb : b = c
  · subst hb
    by_cases hl : b < s.heap.length
    · simp [hl, Shared.counterAt, List.getElem?_eq_getElem hl]
    · simp [hl]
  · simp [hb]

/-- What `Decrement` does, in one equation. -/
theorem Decrement_eq (s : Shared.State) (c : Nat) :
    Shared.ControlBlock.Decrement s c =
      { heap := updAt s.heap c (fun cb => { cb with counter := cb.counter - 1 })
        log := s.log ++
          (if c < s.heap.length ∧ Shared.counterAt s.heap c = 1 then
            [Event.release c, Event.dealloc c]
           else []) } := by
  unfold Shared.ControlBlock.Decrement
  by_cases hl : c < s.heap.length
  · have e : Shared.counterAt
        (updAt s.heap c (fun cb => { cb with counter := cb.counter - 1 })) c =
        Shared.counterAt s.heap c - 1 := by
      rw [counterAt_updAt]
      simp [hl, Shared.counterAt, List.getElem?_eq_getElem hl]
    simp only [hl, if_true, e, true_and]
    by_cases h1 : Shared.counterAt s.heap c = 1
    · simp [h1, Shared.ControlBlock.deleteThis, Shared.ControlBlock.Deleter]
    · have h0 : ¬ Shared.counterAt s.heap c - 1 = 0 := by omega
      simp [h1, h0]
  · have e : updAt s.heap c (fun cb => { cb with counter := cb.counter - 1 }) = s.heap := by
      unfold updAt
      rw [List.getElem?_eq_none (Nat.le_of_not_lt hl)]
    simp [hl, e]

theorem counterAt_Decrement (s : Shared.State) (c b : Nat) :
    Shared.counterAt (Shared.ControlBlock.Decrement s c).heap b =
      Shared.counterAt s.heap b - if b = c ∧ c < s.heap.length then 1 else 0 := by
  rw [Decrement_eq]
  simp only [counterAt_updAt]
  by_cases hb : b = c
  · subst hb
    by_cases hl : b < s.heap.length
    · simp [hl, Shared.counterAt, List.getElem?_eq_getElem hl]
    · simp [hl]
  · simp [hb]

theorem length_heap_DecrementStrong (s : State) (c : Nat) :
    (DecrementStrong s c).heap.length = s.heap.length := by
  rw [DecrementStrong_eq]; exact length_updAt _ _ _

theorem Sim_empty : Sim Shared.State.empty State.empty := by
  refine ⟨rfl, rfl, ?_⟩
  intro b
  simp [Shared.State.empty, State.empty, Shared.counterAt, strongAt, weakAt]

theorem Sim_newBlock {s : Shared.State} {t : State} (h : Sim s t) (k : BlockKind) (p : Ptr) :
    Sim (s.newBlock k p) (t.newBlock k p) := by
  obtain ⟨h1, h2, h3⟩ := h
  refine ⟨h1, ?_, ?_⟩
  · simp [Shared.State.newBlock, State.newBlock, h2]
  · intro b
    obtain ⟨h4, h5⟩ := h3 b
    simp only [State.newBlock, strongAt_append, weakAt_append, Shared.State.newBlock]
    have e : Shared.counterAt (s.heap ++ [{ kind := k, ptr := p }]) b =
        if b = s.heap.length then 1 else Shared.counterAt s.heap b := by
      unfold Shared.counterAt; rw [List.getElem?_append]
      by_cases hb1 : b < s.heap.length
      · have : b ≠ s.heap.length := by omega
        simp [hb1, this]
      · by_cases hb2 : b = s.heap.length
        · subst hb2; simp
        · have : s.heap.length < b := by omega
          have e0 : (([{ kind := k, ptr := p }] : List Shared.ControlBlock))[b - s.heap.length]?
              = none := List.getElem?_eq_none (by simp; omega)
          simp [hb1, hb2, e0, List.getElem?_eq_none (show s.heap.length ≤ b by omega)]
    rw [e, ← h2]
    by_cases hb : b = s.heap.length
    · simp [hb]
    · simp [hb, h4, h5]

theorem Sim_step {s : Shared.State} {t : State} (h : Sim s t) (b : Nat) (op : CounterOp) :
    Sim (stepCounter s b op) (stepStrong t b op) := by
  obtain ⟨h1, h2, h3⟩ := h
  cases op with
  | increment =>
    refine ⟨h1, ?_, ?_⟩
    · simp [stepCounter, stepStrong, Shared.ControlBlock.Increment, length_updAt,
        length_IncrementStrong, h2]
    · intro c
      obtain ⟨h4, h5⟩ := h3 c
      simp only [stepCounter, stepStrong, counterAt_Increment, strongAt_IncrementStrong,
        weakAt_IncrementStrong, h2, h4, h5, and_self]
  | decrement =>
    obtain ⟨h4, h5⟩ := h3 b
    refine ⟨?_, ?_, ?_⟩
    · simp only [stepCounter, stepStrong, log_DecrementStrong, Decrement_eq, h1, h2, h4, h5,
        if_true]
    · simp [stepCounter, stepStrong, Decrement_eq, length_updAt, length_heap_DecrementStrong,
        h2]
    · intro c
      obtain ⟨h6, h7⟩ := h3 c
      simp only [stepCounter, stepStrong, counterAt_Decrement, strongAt_DecrementStrong,
        weakAt_DecrementStrong, h2, h6, h7, and_true]
      by_cases hc : c = b
      · subst hc; simp
      · have : ¬ b = c := fun e => hc e.symm
        simp [hc, this]

theorem Sim_run {s : Shared.State} {t : State} (h : Sim s t) (b : Nat) (ops : List CounterOp) :
    Sim (runCounter s b ops) (runStrong t b ops) := by
  induction ops generalizing s t with
  | nil => exact h
  | cons op ops ih => exact ih (Sim_step h b op)

/-- C22: started from a new block (count `1`), after every sequence of increments
and decrements the counter of the single-counter block of `src/shared/sw_fwd.h`
equals `strong` of the two-counter block of `src/weak/sw_fwd.h`, whose `weak`
stays `0`, and the two event logs are the same list; an increment of either
block logs nothing, and a decrement of either block logs the payload release
followed by the block deallocation exactly when it takes the count from `1` to
`0`, and nothing otherwise. -/
theorem C22_single_counter_equals_strong (k : BlockKind) (p : Ptr) (ops : List CounterOp) :
    Shared.counterAt (Shared.State.empty.newBlock k p).heap 0 = 1 ∧
    strongAt (State.empty.newBlock k p).heap 0 = 1 ∧
    Shared.counterAt (runCounter (Shared.State.empty.newBlock k p) 0 ops).heap 0 =
      strongAt (runStrong (State.empty.newBlock k p) 0 ops).heap 0 ∧
    weakAt (runStrong (State.empty.newBlock k p) 0 ops).heap 0 = 0 ∧
    (runCounter (Shared.State.empty.newBlock k p) 0 ops).log =
      (runStrong (State.empty.newBlock k p) 0 ops).log ∧
    (stepCounter (runCounter (Shared.State.empty.newBlock k p) 0 ops) 0
        CounterOp.increment).log = (runCounter (Shared.State.empty.newBlock k p) 0 ops).log ∧
    (stepStrong (runStrong (State.empty.newBlock k p) 0 ops) 0
        CounterOp.increment).log = (runStrong (State.empty.newBlock k p) 0 ops).log ∧
    (stepCounter (runCounter (Shared.State.empty.newBlock k p) 0 ops) 0
        CounterOp.decrement).log =
      (runCounter (Shared.State.empty.newBlock k p) 0 ops).log ++
        (if Shared.counterAt (runCounter (Shared.State.empty.newBlock k p) 0 ops).heap 0 = 1
          then [Event.release 0, Event.dealloc 0] else []) ∧
    (stepStrong (runStrong (State.empty.newBlock k p) 0 ops) 0
        CounterOp.decrement).log =
      (runStrong (State.empty.newBlock k p) 0 ops).log ++
        (if strongAt (runStrong (State.empty.newBlock k p) 0 ops).heap 0 = 1
          then [Event.release 0, Event.dealloc 0] else []) := by
  have h := Sim_run (Sim_newBlock Sim_empty k p) 0 ops
  obtain ⟨h1, _, h3⟩ := h
  obtain ⟨h4, h5⟩ := h3 0
  refine ⟨rfl, rfl, h4, h5, h1, rfl, rfl, ?_, ?_⟩
  · simp only [stepCounter, Decrement_eq]
    by_cases hl : 0 < (runCounter (Shared.State.empty.newBlock k p) 0 ops).heap.length
    · simp [hl]
    · have h0 := @counterAt_of_le (runCounter (Shared.State.empty.newBlock k p) 0 ops).heap 0
        (by omega)
      simp [hl, h0]
  · simp only [stepStrong, log_DecrementStrong, h5, if_true]
    by_cases hl : 0 < (runStrong (State.empty.newBlock k p) 0 ops).heap.length
    · simp [hl]
    · have h0 := @strongAt_of_le (runStrong (State.empty.newBlock k p) 0 ops).heap 0 (by omega)
      simp [hl, h0]

end SmartPtrs
